import Mathlib

/-!
# Droplet range-and-bearing firmware: model and checked properties

Embedding of `src/droplet_code/src/range_algs.c` (the canonical range-and-bearing
pipeline) and of `pretty_angle` and `pack_measurements_into_matrix` from the legacy
`src/DropletHardware/src/Range_Algorithms.c`.

Conventions of the embedding

* Global variables of the firmware are the fields of `State`; every C function that
  touches them is a function `State → State` (plus its return value).
* Calls into the hardware drivers and diagnostic prints are recorded, in program order,
  in `State.trace`. Busy-wait loops against the clock are recorded as one event each;
  their duration is not modelled.
* `ATOMIC_BLOCK` only disables interrupts; in this sequential model its body is run in place.
* Fixed-width integers are `Nat`/`Int` with an explicit reduction where the C type narrows.
  The target is an AVR microcontroller compiled with avr-gcc, so `int` has 16 bits: the
  shifts `1<<(4*i)` and `0xF<<(4*i)` of `processBrightMeas` are computed in 16 bits
  (`shl16`) and then converted to `uint32_t`.
* Floating-point code of the cycle controller is generic in a record `FloatOps F` of the
  float operations it uses, so what is proved holds for every float semantics.
  The photometric functions are modelled over exact reals, with the exceptional IEEE
  results (infinities, NaN) of division and `sqrtf` made explicit in `FVal`;
  `realFloat` is the instance of `FloatOps` over these reals in which the estimator
  routines are the modelled ones.
* In `range_estimate` the entry `range_matrix[e][s]` is a function of the cell
  (`rangeCell`) and the search for the brightest cell is a fold of its own; the loop of
  the source does both in one pass, and neither reads what the other writes.
* A definition whose comment starts with "Stated from the spec" follows the wording of
  the specification, not the source; it is what the source is compared with.
-/

namespace Droplet

/-! ## Data model -/

/-- Hardware-driver calls and diagnostic prints issued by the firmware. -/
inductive Event where
  /-- The call `hp_ir_targeted_cmd(ALL_DIRS, &c, len, tag)`. -/
  | hp_ir_targeted_cmd (c : Char) (len : Nat) (tag : Nat)
  /-- The loop `while((get_time() - rnbCmdSentTime) < POST_BROADCAST_DELAY) delay_us(500)`. -/
  | wait_post_broadcast
  /-- The call `set_all_ir_powers(p)`. -/
  | set_all_ir_powers (p : Nat)
  /-- The loop `while((get_time() - pre_sync_op) < TIME_FOR_SET_IR_POWERS) delay_us(500)`. -/
  | wait_set_ir_powers
  /-- The call `ir_led_on(dir)`. -/
  | ir_led_on (dir : Nat)
  /-- The loop `while((get_time() - pre_sync_op) < TIME_FOR_GET_IR_VALS) delay_us(500)`. -/
  | wait_get_ir_vals
  /-- The call `ir_led_off(dir)`. -/
  | ir_led_off (dir : Nat)
  /-- The call `delay_ms(DELAY_BETWEEN_RB_TRANSMISSIONS)`. -/
  | delay_between_rb_transmissions
  /-- The print "Got 15 consecutive nothings from sensor i". -/
  | health_fault (sensor : Nat)
  /-- The call `startup_light_sequence()`. -/
  | startup_light_sequence
  /-- The call `print_brightMeas()`. -/
  | print_brightMeas
  deriving DecidableEq, Repr

/-- The published estimate `last_good_rnb` (fields `id`, `range`, `bearing`, `heading`, `conf`). -/
structure rnb_data where
  id : Nat
  range : Nat
  bearing : Int
  heading : Int
  conf : Nat
  deriving DecidableEq, Repr

/-- The matrix `int16_t brightMeas[6][6]`, indexed `[emitter][sensor]`. -/
abbrev BrightMat := Fin 6 → Fin 6 → Int

/-- Every entry is a value of type `int16_t`. -/
def BrightMat.isInt16 (bm : BrightMat) : Prop :=
  ∀ e s, -32768 ≤ bm e s ∧ bm e s ≤ 32767

/-- The global variables read or written by the range-and-bearing code, and the trace. -/
structure State where
  rnbProcessingFlag : Nat
  rnbCmdID : Nat
  rnbCmdSentTime : Nat
  hp_ir_block_bm : Nat
  sensorHealthHistory : Nat
  brightMeas : BrightMat
  last_good_rnb : rnb_data
  rnb_updated : Nat
  trace : List Event

/-- Append one event to the trace. -/
def State.emit (st : State) (ev : Event) : State :=
  { st with trace := st.trace ++ [ev] }

/-- The six directions, in loop order. -/
def dirs : List (Fin 6) := [0, 1, 2, 3, 4, 5]

/-- Conversion of an integer to `int16_t` (two's complement wrap-around). -/
def wrap16 (x : Int) : Int := (x + 32768) % 65536 - 32768

/-- The state set up by `range_algs_init`, given the other globals. -/
def range_algs_init (st : State) : State :=
  { st with
    sensorHealthHistory := 0
    brightMeas := fun _ _ => 0
    rnbCmdID := 0
    rnbProcessingFlag := 0 }

/-! ## processBrightMeas -/

/-- Loop state of the matrix sweep of `processBrightMeas`:
the matrix, `valSum` and `allColZeroCheck`. -/
structure SweepAcc where
  bm : BrightMat
  valSum : Int
  allColZeroCheck : Nat

/-- Body of the inner loop of `processBrightMeas` for cell `[e][s]`. -/
def sweepCell (e : Fin 6) (acc : SweepAcc) (s : Fin 6) : SweepAcc :=
  let val := acc.bm e s
  let nn : Nat := if val ≠ 0 then 1 else 0
  -- allColZeroCheck &= ~((!!val)<<s);   (the left operand is a uint8_t)
  let chk := acc.allColZeroCheck &&& (0xFF ^^^ (nn <<< s.val))
  -- brightMeas[e][s] = val;
  let bm : BrightMat := fun e1 s1 => if e1 = e ∧ s1 = s then val else acc.bm e1 s1
  -- valSum += val;   (valSum is an int16_t)
  { bm := bm, valSum := wrap16 (acc.valSum + val), allColZeroCheck := chk }

/-- The two nested loops of `processBrightMeas`. -/
def sweep (bm : BrightMat) : SweepAcc :=
  dirs.foldl (fun acc e => dirs.foldl (sweepCell e) acc)
    { bm := bm, valSum := 0, allColZeroCheck := 0b00111111 }

/-- Loop state of the health loop: `sensorHealthHistory`, `problem` and the prints so far. -/
structure HealthAcc where
  hist : Nat
  problem : Nat
  faults : List Event

/-- An `int` shift `x << n` on the target (avr-gcc, where `int` has 16 bits): the low 16
bits of the product, read as a signed number. C leaves the result undefined when the
count reaches the width of `int` or a one is shifted into the sign bit; the AVR code
shifts the 16-bit register, which is what this computes (0 for a count of 16 or more). -/
def shl16 (x : Int) (n : Nat) : Int := wrap16 (x * 2 ^ n)

/-- Conversion of an `int` to `uint32_t`: reduction modulo `2^32` (a negative `int` is
sign-extended). -/
def toUInt32 (x : Int) : Nat := (x % 2 ^ 32).toNat

/-- The statement `sensorHealthHistory &= ~(0xF<<(4*i))`: the mask `~(0xF<<(4*i))` is
computed in `int` and then converted to `uint32_t`. -/
def clearNibble (h i : Nat) : Nat := h &&& toUInt32 (-(shl16 0xF (4 * i)) - 1)

/-- Body of the health loop of `processBrightMeas` for sensor `i`. -/
def healthStep (allColZeroCheck : Nat) (acc : HealthAcc) (i : Nat) : HealthAcc :=
  let h1 :=
    if allColZeroCheck &&& (1 <<< i) ≠ 0 then
      -- sensorHealthHistory += (1<<(4*i));   (the right operand is an int)
      (acc.hist + toUInt32 (shl16 1 (4 * i))) % 2 ^ 32
    else
      clearNibble acc.hist i
  if (h1 >>> (4 * i)) &&& 0xF = 0xF then
    { hist := clearNibble h1 i, problem := 1, faults := acc.faults ++ [Event.health_fault i] }
  else
    { acc with hist := h1 }

/-- The health loop of `processBrightMeas`, `i = 0..5`. -/
def healthLoop (allColZeroCheck hist : Nat) : HealthAcc :=
  (List.range 6).foldl (healthStep allColZeroCheck) { hist := hist, problem := 0, faults := [] }

/-- The state of the health loop after its first `m` iterations. -/
def healthPrefix (allColZeroCheck hist m : Nat) : HealthAcc :=
  (List.range m).foldl (healthStep allColZeroCheck) { hist := hist, problem := 0, faults := [] }

/-- The function `processBrightMeas`: new state and returned `valSum`. -/
def processBrightMeas (st : State) : State × Int :=
  let sw := sweep st.brightMeas
  let hl := healthLoop sw.allColZeroCheck st.sensorHealthHistory
  let st1 : State :=
    { st with
      brightMeas := sw.bm
      sensorHealthHistory := hl.hist
      trace := st.trace ++ hl.faults }
  let st2 := if hl.problem ≠ 0 then st1.emit Event.startup_light_sequence else st1
  (st2, sw.valSum)

/-- The 4-bit health counter of sensor `s` inside `sensorHealthHistory`. -/
def healthCounter (hist s : Nat) : Nat := (hist >>> (4 * s)) &&& 0xF

/-! ## The cycle controller -/

/-- The floating-point operations used by `use_rnb_data`, over an arbitrary carrier `F`.
The four estimator routines (`calculate_bearing_and_heading`, `get_initial_range_guess`,
`range_estimate`, `calculate_innovation`) are float computations over the matrix whose
results the controller only tests and converts; they are members of the record, so the
controller is modelled for every result they can produce (their diagnostic prints are
not recorded). `DROPLET_RADIUS` is a constant
of a header that is not part of the sources. -/
structure FloatOps (F : Type) where
  lit : ℚ → F
  ofInt : Int → F
  mul : F → F → F
  div : F → F → F
  sqrtf : F → F
  lt : F → F → Bool
  gt : F → F → Bool
  ne : F → F → Bool
  isnan : F → Bool
  toUInt16 : F → Nat
  toInt16 : F → Int
  toUInt8 : F → Nat
  rad_to_deg : F → F
  DROPLET_RADIUS : F
  calculate_bearing_and_heading : BrightMat → F × F
  get_initial_range_guess : BrightMat → F → F → Nat → F
  range_estimate : BrightMat → F → F → F → Nat → F
  calculate_innovation : BrightMat → F → F → F → F

/-- The function `use_rnb_data`. -/
def use_rnb_data {F : Type} (fl : FloatOps F) (st0 : State) : State :=
  let power := 255
  let (st, matrixSum) := processBrightMeas st0
  let (bearing, heading) := fl.calculate_bearing_and_heading st.brightMeas
  let st := st.emit Event.print_brightMeas
  let initial_range := fl.get_initial_range_guess st.brightMeas bearing heading power
  if fl.ne initial_range (fl.lit 0) && !fl.isnan initial_range then
    let range := fl.range_estimate st.brightMeas initial_range bearing heading power
    if !fl.isnan range then
      let range := if fl.lt range (fl.mul (fl.lit 2) fl.DROPLET_RADIUS) then fl.lit 5.0 else range
      let conf := fl.sqrtf (fl.ofInt matrixSum)
      let error := fl.calculate_innovation st.brightMeas range bearing heading
      if fl.gt error (fl.lit 2.5) then
        { st with rnbProcessingFlag := 0 }
      else
        let conf := fl.div conf (fl.mul error error)
        let conf := if fl.gt error (fl.lit 3.0) then fl.div conf (fl.lit 10.0) else conf
        let conf := if fl.isnan conf then fl.lit 0.01 else conf
        let st :=
          { st with
            last_good_rnb :=
              { id := st.rnbCmdID
                range := fl.toUInt16 (fl.mul (fl.lit 10.0) range)
                bearing := fl.toInt16 (fl.rad_to_deg bearing)
                heading := fl.toInt16 (fl.rad_to_deg heading)
                conf := fl.toUInt8 conf }
            rnb_updated := 1 }
        { st with rnbProcessingFlag := 0 }
    else
      { st with rnbProcessingFlag := 0 }
  else
    { st with rnbProcessingFlag := 0 }

/-- What the environment returns to one call of `broadcast_rnb_data`:
the clock value read by `get_time()` and the result of `hp_ir_targeted_cmd`. -/
structure BroadcastEnv where
  get_time : Nat
  cmd_result : Nat

/-- Body of the emitter loop of `ir_range_blast` for direction `dir`. -/
def blastDir (st : State) (dir : Fin 6) : State :=
  (((st.emit (Event.ir_led_on dir.val)).emit Event.wait_get_ir_vals).emit
    (Event.ir_led_off dir.val)).emit Event.delay_between_rb_transmissions

/-- The function `ir_range_blast` (its argument `power` is unused in the source). -/
def ir_range_blast (_power : Nat) (st : State) : State :=
  let st := st.emit Event.wait_post_broadcast
  let st := st.emit (Event.set_all_ir_powers 256)
  let st := st.emit Event.wait_set_ir_powers
  dirs.foldl blastDir st

/-- The function `broadcast_rnb_data`. -/
def broadcast_rnb_data (env : BroadcastEnv) (st0 : State) : State :=
  let power := 255
  -- ATOMIC_BLOCK { if(!rnbProcessingFlag){ rnbProcessingFlag = 1; goAhead = 1; } }
  let (st, goAhead) :=
    if st0.rnbProcessingFlag = 0 then ({ st0 with rnbProcessingFlag := 1 }, 1) else (st0, 0)
  let st :=
    if goAhead ≠ 0 then
      let st := { st with rnbCmdSentTime := env.get_time }
      let st := st.emit (Event.hp_ir_targeted_cmd 'r' 65 (st.rnbCmdSentTime &&& 0xFFFF))
      if env.cmd_result ≠ 0 then
        let st := { st with hp_ir_block_bm := 0xFF }
        let st := ir_range_blast power st
        { st with hp_ir_block_bm := 0 }
      else st
    else st
  -- ATOMIC_BLOCK { rnbProcessingFlag = 0; }
  { st with rnbProcessingFlag := 0 }

/-- A state with every global at zero and an empty trace. -/
def zeroState : State :=
  { rnbProcessingFlag := 0, rnbCmdID := 0, rnbCmdSentTime := 0, hp_ir_block_bm := 0,
    sensorHealthHistory := 0, brightMeas := fun _ _ => 0,
    last_good_rnb := { id := 0, range := 0, bearing := 0, heading := 0, conf := 0 },
    rnb_updated := 0, trace := [] }

/-! ## Photometric model over exact reals -/

/-- Value of a float expression computed over exact reals: a real number or one of the
exceptional IEEE results (plus or minus infinity, not-a-number). -/
inductive FVal where
  | num (x : ℝ)
  | pinf
  | ninf
  | nan

/-- Float division `a / b` of two real numbers: dividing a nonzero number by zero gives an
infinity, `0/0` gives NaN. -/
noncomputable def fdiv (a b : ℝ) : FVal :=
  if b = 0 then (if 0 < a then FVal.pinf else if a < 0 then FVal.ninf else FVal.nan)
  else FVal.num (a / b)

/-- Float subtraction `v - c` of a real constant. -/
noncomputable def FVal.subReal : FVal → ℝ → FVal
  | FVal.num x, c => FVal.num (x - c)
  | FVal.pinf, _ => FVal.pinf
  | FVal.ninf, _ => FVal.ninf
  | FVal.nan, _ => FVal.nan

/-- Float addition `v + c` of a real constant. -/
noncomputable def FVal.addReal : FVal → ℝ → FVal
  | FVal.num x, c => FVal.num (x + c)
  | FVal.pinf, _ => FVal.pinf
  | FVal.ninf, _ => FVal.ninf
  | FVal.nan, _ => FVal.nan

/-- The C library function `sqrtf`: NaN for a negative argument. -/
noncomputable def FVal.sqrtf : FVal → FVal
  | FVal.num x => if x < 0 then FVal.nan else FVal.num (Real.sqrt x)
  | FVal.pinf => FVal.pinf
  | FVal.ninf => FVal.nan
  | FVal.nan => FVal.nan

/-- The C library function `fmodf(x, y)`: `x - n*y` with `n` the quotient `x/y`
rounded toward zero. -/
noncomputable def fmodf (x y : ℝ) : ℝ :=
  x - (if 0 ≤ x / y then (⌊x / y⌋ : ℝ) else (⌈x / y⌉ : ℝ)) * y

/-- The function `pretty_angle`, with `M_PI` the real number π. -/
noncomputable def pretty_angle (alpha : ℝ) : ℝ :=
  if alpha ≥ 0 then fmodf (alpha + Real.pi) (2 * Real.pi) - Real.pi
  else fmodf (alpha - Real.pi) (2 * Real.pi) + Real.pi

/-- The function `amplitude_model`. -/
noncomputable def amplitude_model (r : ℝ) : ℝ :=
  if r ≤ 0.5 then 2597.1 else 3.90804 + 13427.5 / (5.17716 + (r - 0.528561) ^ 2)

/-- The function `inverse_amplitude_model` on a real `lambda`: for power 255,
`(lambda>=2597.1) ? 0.5 : (sqrtf(13427.5/(lambda-3.90804)-5.17716)+0.528561)`;
with any other power it prints an error and returns 0. -/
noncomputable def inverse_amplitude_model (lambda : ℝ) (power : Nat) : FVal :=
  if power = 255 then
    if lambda ≥ 2597.1 then FVal.num 0.5
    else (((fdiv 13427.5 (lambda - 3.90804)).subReal 5.17716).sqrtf).addReal 0.528561
  else FVal.num 0

/-! ## Consecutive cycles -/

/-- One receive cycle as far as the health history is concerned: the acquisition stores
the matrix `m` in `brightMeas`, then `processBrightMeas` runs. No other function of the
file writes `sensorHealthHistory`. -/
def processCycle (st : State) (m : BrightMat) : State :=
  (processBrightMeas { st with brightMeas := m }).1

/-- Consecutive cycles on the matrices `ms`, in order. -/
def runCycles (ms : List BrightMat) (st : State) : State :=
  ms.foldl processCycle st

/-- A float semantics for tests: exact rational arithmetic (no NaN arises), `sqrtf`
rounded down to a whole number, conversions to integers by truncation, and estimator
routines that return the given values whatever the matrix. -/
def ratFloat (radius initialRange refinedRange innov : ℚ) : FloatOps ℚ where
  lit := fun q => q
  ofInt := fun z => (z : ℚ)
  mul := fun a b => a * b
  div := fun a b => a / b
  sqrtf := fun a => (Nat.sqrt ⌊a⌋.toNat : ℚ)
  lt := fun a b => decide (a < b)
  gt := fun a b => decide (a > b)
  ne := fun a b => decide (a ≠ b)
  isnan := fun _ => false
  toUInt16 := fun a => ⌊a⌋.toNat % 65536
  toInt16 := fun a => wrap16 ⌊a⌋
  toUInt8 := fun a => ⌊a⌋.toNat % 256
  rad_to_deg := fun a => a * 180 * 7 / 22
  DROPLET_RADIUS := radius
  calculate_bearing_and_heading := fun _ => (0, 0)
  get_initial_range_guess := fun _ _ _ _ => initialRange
  range_estimate := fun _ _ _ _ _ => refinedRange
  calculate_innovation := fun _ _ _ _ => innov

/-- The locals `bearing`, `heading` of `use_rnb_data`. -/
def rnbAngles {F : Type} (fl : FloatOps F) (st : State) : F × F :=
  fl.calculate_bearing_and_heading st.brightMeas

/-- The local `initial_range` of `use_rnb_data`. -/
def rnbInitialRange {F : Type} (fl : FloatOps F) (st : State) : F :=
  fl.get_initial_range_guess st.brightMeas (rnbAngles fl st).1 (rnbAngles fl st).2 255

/-- The local `range` of `use_rnb_data` as returned by `range_estimate`. -/
def rnbRefinedRange {F : Type} (fl : FloatOps F) (st : State) : F :=
  fl.range_estimate st.brightMeas (rnbInitialRange fl st) (rnbAngles fl st).1
    (rnbAngles fl st).2 255

/-- The local `range` of `use_rnb_data` after `if(range<2*DROPLET_RADIUS) range=5.0;`. -/
def rnbFlooredRange {F : Type} (fl : FloatOps F) (st : State) : F :=
  if fl.lt (rnbRefinedRange fl st) (fl.mul (fl.lit 2) fl.DROPLET_RADIUS) then fl.lit 5.0
  else rnbRefinedRange fl st

/-- The local `error` of `use_rnb_data`. -/
def rnbInnovation {F : Type} (fl : FloatOps F) (st : State) : F :=
  fl.calculate_innovation st.brightMeas (rnbFlooredRange fl st) (rnbAngles fl st).1
    (rnbAngles fl st).2

/-- The three tests of `use_rnb_data` that lead to a publication: `initial_range` is
nonzero and not a NaN, `range` is not a NaN, and not `error > 2.5`. -/
def rnbAccepted {F : Type} (fl : FloatOps F) (st : State) : Bool :=
  (fl.ne (rnbInitialRange fl st) (fl.lit 0) && !fl.isnan (rnbInitialRange fl st)) &&
    (!fl.isnan (rnbRefinedRange fl st) && !fl.gt (rnbInnovation fl st) (fl.lit 2.5))

/-! ## Geometry tables and estimator routines over exact reals -/

/-- Modelled from the spec: the macro `SQRT3_OVER2` is defined in a header that is not part
of the sources; by its name, and by the spec's "unit vectors at 60° increments", it is
the square root of 3 divided by 2. -/
noncomputable def SQRT3_OVER2 : ℝ := Real.sqrt 3 / 2

/-- The table `bearingBasis[6][2]` (an index outside `0..5` is not modelled and reads 0). -/
noncomputable def bearingBasis (j : Nat) : ℝ × ℝ :=
  match j with
  | 0 => (SQRT3_OVER2, -0.5)
  | 1 => (0, -1)
  | 2 => (-SQRT3_OVER2, -0.5)
  | 3 => (-SQRT3_OVER2, 0.5)
  | 4 => (0, 1)
  | 5 => (SQRT3_OVER2, 0.5)
  | _ => (0, 0)

/-- The table `scaledBearingBasis[6][2]`. -/
noncomputable def scaledBearingBasis (j : Nat) : ℝ × ℝ :=
  match j with
  | 0 => (1.8038, -1.0414)
  | 1 => (0.0, -2.0828)
  | 2 => (-1.8038, -1.0414)
  | 3 => (-1.8038, 1.0414)
  | 4 => (0.0, 2.0828)
  | 5 => (1.8038, 1.0414)
  | _ => (0, 0)

/-- The table `headingBasis[6][2]`. -/
noncomputable def headingBasis (j : Nat) : ℝ × ℝ :=
  match j with
  | 0 => (-1, 0)
  | 1 => (-0.5, SQRT3_OVER2)
  | 2 => (0.5, SQRT3_OVER2)
  | 3 => (1, 0)
  | 4 => (0.5, -SQRT3_OVER2)
  | 5 => (-0.5, -SQRT3_OVER2)
  | _ => (0, 0)

/-- The table `basis_angle[6]`, with `M_PI` the real number π and `M_PI_2` its half. -/
noncomputable def basis_angle (j : Nat) : ℝ :=
  match j with
  | 0 => -(Real.pi / 6.0)
  | 1 => -(Real.pi / 2)
  | 2 => -((5.0 * Real.pi) / 6.0)
  | 3 => (5.0 * Real.pi) / 6.0
  | 4 => Real.pi / 2
  | 5 => Real.pi / 6.0
  | _ => 0

/-- The function `getCosBearingBasis(i, j)`. -/
noncomputable def getCosBearingBasis (_i j : Nat) : ℝ := (bearingBasis j).1

/-- The function `getSinBearingBasis(i, j)`. -/
noncomputable def getSinBearingBasis (_i j : Nat) : ℝ := (bearingBasis j).2

/-- The function `getCosHeadingBasis(i, j)`. -/
noncomputable def getCosHeadingBasis (i j : Nat) : ℝ := (headingBasis ((j + (6 - i)) % 6)).1

/-- The function `getSinHeadingBasis(i, j)`. -/
noncomputable def getSinHeadingBasis (i j : Nat) : ℝ := (headingBasis ((j + (6 - i)) % 6)).2

/-- The C library function `atan2f(y, x)` on exact reals: the angle in `(-π, π]` of the
point `(x, y)`, and 0 at the origin. -/
noncomputable def atan2f (y x : ℝ) : ℝ := Complex.arg ⟨x, y⟩

/-- Loop state of `calculate_bearing_and_heading`. -/
structure BearingAcc where
  bearingX : ℝ
  bearingY : ℝ
  headingX : ℝ
  headingY : ℝ

/-- Body of the loop of `calculate_bearing_and_heading` for the flat index `i = 6*e + s`,
where `fast_bm[i]` is `brightMeas[e][s]`, `i/6 = e` and `i%6 = s`. -/
noncomputable def bearingCell (bm : BrightMat) (e : Fin 6) (acc : BearingAcc) (s : Fin 6) :
    BearingAcc :=
  { bearingX := acc.bearingX + (bm e s : ℝ) * getCosBearingBasis e.val s.val
    bearingY := acc.bearingY + (bm e s : ℝ) * getSinBearingBasis e.val s.val
    headingX := acc.headingX + (bm e s : ℝ) * getCosHeadingBasis e.val s.val
    headingY := acc.headingY + (bm e s : ℝ) * getSinHeadingBasis e.val s.val }

/-- The function `calculate_bearing_and_heading`: the pair `(bearing, heading)`. The loop
`for(i=0;i<36;i++)` over the flattened matrix visits the cells in the order of the two
nested loops over emitter and sensor. -/
noncomputable def calculate_bearing_and_heading (bm : BrightMat) : ℝ × ℝ :=
  let acc := dirs.foldl (fun acc e => dirs.foldl (bearingCell bm e) acc)
    { bearingX := 0, bearingY := 0, headingX := 0, headingY := 0 }
  (atan2f acc.bearingY acc.bearingX, atan2f acc.headingY acc.headingX)

/-- The function `sensor_model`. -/
noncomputable def sensor_model (alpha : ℝ) : ℝ :=
  if |alpha| ≥ 1.5 then 0.0
  else if |alpha| ≤ 0.62 then 1 - alpha ^ 4
  else 0.125 / alpha ^ 4

/-- The function `emitter_model`. -/
noncomputable def emitter_model (beta : ℝ) : ℝ :=
  if |beta| ≥ 1.5 then 0.0
  else if |beta| ≤ 0.72 then 0.94 + beta ^ 2 * 0.5 - beta ^ 4
  else 0.25 / beta ^ 4

/-- Float multiplication `v * c` by a real number. -/
noncomputable def FVal.mulReal : FVal → ℝ → FVal
  | FVal.num x, c => FVal.num (x * c)
  | FVal.pinf, c => if 0 < c then FVal.pinf else if c < 0 then FVal.ninf else FVal.nan
  | FVal.ninf, c => if 0 < c then FVal.ninf else if c < 0 then FVal.pinf else FVal.nan
  | FVal.nan, _ => FVal.nan

/-- The C library function `hypotf`: infinite if an argument is, else NaN if an argument is,
else the length of the vector. -/
noncomputable def FVal.hypotf : FVal → FVal → FVal
  | FVal.num x, FVal.num y => FVal.num (Real.sqrt (x ^ 2 + y ^ 2))
  | FVal.pinf, _ => FVal.pinf
  | FVal.ninf, _ => FVal.pinf
  | _, FVal.pinf => FVal.pinf
  | _, FVal.ninf => FVal.pinf
  | _, _ => FVal.nan

/-- The cell `brightMeas[e][s]` for indices held in signed bytes (an index outside `0..5`
is not modelled and reads 0). -/
def brightCell (bm : BrightMat) (e s : Int) : Int :=
  if h : (0 ≤ e ∧ e < 6) ∧ (0 ≤ s ∧ s < 6) then
    bm ⟨e.toNat, by omega⟩ ⟨s.toNat, by omega⟩
  else 0

/-- The local `bestS` of `get_initial_range_guess`:
`(6-((int8_t)ceilf((3.0*bearing)/M_PI)))%6`, with the remainder of C (sign of the
dividend); the cast to `int8_t` is exact for the values that occur. -/
noncomputable def bestS (bearing : ℝ) : Int :=
  Int.tmod (6 - ⌈(3.0 * bearing) / Real.pi⌉) 6

/-- The local `bestE` of `get_initial_range_guess`:
`(6-((int8_t)ceilf((3.0*(bearing-heading-M_PI))/M_PI)))%6`. -/
noncomputable def bestE (bearing heading : ℝ) : Int :=
  Int.tmod (6 - ⌈(3.0 * (bearing - heading - Real.pi)) / Real.pi⌉) 6

/-- The local `alpha` of `get_initial_range_guess`. -/
noncomputable def initialAlpha (bearing : ℝ) : ℝ :=
  pretty_angle (bearing - basis_angle (bestS bearing).toNat)

/-- The local `beta` of `get_initial_range_guess`. -/
noncomputable def initialBeta (bearing heading : ℝ) : ℝ :=
  pretty_angle (bearing - heading - basis_angle (bestE bearing heading).toNat - Real.pi)

/-- The function `get_initial_range_guess` (its error prints are not recorded);
`DROPLET_SENSOR_RADIUS`, a constant of a header outside the sources, is the parameter
`sensorRadius`. -/
noncomputable def get_initial_range_guess (bm : BrightMat) (sensorRadius : ℝ)
    (bearing heading : ℝ) (power : Nat) : FVal :=
  let alpha := initialAlpha bearing
  let beta := initialBeta bearing heading
  if alpha > Real.pi / 2 ∨ alpha < -(Real.pi / 2) then FVal.num 0
  else if beta > Real.pi / 2 ∨ beta < -(Real.pi / 2) then FVal.num 0
  else
    let exp_con := sensor_model alpha * emitter_model beta
    if exp_con > 0 then
      let amplitude := (brightCell bm (bestE bearing heading) (bestS bearing) : ℝ) / exp_con
      let rMagEst := inverse_amplitude_model amplitude power
      let RX := (rMagEst.mulReal (Real.cos bearing)).addReal
        (sensorRadius * ((bearingBasis (bestS bearing).toNat).1 -
          (headingBasis (bestE bearing heading).toNat).1))
      let RY := (rMagEst.mulReal (Real.sin bearing)).addReal
        (sensorRadius * ((bearingBasis (bestS bearing).toNat).2 -
          (headingBasis (bestE bearing heading).toNat).2))
      FVal.hypotf RX RY
    else FVal.num 0

/-- Float negation. -/
noncomputable def FVal.neg : FVal → FVal
  | FVal.num x => FVal.num (-x)
  | FVal.pinf => FVal.ninf
  | FVal.ninf => FVal.pinf
  | FVal.nan => FVal.nan

/-- Float addition: the sum of opposite infinities is NaN. -/
noncomputable def FVal.add : FVal → FVal → FVal
  | FVal.num x, FVal.num y => FVal.num (x + y)
  | FVal.nan, _ => FVal.nan
  | _, FVal.nan => FVal.nan
  | FVal.pinf, FVal.ninf => FVal.nan
  | FVal.ninf, FVal.pinf => FVal.nan
  | FVal.pinf, _ => FVal.pinf
  | FVal.ninf, _ => FVal.ninf
  | FVal.num _, FVal.pinf => FVal.pinf
  | FVal.num _, FVal.ninf => FVal.ninf

/-- Float subtraction. -/
noncomputable def FVal.sub (a b : FVal) : FVal := FVal.add a (FVal.neg b)

/-- Float multiplication: zero times an infinity is NaN. -/
noncomputable def FVal.mul : FVal → FVal → FVal
  | FVal.num x, FVal.num y => FVal.num (x * y)
  | FVal.nan, _ => FVal.nan
  | _, FVal.nan => FVal.nan
  | FVal.num x, v => FVal.mulReal v x
  | v, FVal.num y => FVal.mulReal v y
  | FVal.pinf, FVal.pinf => FVal.pinf
  | FVal.pinf, FVal.ninf => FVal.ninf
  | FVal.ninf, FVal.pinf => FVal.ninf
  | FVal.ninf, FVal.ninf => FVal.pinf

/-- The C library function `fabsf`. -/
noncomputable def FVal.fabsf : FVal → FVal
  | FVal.num x => FVal.num |x|
  | FVal.pinf => FVal.pinf
  | FVal.ninf => FVal.pinf
  | FVal.nan => FVal.nan

/-- The C library function `powf(x, y)` for a base `x ≥ 0` (the only case that occurs: the
base is a sum of squares): a zero base with a negative exponent gives `+inf`. -/
noncomputable def powf (x y : ℝ) : FVal :=
  if x = 0 ∧ y < 0 then FVal.pinf else FVal.num (x ^ y)

/-- The function `full_expected_bright_mat`; `DROPLET_RADIUS`, a constant of a header
outside the sources, is the parameter `radius`. -/
noncomputable def full_expected_bright_mat (radius r b h : ℝ) : Fin 6 → Fin 6 → ℝ :=
  fun i j =>
    let rX := r * Real.cos b
    let rY := r * Real.sin b
    let jX := radius * Real.cos (basis_angle i.val + h)
    let jY := radius * Real.sin (basis_angle i.val + h)
    let riX := rX + jX
    let riY := rY + jY
    let rijX := riX - (scaledBearingBasis j.val).1
    let rijY := riY - (scaledBearingBasis j.val).2
    let alpha := rijX * (bearingBasis j.val).1 + rijY * (bearingBasis j.val).2
    let beta := -rijX * jX - rijY * jY
    let rijMagSq := rijX * rijX + rijY * rijY
    let rijMag := Real.sqrt rijMagSq
    if alpha > 0 ∧ beta > 0 then (alpha * beta * amplitude_model rijMag) / rijMagSq else 0

/-- Loop state of the first loop of `calculate_innovation`. -/
structure NormAcc where
  expNorm : ℝ
  realNorm : ℝ

/-- Body of the first loop of `calculate_innovation` for the flat index `i = 6*e + s`. -/
noncomputable def normCell (bm : BrightMat) (expBM : Fin 6 → Fin 6 → ℝ) (e : Fin 6)
    (acc : NormAcc) (s : Fin 6) : NormAcc :=
  { expNorm := acc.expNorm + expBM e s * expBM e s
    realNorm := acc.realNorm + (((bm e s * bm e s : Int)) : ℝ) }

/-- Body of the second loop of `calculate_innovation` for the flat index `i = 6*e + s`. -/
noncomputable def errorCell (bm : BrightMat) (expBM : Fin 6 → Fin 6 → ℝ)
    (realNormInv expNormInv : FVal) (e : Fin 6) (error : FVal) (s : Fin 6) : FVal :=
  FVal.add error
    (FVal.fabsf (FVal.sub (FVal.mul (FVal.num (bm e s : ℝ)) realNormInv)
      (FVal.mul (FVal.num (expBM e s)) expNormInv)))

/-- The part of `calculate_innovation` that follows the call of
`full_expected_bright_mat`: the innovation between the measured matrix `bm` and an
expected matrix `expBM`. The two loops `for(i=0;i<36;i++)` over the flattened matrices
visit the cells in the order of the nested loops over emitter and sensor. -/
noncomputable def innovation (bm : BrightMat) (expBM : Fin 6 → Fin 6 → ℝ) : FVal :=
  let norms := dirs.foldl (fun acc e => dirs.foldl (normCell bm expBM e) acc)
    { expNorm := 0.0, realNorm := 0.0 }
  let expNormInv := powf norms.expNorm (-0.5)
  let realNormInv := powf norms.realNorm (-0.5)
  dirs.foldl (fun error e => dirs.foldl (errorCell bm expBM realNormInv expNormInv e) error)
    (FVal.num 0.0)

/-- The function `calculate_innovation` on the matrix `bm`. -/
noncomputable def calculate_innovation (bm : BrightMat) (radius r b h : ℝ) : FVal :=
  innovation bm (full_expected_bright_mat radius r b h)

/-- The locals `rijX`, `rijY` of `full_expected_bright_mat` for the cell `[i][j]`: the
vector from sensor `j` of the receiver to emitter `i` of the sender. -/
noncomputable def expectedRij (radius r b h : ℝ) (i j : Fin 6) : ℝ × ℝ :=
  (r * Real.cos b + radius * Real.cos (basis_angle i.val + h) - (scaledBearingBasis j.val).1,
    r * Real.sin b + radius * Real.sin (basis_angle i.val + h) - (scaledBearingBasis j.val).2)

/-- Stated from the spec: the angular offset of the ray `r_ij` from the boresight of
sensor `j`, computed as `range_estimate` computes its `alpha`: the angle of the ray
minus `basis_angle[j]`, normalised by `pretty_angle`. -/
noncomputable def rayAlpha (radius r b h : ℝ) (i j : Fin 6) : ℝ :=
  pretty_angle (atan2f (expectedRij radius r b h i j).2 (expectedRij radius r b h i j).1 -
    basis_angle j.val)

/-- Stated from the spec: the angular offset of the reversed ray from the boresight of
emitter `i`, computed as `range_estimate` computes its `beta`: the angle of the reversed
ray minus `basis_angle[i]` minus the heading, normalised by `pretty_angle`. -/
noncomputable def rayBeta (radius r b h : ℝ) (i j : Fin 6) : ℝ :=
  pretty_angle (atan2f (-(expectedRij radius r b h i j).2) (-(expectedRij radius r b h i j).1) -
    basis_angle i.val - h)

/-- Stated from the spec: the forward photometric model
`sensor_model(alpha_ij)*emitter_model(beta_ij)*amplitude_model(|r_ij|)`. -/
noncomputable def spec_expected_bright (radius r b h : ℝ) (i j : Fin 6) : ℝ :=
  sensor_model (rayAlpha radius r b h i j) * emitter_model (rayBeta radius r b h i j) *
    amplitude_model (Real.sqrt ((expectedRij radius r b h i j).1 *
      (expectedRij radius r b h i j).1 +
      (expectedRij radius r b h i j).2 * (expectedRij radius r b h i j).2))

/-- The centre of a sender that places its emitter 1, turned by the heading `h`, one
unit in front of sensor 4 of the receiver (which sits at `(0, 2.0828)`). -/
noncomputable def facingCentre (radius h : ℝ) : ℂ :=
  ⟨-(radius * Real.cos (basis_angle 1 + h)), 3.0828 - radius * Real.sin (basis_angle 1 + h)⟩

/-- Loop state of the search for the brightest cell in `range_estimate`:
`maxBright`, `maxE`, `maxS`. -/
structure MaxAcc where
  maxBright : Int
  maxE : Fin 6
  maxS : Fin 6

/-- The search step of the first loop of `range_estimate` for cell `[e][s]`:
`if(brightMeas[e][s]>maxBright){ maxBright = brightMeas[e][s]; maxE = e; maxS = s; }`. -/
def maxStep (bm : BrightMat) (e : Fin 6) (acc : MaxAcc) (s : Fin 6) : MaxAcc :=
  if bm e s > acc.maxBright then { maxBright := bm e s, maxE := e, maxS := s } else acc

/-- The locals `maxBright`, `maxE`, `maxS` of `range_estimate` after its first loop. -/
def brightestCell (bm : BrightMat) : MaxAcc :=
  dirs.foldl (fun acc e => dirs.foldl (maxStep bm e) acc)
    { maxBright := -32768, maxE := 0, maxS := 0 }

/-- The locals `calcRx`, `calcRy` of `range_estimate` for a cell `[e][s]` with a positive
reading; `DROPLET_SENSOR_RADIUS` is the parameter `sensorRadius`. -/
noncomputable def calcR (bm : BrightMat) (sensorRadius init_range bearing heading : ℝ)
    (power : Nat) (e s : Fin 6) : FVal × FVal :=
  let sensorRXx := sensorRadius * getCosBearingBasis 0 s.val
  let sensorRXy := sensorRadius * getSinBearingBasis 0 s.val
  let sensorTXx := sensorRadius * Real.cos (basis_angle e.val + heading) +
    init_range * Real.cos bearing
  let sensorTXy := sensorRadius * Real.sin (basis_angle e.val + heading) +
    init_range * Real.sin bearing
  let alpha := pretty_angle
    (atan2f (sensorTXy - sensorRXy) (sensorTXx - sensorRXx) - basis_angle s.val)
  let beta := pretty_angle
    (atan2f (sensorRXy - sensorTXy) (sensorRXx - sensorTXx) - basis_angle e.val - heading)
  let sense_emit_contr := sensor_model alpha * emitter_model beta
  let calcRIJmag :=
    if sense_emit_contr > 0 then inverse_amplitude_model ((bm e s : ℝ) / sense_emit_contr) power
    else FVal.num 0
  (((calcRIJmag.mulReal (Real.cos alpha)).addReal sensorRXx).subReal
      (sensorRadius * Real.cos (basis_angle e.val + heading)),
    ((calcRIJmag.mulReal (Real.sin alpha)).addReal sensorRXy).subReal
      (sensorRadius * Real.sin (basis_angle e.val + heading)))

/-- The entry `range_matrix[e][s]` written by the first loop of `range_estimate`:
`hypotf(calcRx, calcRy)` for a positive reading, else 0. The entry depends on the cell
only, not on the loop state. -/
noncomputable def rangeCell (bm : BrightMat) (sensorRadius init_range bearing heading : ℝ)
    (power : Nat) (e s : Fin 6) : FVal :=
  if bm e s > 0 then
    FVal.hypotf (calcR bm sensorRadius init_range bearing heading power e s).1
      (calcR bm sensorRadius init_range bearing heading power e s).2
  else FVal.num 0

/-- The three offsets `0, 1, 2` of the loops over the 3×3 neighbourhood. -/
def subDirs : List (Fin 3) := [0, 1, 2]

/-- The index `(maxE+(e+5))%6` of the neighbourhood loops of `range_estimate`. -/
def otherIndex (m : Fin 6) (e : Fin 3) : Fin 6 :=
  ⟨(m.val + (e.val + 5)) % 6, Nat.mod_lt _ (by norm_num)⟩

/-- The entry `brightMatSubset[e][s]` of `range_estimate`. -/
def brightMatSubset (bm : BrightMat) (e s : Fin 3) : Int :=
  bm (otherIndex (brightestCell bm).maxE e) (otherIndex (brightestCell bm).maxS s)

/-- The entry `rangeMatSubset[e][s]` of `range_estimate`. -/
noncomputable def rangeMatSubset (bm : BrightMat) (sensorRadius init_range bearing heading : ℝ)
    (power : Nat) (e s : Fin 3) : FVal :=
  rangeCell bm sensorRadius init_range bearing heading power
    (otherIndex (brightestCell bm).maxE e) (otherIndex (brightestCell bm).maxS s)

/-- The local `froebNormSquared` of `range_estimate` after the second pair of loops;
`powf(x, 2)` is the square. -/
noncomputable def froebNormSquared (bm : BrightMat) : ℝ :=
  subDirs.foldl (fun acc e => subDirs.foldl
    (fun acc s => acc + (brightMatSubset bm e s : ℝ) ^ 2) acc) 0

/-- The C library function `powf(v, 2)`. -/
noncomputable def FVal.powf2 : FVal → FVal
  | FVal.num x => FVal.num (x ^ 2)
  | FVal.pinf => FVal.pinf
  | FVal.ninf => FVal.pinf
  | FVal.nan => FVal.nan

/-- The local `froebWeight` of `range_estimate` for the cell `[e][s]` of the
neighbourhood: `powf(brightMatSubset[e][s]/froebNorm, 2)`. -/
noncomputable def froebWeight (bm : BrightMat) (e s : Fin 3) : FVal :=
  (fdiv (brightMatSubset bm e s : ℝ) (Real.sqrt (froebNormSquared bm))).powf2

/-- The function `range_estimate`. -/
noncomputable def range_estimate (bm : BrightMat)
    (sensorRadius init_range bearing heading : ℝ) (power : Nat) : FVal :=
  subDirs.foldl (fun range e => subDirs.foldl
    (fun range s => FVal.add range
      (FVal.mul (rangeMatSubset bm sensorRadius init_range bearing heading power e s)
        (froebWeight bm e s))) range) (FVal.num 0)

/-- Stated from the spec: the per-cell range vector `(calcRx, calcRy)`; a cell without a
positive reading, for which the code computes no vector and stores the range 0,
contributes the zero vector. -/
noncomputable def rangeVector (bm : BrightMat) (sensorRadius init_range bearing heading : ℝ)
    (power : Nat) (e s : Fin 6) : FVal × FVal :=
  if bm e s > 0 then calcR bm sensorRadius init_range bearing heading power e s
  else (FVal.num 0, FVal.num 0)

/-- Stated from the spec: the Euclidean length of the weighted average of the per-cell
range vectors over the 3×3 neighbourhood, each weighted by `froebWeight`. -/
noncomputable def spec_range_estimate (bm : BrightMat)
    (sensorRadius init_range bearing heading : ℝ) (power : Nat) : FVal :=
  let total := subDirs.foldl (fun acc e => subDirs.foldl
    (fun acc s =>
      (FVal.add acc.1 (FVal.mul
          (rangeVector bm sensorRadius init_range bearing heading power
            (otherIndex (brightestCell bm).maxE e) (otherIndex (brightestCell bm).maxS s)).1
          (froebWeight bm e s)),
        FVal.add acc.2 (FVal.mul
          (rangeVector bm sensorRadius init_range bearing heading power
            (otherIndex (brightestCell bm).maxE e) (otherIndex (brightestCell bm).maxS s)).2
          (froebWeight bm e s)))) acc) (FVal.num 0, FVal.num 0)
  FVal.hypotf total.1 total.2

/-- The value of a float that is a number (0 for an exceptional value). -/
noncomputable def FVal.toReal : FVal → ℝ
  | FVal.num x => x
  | _ => 0

/-- The comparison `a <= b` of two floats: false when an operand is a NaN. -/
noncomputable def FVal.le : FVal → FVal → Prop
  | FVal.nan, _ => False
  | _, FVal.nan => False
  | FVal.ninf, _ => True
  | _, FVal.pinf => True
  | FVal.num x, FVal.num y => x ≤ y
  | _, _ => False

/-- A matrix with the reading `v` in the cells `[0][4]` and `[1][4]` and 0 elsewhere. -/
def twoCells (v : Int) : BrightMat :=
  fun e s => if (e = 0 ∨ e = 1) ∧ s = 4 then v else 0

/-- A matrix with the reading `v` in the cell `[1][4]` and 0 elsewhere. -/
def oneCell (v : Int) : BrightMat :=
  fun e s => if e = 1 ∧ s = 4 then v else 0

/-- The cells of the matrix in the order of the two nested loops over emitter and
sensor. -/
def scanCells : List (Fin 6 × Fin 6) :=
  dirs.flatMap fun e => dirs.map fun s => (e, s)

/-- The position `6*e + s` of the cell `[e][s]` in the emitter-major scan. -/
def scanIndex (c : Fin 6 × Fin 6) : Nat := 6 * c.1.val + c.2.val

/-- The search for the brightest cell over a list of cells. -/
def maxScan (bm : BrightMat) (l : List (Fin 6 × Fin 6)) : MaxAcc :=
  l.foldl (fun acc c => maxStep bm c.1 acc c.2) { maxBright := -32768, maxE := 0, maxS := 0 }

/-! ## Legacy packing of the raw measurements (Range_Algorithms.c) -/

/-- Loop state of the measurement loop of the legacy `pack_measurements_into_matrix`:
the locals `high` and `low`. -/
structure SpreadAcc where
  high : Nat
  low : Nat

/-- Body of the measurement loop for one reading `m` of `bright_meas[e][s][..]`. -/
def spreadStep (acc : SpreadAcc) (m : Nat) : SpreadAcc :=
  let low := if m < acc.low then m else acc.low
  let high := if m > acc.high then m else acc.high
  { high := high, low := low }

/-- The local `diff` for one cell: `high = 0; low = 255;`, the measurement loop over the
`NUMBER_OF_RB_MEASUREMENTS` readings of the cell, then `diff = high - low` narrowed to
`uint8_t`. The macro is defined in a header outside the sources; the number of readings
is the length of the list. -/
def measSpread (meas : List Nat) : Nat :=
  let acc := meas.foldl spreadStep { high := 0, low := 255 }
  (acc.high + 256 - acc.low) % 256

/-- Body of the sensor loop of the legacy `pack_measurements_into_matrix`: the cell
`[emitter_dir][sensor_num]` of `bright_meas` is reduced to `diff`, and the statement
`brightness_matrix[sensor_num][emitter_dir] = diff;` stores it. -/
def packCell (bright_meas : Fin 6 → Fin 6 → List Nat) (emitter_dir : Fin 6)
    (brightness_matrix : Fin 6 → Fin 6 → Nat) (sensor_num : Fin 6) : Fin 6 → Fin 6 → Nat :=
  let diff := measSpread (bright_meas emitter_dir sensor_num)
  fun a b => if a = sensor_num ∧ b = emitter_dir then diff else brightness_matrix a b

/-- The legacy function `pack_measurements_into_matrix`: the matrix on return and the
returned `probable_timing_fail`, which stays 0 (the code that sets it is commented out;
the debug print is disabled by `print_results = 0`). -/
def pack_measurements_into_matrix (bright_meas : Fin 6 → Fin 6 → List Nat)
    (brightness_matrix : Fin 6 → Fin 6 → Nat) : (Fin 6 → Fin 6 → Nat) × Nat :=
  (dirs.foldl (fun bm emitter_dir => dirs.foldl (packCell bright_meas emitter_dir) bm)
    brightness_matrix, 0)

/-- Raw measurements in which only emitter 0 is seen, by sensor 1, with the readings 0
(baseline) and 10; every other cell reads 0 twice. -/
def oneSighting : Fin 6 → Fin 6 → List Nat :=
  fun e s => if e = 0 ∧ s = 1 then [0, 10] else [0, 0]

/-! ## The cycle controller over exact reals -/

/-- Float division: a number divided by an infinity is 0, an infinity divided by a number
keeps or changes its sign with the sign of the number (a zero divisor counts as `+0`),
and the quotient of two infinities is NaN. -/
noncomputable def FVal.div : FVal → FVal → FVal
  | FVal.num x, FVal.num y => fdiv x y
  | FVal.nan, _ => FVal.nan
  | _, FVal.nan => FVal.nan
  | FVal.num _, _ => FVal.num 0
  | FVal.pinf, FVal.num y => if 0 ≤ y then FVal.pinf else FVal.ninf
  | FVal.ninf, FVal.num y => if 0 ≤ y then FVal.ninf else FVal.pinf
  | _, _ => FVal.nan

/-- The comparison `a < b` of two floats as a truth value: false when an operand is a
NaN. -/
noncomputable def FVal.lt : FVal → FVal → Bool
  | FVal.nan, _ => false
  | _, FVal.nan => false
  | FVal.num x, FVal.num y => decide (x < y)
  | FVal.ninf, FVal.ninf => false
  | FVal.ninf, _ => true
  | FVal.pinf, _ => false
  | FVal.num _, FVal.pinf => true
  | FVal.num _, FVal.ninf => false

/-- The comparison `a != b` of two floats: true when an operand is a NaN. -/
noncomputable def FVal.ne : FVal → FVal → Bool
  | FVal.nan, _ => true
  | _, FVal.nan => true
  | FVal.num x, FVal.num y => decide (x ≠ y)
  | FVal.pinf, FVal.pinf => false
  | FVal.ninf, FVal.ninf => false
  | _, _ => true

/-- The test `isnan`. -/
def FVal.isnan : FVal → Bool
  | FVal.nan => true
  | _ => false

/-- Conversion of a float to an integer type: the value truncated toward zero (the
conversion of an infinity or a NaN, undefined in C, is taken to be 0). -/
noncomputable def FVal.trunc : FVal → Int
  | FVal.num x => if 0 ≤ x then ⌊x⌋ else ⌈x⌉
  | _ => 0

/-- The function `rad_to_deg` (defined in `Range_Algorithms.c`):
`(pretty_angle(rad) / M_PI) * 180`. -/
noncomputable def rad_to_deg (rad : ℝ) : ℝ := (pretty_angle rad / Real.pi) * 180

/-- The float semantics of the exact reals with the estimator routines of the source:
every operation is computed without rounding, `DROPLET_RADIUS` and
`DROPLET_SENSOR_RADIUS` are the parameters `radius` and `sensorRadius`, and the four
estimator routines are `calculate_bearing_and_heading`, `get_initial_range_guess`,
`range_estimate` and `calculate_innovation` as modelled above. These are modelled for
arguments that are numbers; a call with an infinite argument is not modelled and its
result is taken to be a NaN. -/
noncomputable def realFloat (radius sensorRadius : ℝ) : FloatOps FVal where
  lit := fun q => FVal.num (q : ℝ)
  ofInt := fun z => FVal.num (z : ℝ)
  mul := FVal.mul
  div := FVal.div
  sqrtf := FVal.sqrtf
  lt := FVal.lt
  gt := fun a b => FVal.lt b a
  ne := FVal.ne
  isnan := FVal.isnan
  toUInt16 := fun a => a.trunc.toNat % 65536
  toInt16 := fun a => wrap16 a.trunc
  toUInt8 := fun a => a.trunc.toNat % 256
  rad_to_deg := fun a =>
    match a with
    | FVal.num x => FVal.num (rad_to_deg x)
    | _ => FVal.nan
  DROPLET_RADIUS := FVal.num radius
  calculate_bearing_and_heading := fun bm =>
    (FVal.num (calculate_bearing_and_heading bm).1,
      FVal.num (calculate_bearing_and_heading bm).2)
  get_initial_range_guess := fun bm bearing heading power =>
    match bearing, heading with
    | FVal.num b, FVal.num h => get_initial_range_guess bm sensorRadius b h power
    | _, _ => FVal.nan
  range_estimate := fun bm init_range bearing heading power =>
    match init_range, bearing, heading with
    | FVal.num i, FVal.num b, FVal.num h => range_estimate bm sensorRadius i b h power
    | _, _, _ => FVal.nan
  calculate_innovation := fun bm range bearing heading =>
    match range, bearing, heading with
    | FVal.num r, FVal.num b, FVal.num h => calculate_innovation bm radius r b h
    | _, _, _ => FVal.nan

/-- The state after `range_algs_init` in which the acquisition has stored the matrix
`oneCell 2442`: the reading 2442 of emitter 1 of the sender on sensor 4. -/
def oneCellState : State :=
  { range_algs_init zeroState with brightMeas := oneCell 2442 }

/-! ## Theorems: cycle controller -/

/-- C1. On every exit path of `use_rnb_data` (estimate published, initial range guess
rejected, refined range not a number, innovation above 2.5), whatever the float
routines return and whatever the starting state, `rnbProcessingFlag` is 0 on return. -/
theorem use_rnb_data_clears_flag {F : Type} (fl : FloatOps F) (st : State) :
    (use_rnb_data fl st).rnbProcessingFlag = 0 := by
  unfold use_rnb_data
  simp only []
  split_ifs <;> rfl

/-- The write-back `brightMeas[e][s] = val` of the sweep stores the value just read. -/
theorem sweepCell_bm (e : Fin 6) (acc : SweepAcc) (s : Fin 6) :
    (sweepCell e acc s).bm = acc.bm := by
  funext e1 s1
  simp only [sweepCell]
  split_ifs with h
  · rw [h.1, h.2]
  · rfl

/-- The sweep leaves the matrix as it was. -/
theorem sweep_bm (bm : BrightMat) : (sweep bm).bm = bm := by
  simp [sweep, dirs, List.foldl, sweepCell_bm]

/-- Frame of `processBrightMeas`: it changes only the health history and the trace. -/
theorem processBrightMeas_frame (st : State) :
    (processBrightMeas st).1.brightMeas = st.brightMeas ∧
    (processBrightMeas st).1.rnbCmdID = st.rnbCmdID ∧
    (processBrightMeas st).1.last_good_rnb = st.last_good_rnb ∧
    (processBrightMeas st).1.rnb_updated = st.rnb_updated ∧
    (processBrightMeas st).1.rnbProcessingFlag = st.rnbProcessingFlag := by
  unfold processBrightMeas
  simp only []
  split_ifs <;> simp [State.emit, sweep_bm]

/-- C2 (behaviour of the code at the failing input). A call of `broadcast_rnb_data`
entered with `rnbProcessingFlag = 1` is refused (nothing is sent) and still returns
with `rnbProcessingFlag = 0`: the final clearing of the flag is outside the
`if(goAhead)` block. -/
theorem broadcast_rnb_data_refused_clears_flag :
    (broadcast_rnb_data { get_time := 0, cmd_result := 1 }
        { zeroState with rnbProcessingFlag := 1 }).rnbProcessingFlag = 0 ∧
    (broadcast_rnb_data { get_time := 0, cmd_result := 1 }
        { zeroState with rnbProcessingFlag := 1 }).trace = [] := by
  constructor <;> rfl

/-- C3. If `rnbProcessingFlag` is set when `broadcast_rnb_data` is entered, the call
makes no driver call at all (the trace is unchanged: no `hp_ir_targeted_cmd`, none of
the events of `ir_range_blast`, no `ir_led_on` or `ir_led_off`) and leaves
`hp_ir_block_bm` and `rnbCmdSentTime` as they were. -/
theorem broadcast_rnb_data_refused_no_cycle (env : BroadcastEnv) (st : State)
    (h : st.rnbProcessingFlag ≠ 0) :
    (broadcast_rnb_data env st).trace = st.trace ∧
    (broadcast_rnb_data env st).hp_ir_block_bm = st.hp_ir_block_bm ∧
    (broadcast_rnb_data env st).rnbCmdSentTime = st.rnbCmdSentTime := by
  unfold broadcast_rnb_data
  simp [h]

/-- Witness of C3: a refused call in a state whose flag is 1. -/
theorem broadcast_rnb_data_refused_no_cycle_witness :
    ({ zeroState with rnbProcessingFlag := 1 } : State).rnbProcessingFlag ≠ 0 ∧
    (broadcast_rnb_data { get_time := 7, cmd_result := 1 }
        { zeroState with rnbProcessingFlag := 1 }).trace = [] ∧
    (broadcast_rnb_data { get_time := 7, cmd_result := 1 }
        { zeroState with rnbProcessingFlag := 1 }).hp_ir_block_bm = 0 ∧
    (broadcast_rnb_data { get_time := 7, cmd_result := 1 }
        { zeroState with rnbProcessingFlag := 1 }).rnbCmdSentTime = 0 :=
  ⟨by decide,
    broadcast_rnb_data_refused_no_cycle { get_time := 7, cmd_result := 1 }
      { zeroState with rnbProcessingFlag := 1 } (by decide)⟩

/-- C4. `use_rnb_data` overwrites `last_good_rnb` (with the command id, ten times the
floored range, the bearing and heading in degrees and the confidence) and sets
`rnb_updated` to 1 exactly when the initial range guess is nonzero and not a NaN, the
refined range is not a NaN, and the innovation is not greater than 2.5; in every other
case `last_good_rnb` and `rnb_updated` are what they were before the call. -/
theorem use_rnb_data_publishes_iff {F : Type} (fl : FloatOps F) (st : State) :
    let bm := st.brightMeas
    let bh := fl.calculate_bearing_and_heading bm
    let initial_range := fl.get_initial_range_guess bm bh.1 bh.2 255
    let range := fl.range_estimate bm initial_range bh.1 bh.2 255
    let range1 := if fl.lt range (fl.mul (fl.lit 2) fl.DROPLET_RADIUS) then fl.lit 5.0 else range
    let error := fl.calculate_innovation bm range1 bh.1 bh.2
    let conf0 := fl.div (fl.sqrtf (fl.ofInt (processBrightMeas st).2)) (fl.mul error error)
    let conf1 := if fl.gt error (fl.lit 3.0) then fl.div conf0 (fl.lit 10.0) else conf0
    let conf2 := if fl.isnan conf1 then fl.lit 0.01 else conf1
    if (fl.ne initial_range (fl.lit 0) = true ∧ fl.isnan initial_range = false) ∧
        fl.isnan range = false ∧ fl.gt error (fl.lit 2.5) = false then
      (use_rnb_data fl st).last_good_rnb =
          { id := st.rnbCmdID
            range := fl.toUInt16 (fl.mul (fl.lit 10.0) range1)
            bearing := fl.toInt16 (fl.rad_to_deg bh.1)
            heading := fl.toInt16 (fl.rad_to_deg bh.2)
            conf := fl.toUInt8 conf2 } ∧
        (use_rnb_data fl st).rnb_updated = 1
    else
      (use_rnb_data fl st).last_good_rnb = st.last_good_rnb ∧
        (use_rnb_data fl st).rnb_updated = st.rnb_updated := by
  obtain ⟨hbm, hid, hlg, hup, -⟩ := processBrightMeas_frame st
  unfold use_rnb_data
  simp only [State.emit, hbm, hid]
  split_ifs <;> simp_all

/-! ## Theorems: photometric model -/

/-- For `x ≥ 0` and `y > 0`, `fmodf x y` lies in `[0, y)`. -/
theorem fmodf_of_nonneg {x y : ℝ} (hx : 0 ≤ x) (hy : 0 < y) :
    0 ≤ fmodf x y ∧ fmodf x y < y := by
  have hq : 0 ≤ x / y := div_nonneg hx hy.le
  have h1 : (⌊x / y⌋ : ℝ) ≤ x / y := Int.floor_le _
  have h2 : x / y < ⌊x / y⌋ + 1 := Int.lt_floor_add_one _
  rw [le_div_iff₀ hy] at h1
  rw [div_lt_iff₀ hy] at h2
  simp only [fmodf, if_pos hq]
  constructor <;> nlinarith

/-- For `x < 0` and `y > 0`, `fmodf x y` lies in `(-y, 0]`. -/
theorem fmodf_of_neg {x y : ℝ} (hx : x < 0) (hy : 0 < y) :
    -y < fmodf x y ∧ fmodf x y ≤ 0 := by
  have hq : ¬ 0 ≤ x / y := not_le.mpr (div_neg_of_neg_of_pos hx hy)
  have h1 : x / y ≤ (⌈x / y⌉ : ℝ) := Int.le_ceil _
  have h2 : (⌈x / y⌉ : ℝ) < x / y + 1 := Int.ceil_lt_add_one _
  rw [div_le_iff₀ hy] at h1
  rw [← sub_lt_iff_lt_add, lt_div_iff₀ hy] at h2
  simp only [fmodf, if_neg hq]
  constructor <;> nlinarith

/-- An integer multiple of `y` has remainder 0. -/
theorem fmodf_int_mul (n : ℤ) {y : ℝ} (hy : 0 < y) : fmodf (n * y) y = 0 := by
  have : (n : ℝ) * y / y = n := by field_simp
  simp only [fmodf, this, Int.floor_intCast, Int.ceil_intCast]
  split_ifs <;> ring

/-- On `[0, y)` the remainder is the argument. -/
theorem fmodf_eq_self_of_nonneg {x y : ℝ} (hx : 0 ≤ x) (hxy : x < y) : fmodf x y = x := by
  have hy : 0 < y := lt_of_le_of_lt hx hxy
  have hq : 0 ≤ x / y := div_nonneg hx hy.le
  have hf : ⌊x / y⌋ = 0 := by
    rw [Int.floor_eq_zero_iff]
    exact ⟨hq, (div_lt_one hy).mpr hxy⟩
  simp [fmodf, if_pos hq, hf]

/-- On `(-y, 0)` the remainder is the argument. -/
theorem fmodf_eq_self_of_neg {x y : ℝ} (hx : x < 0) (hxy : -y < x) : fmodf x y = x := by
  have hy : 0 < y := by linarith
  have hq : ¬ 0 ≤ x / y := not_le.mpr (div_neg_of_neg_of_pos hx hy)
  have hf : ⌈x / y⌉ = 0 := by
    rw [Int.ceil_eq_iff]
    constructor
    · simp only [Int.cast_zero, zero_sub]
      rw [lt_div_iff₀ hy]; linarith
    · simpa using (div_neg_of_neg_of_pos hx hy).le
  simp [fmodf, if_neg hq, hf]

/-- For `a ≥ 0` the result lies in `[-π, π)`. -/
theorem pretty_angle_bounds_of_nonneg {a : ℝ} (ha : 0 ≤ a) :
    -Real.pi ≤ pretty_angle a ∧ pretty_angle a < Real.pi := by
  have hpi := Real.pi_pos
  obtain ⟨h1, h2⟩ := fmodf_of_nonneg (x := a + Real.pi) (y := 2 * Real.pi) (by linarith) (by linarith)
  simp only [pretty_angle, ge_iff_le, if_pos ha]
  constructor <;> linarith

/-- For `a < 0` the result lies in `(-π, π]`. -/
theorem pretty_angle_bounds_of_neg {a : ℝ} (ha : a < 0) :
    -Real.pi < pretty_angle a ∧ pretty_angle a ≤ Real.pi := by
  have hpi := Real.pi_pos
  obtain ⟨h1, h2⟩ := fmodf_of_neg (x := a - Real.pi) (y := 2 * Real.pi) (by linarith) (by linarith)
  simp only [pretty_angle, ge_iff_le, if_neg (not_le.mpr ha)]
  constructor <;> linarith

/-- On the open interval `(-π, π)` the function is the identity. -/
theorem pretty_angle_eq_self {b : ℝ} (h1 : -Real.pi < b) (h2 : b < Real.pi) :
    pretty_angle b = b := by
  by_cases hb : 0 ≤ b
  · simp only [pretty_angle, ge_iff_le, if_pos hb]
    rw [fmodf_eq_self_of_nonneg (by linarith) (by linarith)]
    ring
  · simp only [pretty_angle, ge_iff_le, if_neg hb]
    rw [fmodf_eq_self_of_neg (by linarith) (by linarith)]
    ring

/-- At a nonnegative odd multiple of π the result is −π. -/
theorem pretty_angle_odd_mul_pi_of_nonneg (k : ℤ) (hk : 0 ≤ k) :
    pretty_angle ((2 * k + 1) * Real.pi) = -Real.pi := by
  have hpi := Real.pi_pos
  have hk' : (0 : ℝ) ≤ k := by exact_mod_cast hk
  have ha : (0 : ℝ) ≤ (2 * k + 1) * Real.pi := by positivity
  have e : (2 * (k : ℝ) + 1) * Real.pi + Real.pi = ((k + 1 : ℤ) : ℝ) * (2 * Real.pi) := by
    push_cast; ring
  simp only [pretty_angle, ge_iff_le, if_pos ha]
  rw [e, fmodf_int_mul _ (by linarith)]
  ring

/-- At a negative odd multiple of π the result is π. -/
theorem pretty_angle_odd_mul_pi_of_neg (k : ℤ) (hk : k < 0) :
    pretty_angle ((2 * k + 1) * Real.pi) = Real.pi := by
  have hpi := Real.pi_pos
  have hk' : (k : ℝ) ≤ -1 := by exact_mod_cast (by omega : k ≤ -1)
  have ha : ¬ (0 : ℝ) ≤ (2 * k + 1) * Real.pi := by
    rw [not_le]; nlinarith
  have e : (2 * (k : ℝ) + 1) * Real.pi - Real.pi = ((k : ℤ) : ℝ) * (2 * Real.pi) := by
    ring
  simp only [pretty_angle, ge_iff_le, if_neg ha]
  rw [e, fmodf_int_mul _ (by linarith)]
  ring

/-- The value at π is −π. -/
theorem pretty_angle_pi : pretty_angle Real.pi = -Real.pi := by
  simpa using pretty_angle_odd_mul_pi_of_nonneg 0 le_rfl

/-- The value at −π is π. -/
theorem pretty_angle_neg_pi : pretty_angle (-Real.pi) = Real.pi := by
  have := pretty_angle_odd_mul_pi_of_neg (-1) (by norm_num)
  have e : (2 * ((-1 : ℤ) : ℝ) + 1) * Real.pi = -Real.pi := by push_cast; ring
  rwa [e] at this

/-- The result is ±π only at odd multiples of π. -/
theorem odd_mul_pi_of_pretty_angle_abs {a : ℝ}
    (h : pretty_angle a = -Real.pi ∨ pretty_angle a = Real.pi) :
    ∃ k : ℤ, a = (2 * k + 1) * Real.pi := by
  have hpi := Real.pi_pos
  by_cases ha : 0 ≤ a
  · have hb := pretty_angle_bounds_of_nonneg ha
    rcases h with h | h
    · have hq : 0 ≤ (a + Real.pi) / (2 * Real.pi) := div_nonneg (by linarith) (by linarith)
      simp only [pretty_angle, ge_iff_le, if_pos ha, fmodf, if_pos hq] at h
      refine ⟨⌊(a + Real.pi) / (2 * Real.pi)⌋ - 1, ?_⟩
      push_cast
      linarith
    · linarith [hb.2]
  · have ha' : a < 0 := not_le.mp ha
    have hb := pretty_angle_bounds_of_neg ha'
    rcases h with h | h
    · linarith [hb.1]
    · have hq : ¬ 0 ≤ (a - Real.pi) / (2 * Real.pi) :=
        not_le.mpr (div_neg_of_neg_of_pos (by linarith) (by linarith))
      simp only [pretty_angle, ge_iff_le, if_neg ha, fmodf, if_neg hq] at h
      refine ⟨⌈(a - Real.pi) / (2 * Real.pi)⌉, ?_⟩
      linarith

/-- C5 (amended). For every real angle `a`, `pretty_angle a` lies in the closed interval
`[-π, π]`; it is strictly greater than `-π` exactly when `a` is not a nonnegative odd
multiple of π (at `a = π, 3π, 5π, …` the result is `-π`). -/
theorem pretty_angle_range (a : ℝ) :
    (-Real.pi ≤ pretty_angle a ∧ pretty_angle a ≤ Real.pi) ∧
    (-Real.pi < pretty_angle a ↔ ¬ ∃ k : ℤ, 0 ≤ k ∧ a = (2 * k + 1) * Real.pi) := by
  have hpi := Real.pi_pos
  have hb : -Real.pi ≤ pretty_angle a ∧ pretty_angle a ≤ Real.pi := by
    by_cases ha : 0 ≤ a
    · have := pretty_angle_bounds_of_nonneg ha
      exact ⟨this.1, this.2.le⟩
    · have := pretty_angle_bounds_of_neg (not_le.mp ha)
      exact ⟨this.1.le, this.2⟩
  refine ⟨hb, ?_, ?_⟩
  · rintro h ⟨k, hk, rfl⟩
    rw [pretty_angle_odd_mul_pi_of_nonneg k hk] at h
    exact lt_irrefl _ h
  · intro h
    refine lt_of_le_of_ne hb.1 (fun e => h ?_)
    obtain ⟨k, hk⟩ := odd_mul_pi_of_pretty_angle_abs (Or.inl e.symm)
    refine ⟨k, ?_, hk⟩
    by_contra hneg
    have hk0 : k < 0 := not_le.mp hneg
    rw [hk, pretty_angle_odd_mul_pi_of_neg k hk0] at e
    linarith

/-- C6 (amended). `pretty_angle (pretty_angle a) = pretty_angle a` holds exactly for the
angles `a` that are not an odd multiple of π; at the odd multiples the result flips
between `-π` and `π`. -/
theorem pretty_angle_idempotent_iff (a : ℝ) :
    pretty_angle (pretty_angle a) = pretty_angle a ↔ ¬ ∃ k : ℤ, a = (2 * k + 1) * Real.pi := by
  have hpi := Real.pi_pos
  constructor
  · rintro h ⟨k, rfl⟩
    rcases lt_or_le k 0 with hk | hk
    · rw [pretty_angle_odd_mul_pi_of_neg k hk, pretty_angle_pi] at h
      linarith
    · rw [pretty_angle_odd_mul_pi_of_nonneg k hk, pretty_angle_neg_pi] at h
      linarith
  · intro h
    have hne1 : pretty_angle a ≠ -Real.pi := fun e => h (odd_mul_pi_of_pretty_angle_abs (Or.inl e))
    have hne2 : pretty_angle a ≠ Real.pi := fun e => h (odd_mul_pi_of_pretty_angle_abs (Or.inr e))
    have hb : -Real.pi ≤ pretty_angle a ∧ pretty_angle a ≤ Real.pi := by
      by_cases ha : 0 ≤ a
      · have := pretty_angle_bounds_of_nonneg ha
        exact ⟨this.1, this.2.le⟩
      · have := pretty_angle_bounds_of_neg (not_le.mp ha)
        exact ⟨this.1.le, this.2⟩
    exact pretty_angle_eq_self (lt_of_le_of_ne hb.1 (Ne.symm hne1)) (lt_of_le_of_ne hb.2 hne2)

/-- C5 (counterexample). At `a = π` the result is `-π`, which is not strictly greater
than `-π`. -/
theorem pretty_angle_pi_not_gt :
    pretty_angle Real.pi = -Real.pi ∧ ¬ (-Real.pi < pretty_angle Real.pi) := by
  refine ⟨pretty_angle_pi, ?_⟩
  rw [pretty_angle_pi]
  exact lt_irrefl _

/-- C6 (counterexample). At `a = π`: `pretty_angle π = -π` but
`pretty_angle (pretty_angle π) = π`. -/
theorem pretty_angle_not_idempotent_at_pi :
    pretty_angle (pretty_angle Real.pi) = Real.pi ∧ pretty_angle Real.pi = -Real.pi ∧
    pretty_angle (pretty_angle Real.pi) ≠ pretty_angle Real.pi := by
  have hpi := Real.pi_pos
  refine ⟨by rw [pretty_angle_pi, pretty_angle_neg_pi], pretty_angle_pi, ?_⟩
  rw [pretty_angle_pi, pretty_angle_neg_pi]
  intro h
  linarith

/-- Above the clamp the model value is at least 2597.1 as long as `r < 0.528561`. -/
theorem amplitude_model_ge_of_lt {r : ℝ} (h1 : 0.5 < r) (h2 : r < 0.528561) :
    2597.1 ≤ amplitude_model r := by
  have hD : (0 : ℝ) < 5.17716 + (r - 0.528561) ^ 2 := by positivity
  simp only [amplitude_model, if_neg (not_le.mpr h1)]
  have : (2593.19196 : ℝ) ≤ 13427.5 / (5.17716 + (r - 0.528561) ^ 2) := by
    rw [le_div_iff₀ hD]
    nlinarith
  linarith

/-- Inverse of a model value below saturation, for `r` above the clamp. -/
theorem inverse_amplitude_model_of_lt {r : ℝ} (h1 : 0.5 < r)
    (h2 : amplitude_model r < 2597.1) :
    inverse_amplitude_model (amplitude_model r) 255 = FVal.num (|r - 0.528561| + 0.528561) := by
  have hD : (0 : ℝ) < 5.17716 + (r - 0.528561) ^ 2 := by positivity
  have hA : amplitude_model r = 3.90804 + 13427.5 / (5.17716 + (r - 0.528561) ^ 2) := by
    simp only [amplitude_model, if_neg (not_le.mpr h1)]
  have hq : amplitude_model r - 3.90804 = 13427.5 / (5.17716 + (r - 0.528561) ^ 2) := by
    rw [hA]; ring
  have hq0 : amplitude_model r - 3.90804 ≠ 0 := by
    rw [hq]; positivity
  have harg : 13427.5 / (amplitude_model r - 3.90804) - 5.17716 = (r - 0.528561) ^ 2 := by
    rw [hq]; field_simp
  simp only [inverse_amplitude_model, if_true, ge_iff_le, if_neg (not_le.mpr h2), fdiv,
    if_neg hq0, FVal.subReal, FVal.sqrtf, FVal.addReal, harg,
    if_neg (not_lt.mpr (sq_nonneg (r - 0.528561))), Real.sqrt_sq_eq_abs]

/-- C7 (amended). For `r ≥ 0.5`, `inverse_amplitude_model (amplitude_model r) 255`
returns `r` exactly when `r = 0.5` or `amplitude_model r < 2597.1`; the latter holds
for every `r ≥ 0.56`, so the round trip holds there. -/
theorem amplitude_roundtrip_iff (r : ℝ) (hr : 0.5 ≤ r) :
    (inverse_amplitude_model (amplitude_model r) 255 = FVal.num r ↔
      (r = 0.5 ∨ amplitude_model r < 2597.1)) ∧
    (0.56 ≤ r → inverse_amplitude_model (amplitude_model r) 255 = FVal.num r) := by
  rcases eq_or_lt_of_le hr with h | h
  · subst h
    have hA : amplitude_model 0.5 = 2597.1 := by simp [amplitude_model]
    have : inverse_amplitude_model (amplitude_model 0.5) 255 = FVal.num 0.5 := by
      simp [inverse_amplitude_model, hA]
    refine ⟨⟨fun _ => Or.inl rfl, fun _ => this⟩, fun h56 => ?_⟩
    norm_num at h56
  · have key : amplitude_model r < 2597.1 →
        inverse_amplitude_model (amplitude_model r) 255 = FVal.num r := by
      intro hlt
      rw [inverse_amplitude_model_of_lt h hlt]
      have hge : 0.528561 ≤ r := by
        by_contra hc
        have := amplitude_model_ge_of_lt h (not_le.mp hc)
        linarith
      rw [abs_of_nonneg (by linarith)]
      congr 1
      ring
    refine ⟨⟨fun heq => ?_, fun hor => ?_⟩, fun h56 => key ?_⟩
    · by_contra hc
      rw [not_or] at hc
      have hge : 2597.1 ≤ amplitude_model r := not_lt.mp hc.2
      simp only [inverse_amplitude_model, if_true, ge_iff_le, if_pos hge, FVal.num.injEq] at heq
      linarith
    · rcases hor with h5 | hlt
      · linarith
      · exact key hlt
    · have hD : (0 : ℝ) < 5.17716 + (r - 0.528561) ^ 2 := by positivity
      simp only [amplitude_model, if_neg (not_le.mpr h)]
      have : 13427.5 / (5.17716 + (r - 0.528561) ^ 2) < (2593.19196 : ℝ) := by
        rw [div_lt_iff₀ hD]
        nlinarith
      linarith

/-- C7 (counterexample). At `r = 0.528561 ≥ 0.5` the model value is above the
saturation value 2597.1, so the inverse returns the near-field floor 0.5, not `r`. -/
theorem amplitude_roundtrip_fails :
    (0.5 : ℝ) ≤ 0.528561 ∧
    inverse_amplitude_model (amplitude_model 0.528561) 255 = FVal.num 0.5 ∧
    inverse_amplitude_model (amplitude_model 0.528561) 255 ≠ FVal.num 0.528561 := by
  have hA : amplitude_model 0.528561 = 3.90804 + 13427.5 / 5.17716 := by
    simp only [amplitude_model]
    norm_num
  have hge : (2597.1 : ℝ) ≤ amplitude_model 0.528561 := by
    rw [hA]; norm_num
  have h5 : inverse_amplitude_model (amplitude_model 0.528561) 255 = FVal.num 0.5 := by
    simp only [inverse_amplitude_model, if_true, ge_iff_le, if_pos hge]
  refine ⟨by norm_num, h5, ?_⟩
  rw [h5]
  intro h
  simp only [FVal.num.injEq] at h
  norm_num at h

/-- At `lambda = 3.90804` the division is by zero: the square-root argument is `+inf`,
not a negative number, and so is the result. -/
theorem inverse_amplitude_model_at_offset :
    inverse_amplitude_model 3.90804 255 = FVal.pinf := by
  have h1 : ¬ (2597.1 : ℝ) ≤ 3.90804 := by norm_num
  have h2 : (0 : ℝ) < 13427.5 := by norm_num
  simp only [inverse_amplitude_model, if_true, ge_iff_le, if_neg h1, fdiv, sub_self, if_pos h2,
    FVal.subReal, FVal.sqrtf, FVal.addReal]

/-- C8. `inverse_amplitude_model lambda 255` returns the NaN sentinel, not a range,
whenever `lambda < 3.90804`, and more generally whenever `lambda < 2597.1` and the
square-root argument `13427.5/(lambda - 3.90804) - 5.17716` is defined (the divisor is
not zero) and negative. -/
theorem inverse_amplitude_model_nan (lambda : ℝ)
    (h : lambda < 3.90804 ∨
      (lambda < 2597.1 ∧ lambda - 3.90804 ≠ 0 ∧
        13427.5 / (lambda - 3.90804) - 5.17716 < 0)) :
    inverse_amplitude_model lambda 255 = FVal.nan := by
  have main : lambda < 2597.1 → lambda - 3.90804 ≠ 0 →
      13427.5 / (lambda - 3.90804) - 5.17716 < 0 →
      inverse_amplitude_model lambda 255 = FVal.nan := by
    intro h1 h2 h3
    simp only [inverse_amplitude_model, if_true, ge_iff_le, if_neg (not_le.mpr h1), fdiv,
      if_neg h2, FVal.subReal, FVal.sqrtf, if_pos h3, FVal.addReal]
  rcases h with h | ⟨h1, h2, h3⟩
  · refine main (by linarith) (by linarith) ?_
    have : 13427.5 / (lambda - 3.90804) < 0 :=
      div_neg_of_pos_of_neg (by norm_num) (by linarith)
    linarith
  · exact main h1 h2 h3

/-- Witness of C8: an intensity of 1 is below the model offset 3.90804. -/
theorem inverse_amplitude_model_nan_witness :
    ((1 : ℝ) < 3.90804 ∨
      ((1 : ℝ) < 2597.1 ∧ (1 : ℝ) - 3.90804 ≠ 0 ∧
        13427.5 / ((1 : ℝ) - 3.90804) - 5.17716 < 0)) ∧
    inverse_amplitude_model 1 255 = FVal.nan :=
  ⟨Or.inl (by norm_num), inverse_amplitude_model_nan 1 (Or.inl (by norm_num))⟩

/-- Witness of C7: the round trip at `r = 1`. -/
theorem amplitude_roundtrip_iff_witness :
    (0.5 : ℝ) ≤ 1 ∧
    ((inverse_amplitude_model (amplitude_model 1) 255 = FVal.num 1 ↔
      ((1 : ℝ) = 0.5 ∨ amplitude_model 1 < 2597.1)) ∧
    ((0.56 : ℝ) ≤ 1 → inverse_amplitude_model (amplitude_model 1) 255 = FVal.num 1)) :=
  ⟨by norm_num, amplitude_roundtrip_iff 1 (by norm_num)⟩


/-! ## Theorems: processBrightMeas -/

/-- Narrowing to `int16_t` after each addition equals narrowing once at the end. -/
theorem wrap16_add_left (a b : Int) : wrap16 (wrap16 a + b) = wrap16 (a + b) := by
  unfold wrap16
  omega

/-- A value in the `int16_t` range is unchanged by the narrowing. -/
theorem wrap16_of_range {x : Int} (h1 : -32768 ≤ x) (h2 : x ≤ 32767) : wrap16 x = x := by
  unfold wrap16
  omega

/-- The statement `valSum += val` of one cell. -/
theorem sweepCell_valSum (e : Fin 6) (acc : SweepAcc) (s : Fin 6) :
    (sweepCell e acc s).valSum = wrap16 (acc.valSum + acc.bm e s) := rfl

/-- After the sweep `valSum` is the sum of the 36 entries narrowed to `int16_t`. -/
theorem sweep_valSum (bm : BrightMat) :
    (sweep bm).valSum = wrap16 (∑ e : Fin 6, ∑ s : Fin 6, bm e s) := by
  simp only [sweep, dirs, List.foldl, sweepCell_valSum, sweepCell_bm, wrap16_add_left,
    Fin.sum_univ_six]
  congr 1
  ring

/-- One cell clears bit `s` of `allColZeroCheck` exactly when its value is nonzero. -/
theorem sweepCell_testBit (e : Fin 6) (acc : SweepAcc) (s : Fin 6) (j : Nat) (hj : j < 6) :
    (sweepCell e acc s).allColZeroCheck.testBit j =
      (acc.allColZeroCheck.testBit j && !(decide (acc.bm e s ≠ 0) && decide (j = s.val))) := by
  have h255 : (255 : Nat) = 2 ^ 8 - 1 := by norm_num
  simp only [sweepCell, Nat.testBit_and, Nat.testBit_xor, Nat.testBit_shiftLeft, h255,
    Nat.testBit_two_pow_sub_one]
  by_cases hv : acc.bm e s = 0
  · simp [hv]; omega
  · have h1 : (1 : Nat) = 2 ^ 0 := by norm_num
    simp only [hv, ne_eq, not_false_eq_true, if_true, decide_True, Bool.true_and]
    rw [h1, Nat.testBit_two_pow]
    by_cases hjs : j = s.val
    · subst hjs; simp; omega
    · have : j < 8 := by omega
      simp [hjs, this]
      omega

/-- A statement about all six directions, written out. -/
theorem forall_fin_six (P : Fin 6 → Prop) :
    (∀ e, P e) ↔ P 0 ∧ P 1 ∧ P 2 ∧ P 3 ∧ P 4 ∧ P 5 := by
  constructor
  · intro h
    exact ⟨h 0, h 1, h 2, h 3, h 4, h 5⟩
  · rintro ⟨h0, h1, h2, h3, h4, h5⟩ e
    fin_cases e <;> assumption

/-- After the sweep, bit `s` of `allColZeroCheck` is set exactly when column `s` is all zero. -/
theorem sweep_testBit (bm : BrightMat) (s : Fin 6) :
    (sweep bm).allColZeroCheck.testBit s.val = true ↔ ∀ e, bm e s = 0 := by
  have h63 : ∀ j, j < 6 → Nat.testBit 63 j = true := by
    intro j hj
    interval_cases j <;> decide
  have key : ∀ (j : Nat) (hj : j < 6),
      (sweep bm).allColZeroCheck.testBit j = true ↔ ∀ e, bm e ⟨j, hj⟩ = 0 := by
    intro j hj
    simp only [sweep, dirs, List.foldl, sweepCell_testBit _ _ _ j hj, sweepCell_bm, h63 j hj]
    have v3 : ((3 : Fin 6) : Nat) = 3 := rfl
    have v4 : ((4 : Fin 6) : Nat) = 4 := rfl
    have v5 : ((5 : Fin 6) : Nat) = 5 := rfl
    rw [forall_fin_six]
    interval_cases j <;> simp [v3, v4, v5] <;> tauto
  exact key s.val s.isLt

/-- The value returned by `processBrightMeas` is the sum of the 36 entries narrowed to
`int16_t`. -/
theorem processBrightMeas_valSum (st : State) :
    (processBrightMeas st).2 = wrap16 (∑ e : Fin 6, ∑ s : Fin 6, st.brightMeas e s) := by
  simp only [processBrightMeas, sweep_valSum]

/-- C9 (behaviour of the code at the failing input). For the matrix whose 36 entries are
all 1000 (each a valid `int16_t`), the sum of the entries is 36000 but
`processBrightMeas` returns −29536: the accumulator `valSum` is an `int16_t`. -/
theorem processBrightMeas_overflow :
    BrightMat.isInt16 (fun _ _ => 1000) ∧
    (∑ e : Fin 6, ∑ s : Fin 6, (fun _ _ => 1000 : BrightMat) e s) = 36000 ∧
    (processBrightMeas { zeroState with brightMeas := fun _ _ => 1000 }).2 = -29536 := by
  refine ⟨fun _ _ => by constructor <;> norm_num, by simp, ?_⟩
  rw [processBrightMeas_valSum]
  simp [wrap16]

/-- When the sum of the 36 entries fits in an `int16_t`, `processBrightMeas` returns it. -/
theorem processBrightMeas_valSum_of_fits (st : State)
    (h1 : -32768 ≤ ∑ e : Fin 6, ∑ s : Fin 6, st.brightMeas e s)
    (h2 : ∑ e : Fin 6, ∑ s : Fin 6, st.brightMeas e s ≤ 32767) :
    (processBrightMeas st).2 = ∑ e : Fin 6, ∑ s : Fin 6, st.brightMeas e s := by
  rw [processBrightMeas_valSum, wrap16_of_range h1 h2]

/-- The counter of sensor `k` in arithmetic form. -/
theorem healthCounter_eq (h k : Nat) : healthCounter h k = h / 2 ^ (4 * k) % 16 := by
  have h15 : (15 : Nat) = 2 ^ 4 - 1 := by norm_num
  simp only [healthCounter, h15, Nat.and_pow_two_sub_one_eq_mod, Nat.shiftRight_eq_div_pow]

/-- The mask `~(0xF<<(4*i))` after its conversion to `uint32_t`: for the sensors 0, 1, 2
all ones except nibble `i`; for sensor 3 `0xF<<12` is negative as an `int`, its
complement is `0x0FFF` and the conversion leaves the bits 12..31 zero; for the sensors 4
and 5 the shift gives 0 and the mask is all ones. -/
theorem health_mask (i : Nat) (hi : i < 6) :
    toUInt32 (-(shl16 0xF (4 * i)) - 1) =
      if i ≤ 2 then 0xFFFFFFFF ^^^ (0xF <<< (4 * i))
      else if i = 3 then 2 ^ 12 - 1 else 2 ^ 32 - 1 := by
  interval_cases i <;> decide

/-- The increment `1<<(4*i)` after its conversion to `uint32_t`: `2^(4*i)` for the sensors
0..3 and 0 for the sensors 4 and 5. -/
theorem health_incr (i : Nat) (hi : i < 6) :
    toUInt32 (shl16 1 (4 * i)) = if i ≤ 3 then 2 ^ (4 * i) else 0 := by
  interval_cases i <;> decide

/-- Clearing nibble `i` of a 32-bit word in arithmetic form, for the sensors 0, 1, 2. -/
theorem clearNibble_eq (h i : Nat) (hi : i ≤ 2) :
    clearNibble h i = h % 2 ^ (4 * i) + 2 ^ (4 * i + 4) * (h % 2 ^ 32 / 2 ^ (4 * i + 4)) := by
  have hM : 0xFFFFFFFF ^^^ (0xF <<< (4 * i)) =
      2 ^ (4 * i + 4) * (2 ^ (28 - 4 * i) - 1) + (2 ^ (4 * i) - 1) := by
    interval_cases i <;> decide
  have hpow : 2 ^ (4 * i) < 2 ^ (4 * i + 4) := Nat.pow_lt_pow_right (by norm_num) (by omega)
  have hb : 2 ^ (4 * i) - 1 < 2 ^ (4 * i + 4) := lt_of_le_of_lt (Nat.sub_le _ _) hpow
  have hb2 : h % 2 ^ (4 * i) < 2 ^ (4 * i + 4) :=
    lt_trans (Nat.mod_lt h (Nat.two_pow_pos (4 * i))) hpow
  unfold clearNibble
  rw [health_mask i (by omega), if_pos hi, hM, Nat.add_comm (h % 2 ^ (4 * i))]
  apply Nat.eq_of_testBit_eq
  intro j
  rw [Nat.testBit_and, Nat.testBit_mul_pow_two_add _ hb, Nat.testBit_mul_pow_two_add _ hb2]
  by_cases hj : j < 4 * i + 4
  · simp only [hj, if_true, Nat.testBit_two_pow_sub_one, Nat.testBit_mod_two_pow]
    rw [Bool.and_comm]
  · simp only [hj, if_false, Nat.testBit_two_pow_sub_one, ← Nat.shiftRight_eq_div_pow,
      Nat.testBit_shiftRight, Nat.testBit_mod_two_pow]
    have e : 4 * i + 4 + (j - (4 * i + 4)) = j := by omega
    rw [e, Bool.and_comm]
    congr 1
    simp only [decide_eq_decide]
    omega

/-- For sensor 3 the statement `sensorHealthHistory &= ~(0xF<<12)` keeps the bits 0..11
only: it clears the counters of the sensors 3, 4 and 5 and the bits 24..31. -/
theorem clearNibble_three (h : Nat) : clearNibble h 3 = h % 2 ^ 12 := by
  unfold clearNibble
  rw [health_mask 3 (by norm_num)]
  simp only [show ¬ (3 ≤ 2) by norm_num, if_false, if_true, Nat.and_pow_two_sub_one_eq_mod]

/-- For the sensors 4 and 5 the statement `sensorHealthHistory &= ~(0xF<<(4*i))` changes
nothing. -/
theorem clearNibble_high (h i : Nat) (h4 : 4 ≤ i) (hi : i < 6) :
    clearNibble h i = h % 2 ^ 32 := by
  unfold clearNibble
  rw [health_mask i hi, if_neg (by omega), if_neg (by omega), Nat.and_pow_two_sub_one_eq_mod]

/-- The test `c & (1<<i)` reads bit `i`. -/
theorem and_one_shiftLeft_ne_zero (c i : Nat) : c &&& (1 <<< i) ≠ 0 ↔ c.testBit i = true := by
  rw [Nat.one_shiftLeft, Nat.and_two_pow]
  cases c.testBit i <;> simp

/-- The saturation test of iteration `i`: for the sensors 0..3 it succeeds exactly when
column `i` was all zero and the counter stood at 14; for the sensors 4 and 5, whose
counter the iteration does not change, exactly when the counter stands at 15. -/
theorem healthStep_fault_iff (chk : Nat) (acc : HealthAcc) (i : Nat) (hi : i < 6) :
    ((if chk &&& (1 <<< i) ≠ 0 then (acc.hist + toUInt32 (shl16 1 (4 * i))) % 2 ^ 32
        else clearNibble acc.hist i) >>> (4 * i)) &&& 0xF = 0xF ↔
      (if i ≤ 3 then chk.testBit i = true ∧ healthCounter acc.hist i = 14
        else healthCounter acc.hist i = 15) := by
  have hc := fun h => healthCounter_eq h i
  simp only [healthCounter] at hc
  rw [hc, healthCounter_eq, health_incr i hi]
  by_cases hz : chk.testBit i = true
  · have hnz : chk &&& (1 <<< i) ≠ 0 := (and_one_shiftLeft_ne_zero chk i).mpr hz
    rw [if_pos hnz]
    simp only [hz, true_and]
    interval_cases i <;> simp only [Nat.reducePow, Nat.reduceMul, Nat.reduceAdd,
      Nat.reduceLeDiff, if_true, if_false] <;> omega
  · have hnz : ¬ chk &&& (1 <<< i) ≠ 0 := fun h => hz ((and_one_shiftLeft_ne_zero chk i).mp h)
    rw [if_neg hnz]
    simp only [hz, Bool.false_eq_true, false_and]
    rcases Nat.lt_or_ge i 3 with h3 | h3
    · rw [clearNibble_eq _ _ (by omega), if_pos (by omega), iff_false]
      interval_cases i <;> simp only [Nat.reducePow, Nat.reduceMul, Nat.reduceAdd] <;> omega
    · rcases Nat.eq_or_lt_of_le h3 with h3 | h3
      · subst h3
        rw [clearNibble_three, if_pos (by norm_num), iff_false]
        simp only [Nat.reducePow, Nat.reduceMul]
        omega
      · rw [clearNibble_high _ _ h3 hi, if_neg (by omega)]
        interval_cases i <;> simp only [Nat.reducePow, Nat.reduceMul, Nat.reduceAdd] <;> omega

/-- The history after iteration `i` in arithmetic form, for the sensors 0, 1, 2. -/
theorem healthStep_hist (chk : Nat) (acc : HealthAcc) (i : Nat) (hi : i ≤ 2) :
    (healthStep chk acc i).hist =
      if chk.testBit i = true then
        (if healthCounter acc.hist i = 14 then acc.hist % 2 ^ 32 - 14 * 2 ^ (4 * i)
          else (acc.hist + 2 ^ (4 * i)) % 2 ^ 32)
      else acc.hist % 2 ^ 32 - healthCounter acc.hist i * 2 ^ (4 * i) := by
  have hi3 : i ≤ 3 := by omega
  have hf := healthStep_fault_iff chk acc i (by omega)
  simp only [hi3, if_true] at hf
  unfold healthStep
  simp only [hf]
  simp only [health_incr i (by omega), hi3, if_true]
  by_cases hz : chk.testBit i = true
  · have hnz : chk &&& (1 <<< i) ≠ 0 := (and_one_shiftLeft_ne_zero chk i).mpr hz
    by_cases hc : healthCounter acc.hist i = 14
    · rw [if_pos ⟨hz, hc⟩, if_pos hz, if_pos hc]
      simp only [if_pos hnz]
      rw [clearNibble_eq _ _ hi]
      rw [healthCounter_eq] at hc
      revert hc
      interval_cases i <;> simp only [Nat.reducePow, Nat.reduceMul, Nat.reduceAdd] <;> omega
    · rw [if_neg (fun h => hc h.2), if_pos hz, if_neg hc]
      simp only [if_pos hnz]
  · have hnz : ¬ chk &&& (1 <<< i) ≠ 0 := fun h => hz ((and_one_shiftLeft_ne_zero chk i).mp h)
    rw [if_neg (fun h => hz h.1), if_neg hz]
    simp only [if_neg hnz]
    rw [clearNibble_eq _ _ hi, healthCounter_eq]
    interval_cases i <;> simp only [Nat.reducePow, Nat.reduceMul, Nat.reduceAdd] <;> omega

/-- The history after iteration 3: an all-zero column adds `2^12`, and the word is cut to
its bits 0..11 (counters 3, 4, 5 and the bits 24..31 cleared) when the counter reaches
15; a column with a nonzero entry cuts the word to its bits 0..11. -/
theorem healthStep_hist_three (chk : Nat) (acc : HealthAcc) :
    (healthStep chk acc 3).hist =
      if chk.testBit 3 = true then
        (if healthCounter acc.hist 3 = 14 then acc.hist % 2 ^ 12
          else (acc.hist + 2 ^ 12) % 2 ^ 32)
      else acc.hist % 2 ^ 12 := by
  have hi3 : 3 ≤ 3 := le_rfl
  have hf := healthStep_fault_iff chk acc 3 (by norm_num)
  simp only [hi3, if_true] at hf
  unfold healthStep
  simp only [hf]
  simp only [health_incr 3 (by norm_num), hi3, if_true]
  by_cases hz : chk.testBit 3 = true
  · have hnz : chk &&& (1 <<< 3) ≠ 0 := (and_one_shiftLeft_ne_zero chk 3).mpr hz
    by_cases hc : healthCounter acc.hist 3 = 14
    · rw [if_pos ⟨hz, hc⟩, if_pos hz, if_pos hc]
      simp only [if_pos hnz]
      rw [clearNibble_three]
      simp only [Nat.reducePow, Nat.reduceMul]
      omega
    · rw [if_neg (fun h => hc h.2), if_pos hz, if_neg hc]
      simp only [if_pos hnz]
  · have hnz : ¬ chk &&& (1 <<< 3) ≠ 0 := fun h => hz ((and_one_shiftLeft_ne_zero chk 3).mp h)
    rw [if_neg (fun h => hz h.1), if_neg hz]
    simp only [if_neg hnz]
    rw [clearNibble_three]

/-- The iterations 4 and 5 leave the history as it is. -/
theorem healthStep_hist_high (chk : Nat) (acc : HealthAcc) (i : Nat) (h4 : 4 ≤ i)
    (hi : i < 6) : (healthStep chk acc i).hist = acc.hist % 2 ^ 32 := by
  have hn3 : ¬ i ≤ 3 := by omega
  unfold healthStep
  simp only [health_incr i hi, hn3, if_false, clearNibble_high _ _ h4 hi, Nat.add_zero,
    Nat.mod_mod, ite_self]
  split_ifs <;> rfl

/-- Iteration `i` leaves the counters of the sensors below `i` alone. -/
theorem healthStep_counter_lower (chk : Nat) (acc : HealthAcc) (i k : Nat) (hi : i < 6)
    (hk : k < i) :
    healthCounter (healthStep chk acc i).hist k = healthCounter acc.hist k := by
  rcases Nat.lt_or_ge i 3 with h3 | h3
  · rw [healthStep_hist chk acc i (by omega)]
    simp only [healthCounter_eq]
    split_ifs with hz hc <;>
      interval_cases i <;> interval_cases k <;>
      simp only [Nat.reducePow, Nat.reduceMul] at * <;> omega
  · rcases Nat.eq_or_lt_of_le h3 with h3 | h3
    · subst h3
      rw [healthStep_hist_three]
      simp only [healthCounter_eq]
      split_ifs with hz hc <;>
        interval_cases k <;>
        simp only [Nat.reducePow, Nat.reduceMul] at * <;> omega
    · rw [healthStep_hist_high chk acc i h3 hi]
      simp only [healthCounter_eq]
      interval_cases i <;> interval_cases k <;>
        simp only [Nat.reducePow, Nat.reduceMul] at * <;> omega

/-- An iteration other than the third leaves the counters of the sensors above `i` alone
when counter `i` is at most 14 (no carry). -/
theorem healthStep_counter_upper (chk : Nat) (acc : HealthAcc) (i k : Nat) (hik : i < k)
    (hk : k < 6) (h3 : i ≠ 3) (h14 : healthCounter acc.hist i ≤ 14) :
    healthCounter (healthStep chk acc i).hist k = healthCounter acc.hist k := by
  rcases Nat.lt_or_ge i 3 with hlt | hge
  · rw [healthStep_hist chk acc i (by omega)]
    simp only [healthCounter_eq] at h14 ⊢
    split_ifs with hz hc <;>
      interval_cases k <;> interval_cases i <;>
      simp only [Nat.reducePow, Nat.reduceMul] at * <;> omega
  · have hi4 : i = 4 := by omega
    have hk5 : k = 5 := by omega
    subst hi4 hk5
    rw [healthStep_hist_high chk acc 4 (by norm_num) (by norm_num)]
    simp only [healthCounter_eq, Nat.reducePow, Nat.reduceMul]
    omega

/-- Counter `i` after iteration `i`, for the sensors 0..3, when it was at most 14
before. -/
theorem healthStep_counter_self (chk : Nat) (acc : HealthAcc) (i : Nat) (hi : i ≤ 3)
    (h14 : healthCounter acc.hist i ≤ 14) :
    healthCounter (healthStep chk acc i).hist i =
      if chk.testBit i = true then
        (if healthCounter acc.hist i = 14 then 0 else healthCounter acc.hist i + 1)
      else 0 := by
  rcases Nat.lt_or_ge i 3 with hlt | hge
  · rw [healthStep_hist chk acc i (by omega)]
    simp only [healthCounter_eq] at h14 ⊢
    split_ifs with hz hc <;>
      interval_cases i <;>
      simp only [Nat.reducePow, Nat.reduceMul] at * <;> omega
  · have h3 : i = 3 := by omega
    subst h3
    rw [healthStep_hist_three]
    simp only [healthCounter_eq] at h14 ⊢
    split_ifs with hz hc <;>
      simp only [Nat.reducePow, Nat.reduceMul] at * <;> omega

/-- The counters of the sensors 4 and 5 are not changed by their own iteration: an
all-zero column adds `1<<(4*i)`, which is 0. -/
theorem healthStep_counter_self_high (chk : Nat) (acc : HealthAcc) (i : Nat) (h4 : 4 ≤ i)
    (hi : i < 6) :
    healthCounter (healthStep chk acc i).hist i = healthCounter acc.hist i := by
  rw [healthStep_hist_high chk acc i h4 hi]
  simp only [healthCounter_eq]
  interval_cases i <;> simp only [Nat.reducePow, Nat.reduceMul] at * <;> omega

/-- Prints and `problem` after iteration `i`. -/
theorem healthStep_faults (chk : Nat) (acc : HealthAcc) (i : Nat) (hi : i < 6) :
    (healthStep chk acc i).faults =
        (if (if i ≤ 3 then chk.testBit i = true ∧ healthCounter acc.hist i = 14
              else healthCounter acc.hist i = 15)
          then acc.faults ++ [Event.health_fault i] else acc.faults) ∧
    (healthStep chk acc i).problem =
        (if (if i ≤ 3 then chk.testBit i = true ∧ healthCounter acc.hist i = 14
              else healthCounter acc.hist i = 15)
          then 1 else acc.problem) := by
  have hf := healthStep_fault_iff chk acc i hi
  unfold healthStep
  simp only [hf]
  split_ifs <;> simp

/-- One more iteration of the health loop. -/
theorem healthPrefix_succ (chk hist m : Nat) :
    healthPrefix chk hist (m + 1) = healthStep chk (healthPrefix chk hist m) m := by
  simp [healthPrefix, List.range_succ, List.foldl_append]

/-- The health loop is its first six iterations. -/
theorem healthLoop_six (chk hist : Nat) : healthLoop chk hist = healthPrefix chk hist 6 :=
  rfl

/-- An iteration prints the fault of its own sensor only. -/
theorem healthStep_faults_mem (chk : Nat) (acc : HealthAcc) (i s : Nat) (hi : i < 6)
    (hne : i ≠ s) :
    (Event.health_fault s ∈ (healthStep chk acc i).faults ↔
      Event.health_fault s ∈ acc.faults) ∧
    (healthStep chk acc i).faults.count (Event.health_fault s) =
      acc.faults.count (Event.health_fault s) := by
  rw [(healthStep_faults chk acc i hi).1]
  by_cases hc : (if i ≤ 3 then chk.testBit i = true ∧ healthCounter acc.hist i = 14
      else healthCounter acc.hist i = 15)
  · rw [if_pos hc]
    constructor
    · simp only [List.mem_append, List.mem_singleton, Event.health_fault.injEq]
      constructor
      · rintro (h | h)
        · exact h
        · exact absurd h.symm hne
      · exact fun h => Or.inl h
    · rw [List.count_append]
      have : ([Event.health_fault i] : List Event).count (Event.health_fault s) = 0 := by
        rw [List.count_eq_zero]
        simp only [List.mem_singleton, Event.health_fault.injEq]
        exact fun h => hne h.symm
      rw [this, Nat.add_zero]
  · rw [if_neg hc]
    exact ⟨Iff.rfl, rfl⟩

/-- Before iteration `m ≤ 3`, the counters `m..s` still hold their initial values, and no
fault for `s` has been printed, provided the counters up to `s` start at most at 14. -/
theorem healthPrefix_before (chk hist s : Nat) (hs : s < 6)
    (H : ∀ i, i ≤ s → healthCounter hist i ≤ 14) (m : Nat) (hm : m ≤ s) (hm3 : m ≤ 3) :
    (∀ k, m ≤ k → k ≤ s →
        healthCounter (healthPrefix chk hist m).hist k = healthCounter hist k) ∧
      Event.health_fault s ∉ (healthPrefix chk hist m).faults := by
  induction m with
  | zero => simp [healthPrefix]
  | succ m ih =>
    obtain ⟨ih1, ih2⟩ := ih (by omega) (by omega)
    have hmm : healthCounter (healthPrefix chk hist m).hist m ≤ 14 := by
      rw [ih1 m le_rfl (by omega)]
      exact H m (by omega)
    rw [healthPrefix_succ]
    refine ⟨fun k hk1 hk2 => ?_, ?_⟩
    · rw [healthStep_counter_upper chk _ m k (by omega) (by omega) (by omega) hmm]
      exact ih1 k (by omega) hk2
    · rw [(healthStep_faults_mem chk _ m s (by omega) (by omega)).1]
      exact ih2

/-- After iteration `s` and any number of later iterations, counter `s` and the fault
print of `s` are those decided at iteration `s`. -/
theorem healthPrefix_after (chk hist s : Nat) (m : Nat) (hm1 : s + 1 ≤ m) (hm2 : m ≤ 6) :
    healthCounter (healthPrefix chk hist m).hist s =
        healthCounter (healthPrefix chk hist (s + 1)).hist s ∧
      (Event.health_fault s ∈ (healthPrefix chk hist m).faults ↔
        Event.health_fault s ∈ (healthPrefix chk hist (s + 1)).faults) := by
  induction m, hm1 using Nat.le_induction with
  | base => exact ⟨rfl, Iff.rfl⟩
  | succ m hm ih =>
    obtain ⟨ih1, ih2⟩ := ih (by omega)
    rw [healthPrefix_succ]
    refine ⟨?_, ?_⟩
    · rw [healthStep_counter_lower chk _ m s (by omega) (by omega)]
      exact ih1
    · rw [(healthStep_faults_mem chk _ m s (by omega) (by omega)).1]
      exact ih2

/-- The flag `problem` is set as soon as a fault has been printed. -/
theorem healthPrefix_problem (chk hist m : Nat) (hm : m ≤ 6) :
    (healthPrefix chk hist m).faults ≠ [] → (healthPrefix chk hist m).problem ≠ 0 := by
  induction m with
  | zero => simp [healthPrefix]
  | succ m ih =>
    rw [healthPrefix_succ]
    obtain ⟨hf, hp⟩ := healthStep_faults chk (healthPrefix chk hist m) m (by omega)
    rw [hf, hp]
    by_cases hc : (if m ≤ 3 then chk.testBit m = true ∧
        healthCounter (healthPrefix chk hist m).hist m = 14
      else healthCounter (healthPrefix chk hist m).hist m = 15)
    · rw [if_pos hc, if_pos hc]
      intro _
      exact one_ne_zero
    · rw [if_neg hc, if_neg hc]
      exact ih (by omega)

/-- Counter and fault print of a sensor `s` of 0..3 after the whole health loop. -/
theorem healthLoop_counter (chk hist s : Nat) (hs : s ≤ 3)
    (H : ∀ i, i ≤ s → healthCounter hist i ≤ 14) :
    healthCounter (healthLoop chk hist).hist s =
        (if chk.testBit s = true then
          (if healthCounter hist s = 14 then 0 else healthCounter hist s + 1)
        else 0) ∧
      (Event.health_fault s ∈ (healthLoop chk hist).faults ↔
        (chk.testBit s = true ∧ healthCounter hist s = 14)) := by
  obtain ⟨hb1, hb2⟩ := healthPrefix_before chk hist s (by omega) H s le_rfl hs
  obtain ⟨ha1, ha2⟩ := healthPrefix_after chk hist s 6 (by omega) le_rfl
  have hcs : healthCounter (healthPrefix chk hist s).hist s = healthCounter hist s :=
    hb1 s le_rfl le_rfl
  rw [healthLoop_six, ha1, ha2, healthPrefix_succ]
  refine ⟨?_, ?_⟩
  · rw [healthStep_counter_self chk _ s hs (by rw [hcs]; exact H s le_rfl), hcs]
  · rw [(healthStep_faults chk _ s (by omega)).1, hcs]
    simp only [hs, if_true]
    split_ifs with h
    · simp [h]
    · simp only [h, iff_false]
      exact hb2

/-- What `processBrightMeas` does to the health history and to the trace. -/
theorem processBrightMeas_health (st : State) :
    (processBrightMeas st).1.sensorHealthHistory =
        (healthLoop (sweep st.brightMeas).allColZeroCheck st.sensorHealthHistory).hist ∧
    (processBrightMeas st).1.trace.drop st.trace.length =
        (healthLoop (sweep st.brightMeas).allColZeroCheck st.sensorHealthHistory).faults ++
          (if (healthLoop (sweep st.brightMeas).allColZeroCheck st.sensorHealthHistory).problem ≠ 0
            then [Event.startup_light_sequence] else []) := by
  unfold processBrightMeas
  simp only []
  split_ifs
  · simp [State.emit, List.append_assoc]
  · simp

/-- The sensors 0 to 3. Let `s` be one of them, such that the health counters of `s` and
of every lower-numbered sensor are at most 14 before the call. After `processBrightMeas`:
if column `s` has a nonzero entry the counter of `s` is 0 and no fault is printed for
`s`; if column `s` is all zero and `c + 1 < 15` the counter is `c + 1` and no fault is
printed for `s`; if column `s` is all zero and `c + 1 = 15` the counter is 0, the fault
for `s` is printed and `startup_light_sequence` is called. -/
theorem processBrightMeas_counter_low (st : State) (s : Fin 6) (hs3 : s.val ≤ 3)
    (h : ∀ i : Nat, i ≤ s.val → healthCounter st.sensorHealthHistory i ≤ 14) :
    ((∃ e, st.brightMeas e s ≠ 0) →
      healthCounter (processBrightMeas st).1.sensorHealthHistory s.val = 0 ∧
      Event.health_fault s.val ∉ (processBrightMeas st).1.trace.drop st.trace.length) ∧
    ((∀ e, st.brightMeas e s = 0) → healthCounter st.sensorHealthHistory s.val + 1 < 15 →
      healthCounter (processBrightMeas st).1.sensorHealthHistory s.val =
        healthCounter st.sensorHealthHistory s.val + 1 ∧
      Event.health_fault s.val ∉ (processBrightMeas st).1.trace.drop st.trace.length) ∧
    ((∀ e, st.brightMeas e s = 0) → healthCounter st.sensorHealthHistory s.val + 1 = 15 →
      healthCounter (processBrightMeas st).1.sensorHealthHistory s.val = 0 ∧
      Event.health_fault s.val ∈ (processBrightMeas st).1.trace.drop st.trace.length ∧
      Event.startup_light_sequence ∈ (processBrightMeas st).1.trace.drop st.trace.length) := by
  obtain ⟨hh, ht⟩ := processBrightMeas_health st
  obtain ⟨hc, hf⟩ := healthLoop_counter (sweep st.brightMeas).allColZeroCheck
    st.sensorHealthHistory s.val hs3 h
  have hz := sweep_testBit st.brightMeas s
  have hmem : ∀ ev, ev ∈ (processBrightMeas st).1.trace.drop st.trace.length ↔
      (ev ∈ (healthLoop (sweep st.brightMeas).allColZeroCheck st.sensorHealthHistory).faults ∨
        ((healthLoop (sweep st.brightMeas).allColZeroCheck st.sensorHealthHistory).problem ≠ 0 ∧
          ev = Event.startup_light_sequence)) := by
    intro ev
    rw [ht, List.mem_append]
    split_ifs with hp <;> simp [hp]
  rw [hh, hc]
  refine ⟨fun hne => ?_, fun hall hlt => ?_, fun hall heq => ?_⟩
  · have hz' : ¬ (sweep st.brightMeas).allColZeroCheck.testBit s.val = true := by
      rw [hz]
      push_neg
      exact hne
    refine ⟨by rw [if_neg hz'], ?_⟩
    rw [hmem, hf]
    simp [hz']
  · have hz' := hz.mpr hall
    have h14 : ¬ healthCounter st.sensorHealthHistory s.val = 14 := by omega
    refine ⟨by rw [if_pos hz', if_neg h14], ?_⟩
    rw [hmem, hf]
    simp [h14]
  · have hz' := hz.mpr hall
    have h14 : healthCounter st.sensorHealthHistory s.val = 14 := by omega
    have hin := hf.mpr ⟨hz', h14⟩
    refine ⟨by rw [if_pos hz', if_pos h14], (hmem _).mpr (Or.inl hin), (hmem _).mpr (Or.inr ⟨?_, rfl⟩)⟩
    rw [healthLoop_six] at hin ⊢
    exact healthPrefix_problem _ _ 6 le_rfl (List.ne_nil_of_mem hin)

set_option maxRecDepth 100000 in
/-- C10 (divergence). After `range_algs_init` the history is 0 and the matrix is all zero:
column 4 is all zero and the counter of sensor 4 is 0 before the call, so the counter
should be 1 afterwards. `processBrightMeas` leaves it at 0 (and likewise for sensor 5),
because `1<<(4*i)` is computed in an `int` of 16 bits; the counter of sensor 0 does go
from 0 to 1. -/
theorem processBrightMeas_counter_stuck :
    healthCounter (range_algs_init zeroState).sensorHealthHistory 4 = 0 ∧
    (∀ e : Fin 6, (range_algs_init zeroState).brightMeas e 4 = 0) ∧
    healthCounter (processBrightMeas (range_algs_init zeroState)).1.sensorHealthHistory 4 = 0 ∧
    healthCounter (processBrightMeas (range_algs_init zeroState)).1.sensorHealthHistory 5 = 0 ∧
    healthCounter (processBrightMeas (range_algs_init zeroState)).1.sensorHealthHistory 0 = 1 := by
  decide

/-! ## Theorems: broadcast frame, amplitude model, published range, consecutive cycles -/

/-- `ir_range_blast` only appends to the trace. -/
theorem ir_range_blast_frame (p : Nat) (st : State) :
    (ir_range_blast p st).brightMeas = st.brightMeas ∧
    (ir_range_blast p st).sensorHealthHistory = st.sensorHealthHistory ∧
    (ir_range_blast p st).last_good_rnb = st.last_good_rnb ∧
    (ir_range_blast p st).rnb_updated = st.rnb_updated := by
  simp [ir_range_blast, blastDir, State.emit, dirs, List.foldl]

/-- On every path `broadcast_rnb_data` leaves the matrix, the health history and the
published estimate alone. -/
theorem broadcast_rnb_data_frame (env : BroadcastEnv) (st : State) :
    (broadcast_rnb_data env st).brightMeas = st.brightMeas ∧
    (broadcast_rnb_data env st).sensorHealthHistory = st.sensorHealthHistory ∧
    (broadcast_rnb_data env st).last_good_rnb = st.last_good_rnb ∧
    (broadcast_rnb_data env st).rnb_updated = st.rnb_updated := by
  unfold broadcast_rnb_data
  by_cases hf : st.rnbProcessingFlag = 0 <;> by_cases hc : env.cmd_result = 0 <;>
    simp [hf, hc, State.emit, ir_range_blast_frame]

/-- C18. When `hp_ir_targeted_cmd` returns 0 (not safe to send), `broadcast_rnb_data`
makes no driver call besides that command (so no emitter is switched on), leaves
`hp_ir_block_bm`, `brightMeas`, `sensorHealthHistory`, `last_good_rnb` and `rnb_updated`
unchanged; and on every path, whatever the command returns, `brightMeas` (as well as
`sensorHealthHistory`, `last_good_rnb`, `rnb_updated`) is left unchanged. -/
theorem broadcast_rnb_data_not_safe (env : BroadcastEnv) (st : State)
    (h : env.cmd_result = 0) :
    ((broadcast_rnb_data env st).trace =
        st.trace ++ (if st.rnbProcessingFlag = 0
          then [Event.hp_ir_targeted_cmd 'r' 65 (env.get_time &&& 0xFFFF)] else [])) ∧
    (broadcast_rnb_data env st).hp_ir_block_bm = st.hp_ir_block_bm ∧
    (broadcast_rnb_data env st).brightMeas = st.brightMeas ∧
    (broadcast_rnb_data env st).sensorHealthHistory = st.sensorHealthHistory ∧
    (broadcast_rnb_data env st).last_good_rnb = st.last_good_rnb ∧
    (broadcast_rnb_data env st).rnb_updated = st.rnb_updated ∧
    (∀ (env1 : BroadcastEnv) (st1 : State),
      (broadcast_rnb_data env1 st1).brightMeas = st1.brightMeas ∧
      (broadcast_rnb_data env1 st1).sensorHealthHistory = st1.sensorHealthHistory ∧
      (broadcast_rnb_data env1 st1).last_good_rnb = st1.last_good_rnb ∧
      (broadcast_rnb_data env1 st1).rnb_updated = st1.rnb_updated) := by
  obtain ⟨f1, f2, f3, f4⟩ := broadcast_rnb_data_frame env st
  refine ⟨?_, ?_, f1, f2, f3, f4, broadcast_rnb_data_frame⟩
  · unfold broadcast_rnb_data
    by_cases hf : st.rnbProcessingFlag = 0 <;> simp [hf, h, State.emit]
  · unfold broadcast_rnb_data
    by_cases hf : st.rnbProcessingFlag = 0 <;> simp [hf, h, State.emit]

/-- Witness of C18: a call from the idle state whose command is refused by the driver. -/
theorem broadcast_rnb_data_not_safe_witness :
    ({ get_time := 70000, cmd_result := 0 } : BroadcastEnv).cmd_result = 0 ∧
    (broadcast_rnb_data { get_time := 70000, cmd_result := 0 } zeroState).trace =
      [Event.hp_ir_targeted_cmd 'r' 65 4464] ∧
    (broadcast_rnb_data { get_time := 70000, cmd_result := 0 } zeroState).hp_ir_block_bm = 0 :=
  ⟨rfl,
    (broadcast_rnb_data_not_safe { get_time := 70000, cmd_result := 0 } zeroState rfl).1,
    (broadcast_rnb_data_not_safe { get_time := 70000, cmd_result := 0 } zeroState rfl).2.1⟩

/-- Above the clamp the model is the rational function of the source. -/
theorem amplitude_model_of_gt {r : ℝ} (h : 0.5 < r) :
    amplitude_model r = 3.90804 + 13427.5 / (5.17716 + (r - 0.528561) ^ 2) := by
  simp only [amplitude_model, if_neg (not_le.mpr h)]

/-- C19 (amended). `amplitude_model` is strictly decreasing from the peak of the rational
function on: for `0.528561 ≤ r1 < r2`, `amplitude_model r2 < amplitude_model r1`. Between
the clamp and the peak it is strictly increasing (for `0.5 < r1 < r2 ≤ 0.528561`,
`amplitude_model r1 < amplitude_model r2`). It never exceeds its peak value
`3.90804 + 13427.5/5.17716` (about 2597.51), which it takes at `r = 0.528561` and which
is greater than the clamp constant 2597.1. -/
theorem amplitude_model_monotone (r1 r2 : ℝ) (h12 : r1 < r2) :
    (0.528561 ≤ r1 → amplitude_model r2 < amplitude_model r1) ∧
    (0.5 < r1 → r2 ≤ 0.528561 → amplitude_model r1 < amplitude_model r2) ∧
    (∀ r, amplitude_model r ≤ 3.90804 + 13427.5 / 5.17716) ∧
    amplitude_model 0.528561 = 3.90804 + 13427.5 / 5.17716 ∧
    (2597.1 : ℝ) < 3.90804 + 13427.5 / 5.17716 := by
  have hD : ∀ r : ℝ, (0 : ℝ) < 5.17716 + (r - 0.528561) ^ 2 := fun r => by positivity
  have hK : (0 : ℝ) < 13427.5 := by norm_num
  refine ⟨fun h1 => ?_, fun h1 h2 => ?_, fun r => ?_, ?_, by norm_num⟩
  · rw [amplitude_model_of_gt (by linarith : (0.5 : ℝ) < r1),
      amplitude_model_of_gt (by linarith : (0.5 : ℝ) < r2)]
    have : 13427.5 / (5.17716 + (r2 - 0.528561) ^ 2) <
        13427.5 / (5.17716 + (r1 - 0.528561) ^ 2) := by
      apply div_lt_div_of_pos_left hK (hD r1)
      nlinarith
    linarith
  · rw [amplitude_model_of_gt h1, amplitude_model_of_gt (by linarith : (0.5 : ℝ) < r2)]
    have : 13427.5 / (5.17716 + (r1 - 0.528561) ^ 2) <
        13427.5 / (5.17716 + (r2 - 0.528561) ^ 2) := by
      apply div_lt_div_of_pos_left hK (hD r2)
      nlinarith
    linarith
  · by_cases hr : r ≤ 0.5
    · simp only [amplitude_model, if_pos hr]
      norm_num
    · rw [amplitude_model_of_gt (not_le.mp hr)]
      have : 13427.5 / (5.17716 + (r - 0.528561) ^ 2) ≤ 13427.5 / 5.17716 := by
        apply div_le_div_of_nonneg_left hK.le (by norm_num)
        nlinarith [sq_nonneg (r - 0.528561)]
      linarith
  · rw [amplitude_model_of_gt (by norm_num)]
    norm_num

/-- Witness of C19: the model at 1 and 2. -/
theorem amplitude_model_monotone_witness :
    (1 : ℝ) < 2 ∧ (0.528561 : ℝ) ≤ 1 ∧ amplitude_model 2 < amplitude_model 1 :=
  ⟨by norm_num, by norm_num, (amplitude_model_monotone 1 2 (by norm_num)).1 (by norm_num)⟩

/-- C19 (counterexample). Just above the clamp the model increases: `0.5 < 0.51 < 0.52`
and `amplitude_model 0.51 < amplitude_model 0.52`; and at `r = 0.528561` it exceeds the
clamp constant 2597.1. -/
theorem amplitude_model_not_decreasing :
    (0.5 : ℝ) < 0.51 ∧ (0.51 : ℝ) < 0.52 ∧ amplitude_model 0.51 < amplitude_model 0.52 ∧
    2597.1 < amplitude_model 0.528561 := by
  refine ⟨by norm_num, by norm_num, ?_, ?_⟩
  · rw [amplitude_model_of_gt (by norm_num), amplitude_model_of_gt (by norm_num)]
    norm_num
  · rw [amplitude_model_of_gt (by norm_num)]
    norm_num

/-- The published range when the three acceptance tests pass. -/
theorem use_rnb_data_of_accept {F : Type} (fl : FloatOps F) (st : State)
    (h : rnbAccepted fl st = true) :
    (use_rnb_data fl st).rnb_updated = 1 ∧
    (use_rnb_data fl st).last_good_rnb.range =
      fl.toUInt16 (fl.mul (fl.lit 10.0) (rnbFlooredRange fl st)) := by
  obtain ⟨hbm, hid, hlg, hup, -⟩ := processBrightMeas_frame st
  simp only [rnbAccepted, rnbInnovation, rnbFlooredRange, rnbRefinedRange, rnbInitialRange,
    rnbAngles, Bool.and_eq_true, Bool.not_eq_true'] at h
  obtain ⟨⟨h1, h2⟩, h3, h4⟩ := h
  unfold use_rnb_data
  simp only [State.emit, hbm, hid, rnbFlooredRange, rnbRefinedRange, rnbInitialRange, rnbAngles]
  simp_all

/-- The trace after `processBrightMeas`: the fault prints, then the light sequence if any
fault was printed. -/
theorem processBrightMeas_trace (st : State) :
    (processBrightMeas st).1.trace =
      st.trace ++
        ((healthLoop (sweep st.brightMeas).allColZeroCheck st.sensorHealthHistory).faults ++
          (if (healthLoop (sweep st.brightMeas).allColZeroCheck
                st.sensorHealthHistory).problem ≠ 0
            then [Event.startup_light_sequence] else [])) := by
  unfold processBrightMeas
  simp only []
  split_ifs
  · simp [State.emit, List.append_assoc]
  · simp

/-- No fault of sensor `s` is printed before iteration `s`, as a count. -/
theorem healthPrefix_count_after (chk hist s : Nat) (m : Nat) (hm1 : s + 1 ≤ m) (hm2 : m ≤ 6) :
    (healthPrefix chk hist m).faults.count (Event.health_fault s) =
      (healthPrefix chk hist (s + 1)).faults.count (Event.health_fault s) := by
  induction m, hm1 using Nat.le_induction with
  | base => rfl
  | succ m hm ih =>
    rw [healthPrefix_succ, (healthStep_faults_mem chk _ m s (by omega) (by omega)).2]
    exact ih (by omega)

/-- How often the fault of a sensor `s` of 0..3 is printed by the health loop: once if column `s`
is all zero and the counter stands at 14, otherwise never. -/
theorem healthLoop_fault_count (chk hist s : Nat) (hs : s ≤ 3)
    (H : ∀ i, i ≤ s → healthCounter hist i ≤ 14) :
    (healthLoop chk hist).faults.count (Event.health_fault s) =
      if chk.testBit s = true ∧ healthCounter hist s = 14 then 1 else 0 := by
  obtain ⟨hb1, hb2⟩ := healthPrefix_before chk hist s (by omega) H s le_rfl hs
  have hcs : healthCounter (healthPrefix chk hist s).hist s = healthCounter hist s :=
    hb1 s le_rfl le_rfl
  rw [healthLoop_six, healthPrefix_count_after chk hist s 6 (by omega) le_rfl,
    healthPrefix_succ, (healthStep_faults chk _ s (by omega)).1, hcs]
  simp only [hs, if_true]
  have h0 : (healthPrefix chk hist s).faults.count (Event.health_fault s) = 0 :=
    List.count_eq_zero.mpr hb2
  split_ifs
  · rw [List.count_append, h0]
    simp
  · exact h0

/-- One cycle on a matrix whose column `s` is all zero, for a sensor `s` of 0..3, when the
counters up to `s` are at most 14: they stay at most 14, counter `s` advances (back to 0 from 14), and the fault
of `s` is printed once if the counter stood at 14 and not at all otherwise. -/
theorem processCycle_zero_column (st : State) (m : BrightMat) (s : Fin 6)
    (hs3 : s.val ≤ 3) (H : ∀ i, i ≤ s.val → healthCounter st.sensorHealthHistory i ≤ 14)
    (hz : ∀ e, m e s = 0) :
    (∀ i, i ≤ s.val → healthCounter (processCycle st m).sensorHealthHistory i ≤ 14) ∧
    healthCounter (processCycle st m).sensorHealthHistory s.val =
      (if healthCounter st.sensorHealthHistory s.val = 14 then 0
        else healthCounter st.sensorHealthHistory s.val + 1) ∧
    ∃ evs, (processCycle st m).trace = st.trace ++ evs ∧
      evs.count (Event.health_fault s.val) =
        if healthCounter st.sensorHealthHistory s.val = 14 then 1 else 0 := by
  have hh : (processCycle st m).sensorHealthHistory =
      (healthLoop (sweep m).allColZeroCheck st.sensorHealthHistory).hist :=
    (processBrightMeas_health { st with brightMeas := m }).1
  have hbit : (sweep m).allColZeroCheck.testBit s.val = true := (sweep_testBit m s).mpr hz
  refine ⟨fun i hi => ?_, ?_, ?_⟩
  · rw [hh, (healthLoop_counter _ _ i (by omega) (fun j hj => H j (by omega))).1]
    have := H i hi
    split_ifs <;> omega
  · rw [hh, (healthLoop_counter _ _ s.val hs3 H).1, if_pos hbit]
  · refine ⟨_, processBrightMeas_trace { st with brightMeas := m }, ?_⟩
    rw [List.count_append]
    have hst : (if (healthLoop (sweep ({ st with brightMeas := m } : State).brightMeas).allColZeroCheck
          ({ st with brightMeas := m } : State).sensorHealthHistory).problem ≠ 0
        then [Event.startup_light_sequence] else []).count (Event.health_fault s.val) = 0 := by
      split_ifs <;> simp
    rw [hst, Nat.add_zero]
    show (healthLoop (sweep m).allColZeroCheck st.sensorHealthHistory).faults.count _ = _
    rw [healthLoop_fault_count _ _ s.val hs3 H]
    simp [hbit]

/-- Several cycles on matrices whose column `s` is all zero, for a sensor `s` of 0..3, as
long as the counter of `s`
does not pass 14: the counter advances by the number of cycles and no fault of `s` is
printed. -/
theorem runCycles_zero_column (s : Fin 6) (hs3 : s.val ≤ 3) (ms : List BrightMat) :
    ∀ (st : State), (∀ m ∈ ms, ∀ e, m e s = 0) →
      (∀ i, i ≤ s.val → healthCounter st.sensorHealthHistory i ≤ 14) →
      healthCounter st.sensorHealthHistory s.val + ms.length ≤ 14 →
      (∀ i, i ≤ s.val → healthCounter (runCycles ms st).sensorHealthHistory i ≤ 14) ∧
      healthCounter (runCycles ms st).sensorHealthHistory s.val =
        healthCounter st.sensorHealthHistory s.val + ms.length ∧
      ∃ evs, (runCycles ms st).trace = st.trace ++ evs ∧
        evs.count (Event.health_fault s.val) = 0 := by
  induction ms with
  | nil =>
    intro st _ H _
    exact ⟨H, by simp [runCycles], [], by simp [runCycles], rfl⟩
  | cons m ms ih =>
    intro st hz H hlen
    simp only [List.length_cons] at hlen
    obtain ⟨c1, c2, evs1, c3, c4⟩ :=
      processCycle_zero_column st m s hs3 H (hz m (List.mem_cons_self _ _))
    have hne : ¬ healthCounter st.sensorHealthHistory s.val = 14 := by omega
    rw [if_neg hne] at c2 c4
    obtain ⟨r1, r2, evs2, r3, r4⟩ :=
      ih (processCycle st m) (fun m1 hm1 => hz m1 (List.mem_cons_of_mem _ hm1)) c1
        (by rw [c2]; omega)
    have hrun : runCycles (m :: ms) st = runCycles ms (processCycle st m) := rfl
    rw [hrun]
    refine ⟨r1, ?_, evs1 ++ evs2, ?_, ?_⟩
    · rw [r2, c2, List.length_cons]; omega
    · rw [r3, c3, List.append_assoc]
    · rw [List.count_append, c4, r4]

/-- Running cycles on a concatenation of matrix lists. -/
theorem runCycles_append (a b : List BrightMat) (st : State) :
    runCycles (a ++ b) st = runCycles b (runCycles a st) := by
  simp [runCycles, List.foldl_append]

/-- Fifteen cycles, for a sensor `s` of 0..3. Start in a state where the health counter of
sensor `s` is 0 and the counters of the lower-numbered sensors are at most 14 (as they
are after `range_algs_init`), and run `processBrightMeas` on 15 consecutive matrices whose
column `s` is all zero. After the first `k` cycles, for every `k ≤ 14`, no fault of `s` has been
printed and the counter of `s` is `k`; the 15th cycle prints the fault of `s`, so that
over the 15 cycles it is printed exactly once, and leaves the counter of `s` at 0. -/
theorem health_fault_on_fifteenth_low (st : State) (s : Fin 6) (hs3 : s.val ≤ 3)
    (ms : List BrightMat) (hlen : ms.length = 15) (hz : ∀ m ∈ ms, ∀ e, m e s = 0)
    (h0 : healthCounter st.sensorHealthHistory s.val = 0)
    (hlow : ∀ i, i < s.val → healthCounter st.sensorHealthHistory i ≤ 14) :
    (∀ k, k ≤ 14 →
      ((runCycles (ms.take k) st).trace.drop st.trace.length).count
          (Event.health_fault s.val) = 0 ∧
        healthCounter (runCycles (ms.take k) st).sensorHealthHistory s.val = k) ∧
    ((runCycles ms st).trace.drop st.trace.length).count (Event.health_fault s.val) = 1 ∧
    healthCounter (runCycles ms st).sensorHealthHistory s.val = 0 := by
  have H : ∀ i, i ≤ s.val → healthCounter st.sensorHealthHistory i ≤ 14 := by
    intro i hi
    rcases Nat.lt_or_eq_of_le hi with h | h
    · exact hlow i h
    · rw [h, h0]; omega
  have first : ∀ k, k ≤ 14 →
      (∀ i, i ≤ s.val →
        healthCounter (runCycles (ms.take k) st).sensorHealthHistory i ≤ 14) ∧
      healthCounter (runCycles (ms.take k) st).sensorHealthHistory s.val = k ∧
      ∃ evs, (runCycles (ms.take k) st).trace = st.trace ++ evs ∧
        evs.count (Event.health_fault s.val) = 0 := by
    intro k hk
    have hl : (ms.take k).length = k := by rw [List.length_take, hlen]; omega
    have := runCycles_zero_column s hs3 (ms.take k) st
      (fun m hm => hz m (List.mem_of_mem_take hm)) H (by rw [h0, hl]; omega)
    rw [h0, hl, Nat.zero_add] at this
    exact this
  refine ⟨fun k hk => ?_, ?_⟩
  · obtain ⟨-, f2, evs, f3, f4⟩ := first k hk
    exact ⟨by rw [f3, List.drop_left, f4], f2⟩
  · obtain ⟨f1, f2, evs, f3, f4⟩ := first 14 le_rfl
    obtain ⟨x, hx⟩ : ∃ x, ms.drop 14 = [x] := by
      have hl : (ms.drop 14).length = 1 := by rw [List.length_drop, hlen]
      match hd : ms.drop 14, hl with
      | [x], _ => exact ⟨x, rfl⟩
    have hsplit : runCycles ms st = processCycle (runCycles (ms.take 14) st) x := by
      conv_lhs => rw [← List.take_append_drop 14 ms, runCycles_append, hx]
      rfl
    have hxz : ∀ e, x e s = 0 :=
      hz x (List.mem_of_mem_drop (by rw [hx]; exact List.mem_singleton_self x))
    obtain ⟨-, c2, evs1, c3, c4⟩ := processCycle_zero_column _ x s hs3 f1 hxz
    rw [f2] at c2 c4
    rw [hsplit]
    refine ⟨?_, by simpa using c2⟩
    rw [c3, f3, List.append_assoc, List.drop_left, List.count_append, f4]
    simpa using c4

set_option maxRecDepth 100000 in
/-- C11 (divergence). Fifteen consecutive all-zero matrices after `range_algs_init`: the
faults of the sensors 0 to 3 are printed, each once, and the fault of sensor 4 (and of
sensor 5) is not printed at all, although column 4 was all zero in all fifteen cycles;
the counter of sensor 4 is 0 before and after. -/
theorem health_fault_missing_for_sensor_four :
    healthCounter (range_algs_init zeroState).sensorHealthHistory 4 = 0 ∧
    (runCycles (List.replicate 15 (fun _ _ => 0 : BrightMat))
        (range_algs_init zeroState)).trace =
      [Event.health_fault 0, Event.health_fault 1, Event.health_fault 2,
        Event.health_fault 3, Event.startup_light_sequence] ∧
    (runCycles (List.replicate 15 (fun _ _ => 0 : BrightMat))
        (range_algs_init zeroState)).trace.count (Event.health_fault 4) = 0 ∧
    healthCounter (runCycles (List.replicate 15 (fun _ _ => 0 : BrightMat))
      (range_algs_init zeroState)).sensorHealthHistory 4 = 0 := by
  decide

/-! ## Theorems: estimator routines over exact reals -/

/-- The two norms computed by the first loop of the innovation, as sums over the cells. -/
theorem innovation_norms (bm : BrightMat) (expBM : Fin 6 → Fin 6 → ℝ) :
    (dirs.foldl (fun acc e => dirs.foldl (normCell bm expBM e) acc)
        { expNorm := 0.0, realNorm := 0.0 }) =
      { expNorm := ∑ e : Fin 6, ∑ s : Fin 6, expBM e s ^ 2
        realNorm := ∑ e : Fin 6, ∑ s : Fin 6, (bm e s : ℝ) ^ 2 } := by
  simp only [dirs, List.foldl, normCell, Fin.sum_univ_six, Int.cast_mul]
  congr 1 <;> norm_num <;> ring

/-- Product of two real float values. -/
theorem FVal.mul_num (a b : ℝ) : FVal.mul (FVal.num a) (FVal.num b) = FVal.num (a * b) := rfl

/-- Difference of two real float values. -/
theorem FVal.sub_num (a b : ℝ) : FVal.sub (FVal.num a) (FVal.num b) = FVal.num (a - b) := by
  simp only [FVal.sub, FVal.neg, FVal.add]
  rfl

/-- Sum of two real float values. -/
theorem FVal.add_num (a b : ℝ) : FVal.add (FVal.num a) (FVal.num b) = FVal.num (a + b) := rfl

/-- Absolute value of a real float value. -/
theorem FVal.fabsf_num (a : ℝ) : FVal.fabsf (FVal.num a) = FVal.num |a| := rfl

/-- One row of the second loop of the innovation when both inverse norms are real. -/
theorem errorRow_num (bm : BrightMat) (expBM : Fin 6 → Fin 6 → ℝ) (rn en x : ℝ) (e : Fin 6) :
    dirs.foldl (errorCell bm expBM (FVal.num rn) (FVal.num en) e) (FVal.num x) =
      FVal.num (x + ∑ s : Fin 6, |(bm e s : ℝ) * rn - expBM e s * en|) := by
  simp only [dirs, List.foldl, errorCell, FVal.mul_num, FVal.sub_num, FVal.fabsf_num,
    FVal.add_num, Fin.sum_univ_six]
  congr 1
  ring

/-- With both norms nonzero every intermediate value of the innovation is a real number,
and the result is the sum of the 36 absolute differences of the normalised cells. -/
theorem innovation_eq_num (bm : BrightMat) (expBM : Fin 6 → Fin 6 → ℝ)
    (hE : (∑ e : Fin 6, ∑ s : Fin 6, expBM e s ^ 2) ≠ 0)
    (hR : (∑ e : Fin 6, ∑ s : Fin 6, (bm e s : ℝ) ^ 2) ≠ 0) :
    innovation bm expBM =
      FVal.num (∑ e : Fin 6, ∑ s : Fin 6,
        |(bm e s : ℝ) * (∑ e : Fin 6, ∑ s : Fin 6, (bm e s : ℝ) ^ 2) ^ (-0.5 : ℝ) -
          expBM e s * (∑ e : Fin 6, ∑ s : Fin 6, expBM e s ^ 2) ^ (-0.5 : ℝ)|) := by
  unfold innovation
  rw [innovation_norms]
  simp only [powf, hE, hR, false_and, if_false]
  generalize (∑ e : Fin 6, ∑ s : Fin 6, (bm e s : ℝ) ^ 2) ^ (-0.5 : ℝ) = rn
  generalize (∑ e : Fin 6, ∑ s : Fin 6, expBM e s ^ 2) ^ (-0.5 : ℝ) = en
  rw [Fin.sum_univ_six]
  simp only [dirs, List.foldl]
  have hrow := errorRow_num bm expBM rn en
  simp only [dirs, List.foldl] at hrow
  rw [hrow, hrow, hrow, hrow, hrow, hrow]
  congr 1
  norm_num

/-- For the all-zero measured matrix the inverse norm is `+inf`, every product is
`0 * inf`, and the innovation is NaN. -/
theorem innovation_zero_matrix :
    innovation (fun _ _ => 0) (fun _ _ => 0) = FVal.nan := by
  unfold innovation
  rw [innovation_norms]
  have h0 : (∑ e : Fin 6, ∑ s : Fin 6, ((0 : ℝ)) ^ 2) = 0 := by simp
  have h1 : (∑ e : Fin 6, ∑ s : Fin 6, (((0 : Int) : ℝ)) ^ 2) = 0 := by simp
  have hneg : (-0.5 : ℝ) < 0 := by norm_num
  simp only [powf, h0, h1, hneg, and_self, if_true]
  simp only [dirs, List.foldl, errorCell]
  simp [FVal.mul, FVal.mulReal, FVal.sub, FVal.neg, FVal.add, FVal.fabsf]

/-- A double sum over the 36 cells as one sum over pairs. -/
theorem sum_cells_eq (f : Fin 6 → Fin 6 → ℝ) :
    (∑ e : Fin 6, ∑ s : Fin 6, f e s) = ∑ p : Fin 6 × Fin 6, f p.1 p.2 :=
  (Fintype.sum_prod_type' f).symm

/-- The squared Frobenius norm of a matrix with a nonzero cell is positive. -/
theorem sum_sq_pos (f : Fin 6 → Fin 6 → ℝ) (hf : ∃ e s, f e s ≠ 0) :
    0 < ∑ e : Fin 6, ∑ s : Fin 6, f e s ^ 2 := by
  obtain ⟨e0, s0, h0⟩ := hf
  have h1 : f e0 s0 ^ 2 ≤ ∑ s : Fin 6, f e0 s ^ 2 :=
    Finset.single_le_sum (f := fun s => f e0 s ^ 2) (fun _ _ => sq_nonneg _)
      (Finset.mem_univ s0)
  have h2 : (∑ s : Fin 6, f e0 s ^ 2) ≤ ∑ e : Fin 6, ∑ s : Fin 6, f e s ^ 2 :=
    Finset.single_le_sum (f := fun e => ∑ s : Fin 6, f e s ^ 2)
      (fun _ _ => Finset.sum_nonneg (fun _ _ => sq_nonneg _)) (Finset.mem_univ e0)
  have h3 : 0 < f e0 s0 ^ 2 := by positivity
  linarith

/-- The power `x ^ (-0.5)` of a positive number is the inverse of its square root. -/
theorem rpow_neg_half (x : ℝ) (hx : 0 < x) : x ^ (-0.5 : ℝ) = (Real.sqrt x)⁻¹ := by
  have : (-0.5 : ℝ) = -(1 / 2) := by norm_num
  rw [this, Real.rpow_neg hx.le, Real.sqrt_eq_rpow]

/-- For a matrix with a nonzero cell, the sum of the absolute values of the cells lies
between one and six times the Frobenius norm. -/
theorem sum_abs_bounds (f : Fin 6 → Fin 6 → ℝ) :
    Real.sqrt (∑ e : Fin 6, ∑ s : Fin 6, f e s ^ 2) ≤ ∑ e : Fin 6, ∑ s : Fin 6, |f e s| ∧
    (∑ e : Fin 6, ∑ s : Fin 6, |f e s|) ≤
      6 * Real.sqrt (∑ e : Fin 6, ∑ s : Fin 6, f e s ^ 2) := by
  have hN : 0 ≤ ∑ e : Fin 6, ∑ s : Fin 6, f e s ^ 2 :=
    Finset.sum_nonneg (fun _ _ => Finset.sum_nonneg (fun _ _ => sq_nonneg _))
  have hS : 0 ≤ ∑ e : Fin 6, ∑ s : Fin 6, |f e s| :=
    Finset.sum_nonneg (fun _ _ => Finset.sum_nonneg (fun _ _ => abs_nonneg _))
  have hsq : ∀ p : Fin 6 × Fin 6, |f p.1 p.2| ^ 2 = f p.1 p.2 ^ 2 := fun p => sq_abs _
  have up : (∑ e : Fin 6, ∑ s : Fin 6, |f e s|) ^ 2 ≤
      36 * ∑ e : Fin 6, ∑ s : Fin 6, f e s ^ 2 := by
    rw [sum_cells_eq (fun e s => |f e s|), sum_cells_eq (fun e s => f e s ^ 2)]
    have := sq_sum_le_card_mul_sum_sq (s := (Finset.univ : Finset (Fin 6 × Fin 6)))
      (f := fun p => |f p.1 p.2|)
    simp only [hsq] at this
    simpa using this
  have low : (∑ e : Fin 6, ∑ s : Fin 6, f e s ^ 2) ≤
      (∑ e : Fin 6, ∑ s : Fin 6, |f e s|) ^ 2 := by
    rw [sum_cells_eq (fun e s => |f e s|), sum_cells_eq (fun e s => f e s ^ 2)]
    have := Finset.sum_sq_le_sq_sum_of_nonneg (s := (Finset.univ : Finset (Fin 6 × Fin 6)))
      (f := fun p => |f p.1 p.2|) (fun _ _ => abs_nonneg _)
    simp only [hsq] at this
    exact this
  have hr := Real.sqrt_nonneg (∑ e : Fin 6, ∑ s : Fin 6, f e s ^ 2)
  have hr2 := Real.sq_sqrt hN
  constructor
  · rw [Real.sqrt_le_iff]
    exact ⟨hS, low⟩
  · by_contra hc
    rw [not_le] at hc
    nlinarith

/-- The innovation between a measured matrix and its negation. -/
theorem innovation_neg_eq (bm : BrightMat) (h : ∃ e s, bm e s ≠ 0) :
    innovation bm (fun e s => -(bm e s : ℝ)) =
      FVal.num (2 * (∑ e : Fin 6, ∑ s : Fin 6, |(bm e s : ℝ)|) /
        Real.sqrt (∑ e : Fin 6, ∑ s : Fin 6, (bm e s : ℝ) ^ 2)) := by
  have hpos : 0 < ∑ e : Fin 6, ∑ s : Fin 6, (bm e s : ℝ) ^ 2 :=
    sum_sq_pos (fun e s => (bm e s : ℝ))
      (by obtain ⟨e, s, hes⟩ := h; exact ⟨e, s, Int.cast_ne_zero.mpr hes⟩)
  have hneg : (∑ e : Fin 6, ∑ s : Fin 6, (-(bm e s : ℝ)) ^ 2) =
      ∑ e : Fin 6, ∑ s : Fin 6, (bm e s : ℝ) ^ 2 := by
    simp only [neg_sq]
  rw [innovation_eq_num bm _ (by rw [hneg]; exact hpos.ne') hpos.ne', hneg,
    rpow_neg_half _ hpos]
  have hs : 0 < Real.sqrt (∑ e : Fin 6, ∑ s : Fin 6, (bm e s : ℝ) ^ 2) :=
    Real.sqrt_pos.mpr hpos
  congr 1
  have cell : ∀ e s : Fin 6,
      |(bm e s : ℝ) * (Real.sqrt (∑ e : Fin 6, ∑ s : Fin 6, (bm e s : ℝ) ^ 2))⁻¹ -
        -(bm e s : ℝ) * (Real.sqrt (∑ e : Fin 6, ∑ s : Fin 6, (bm e s : ℝ) ^ 2))⁻¹| =
      |(bm e s : ℝ)| * (2 * (Real.sqrt (∑ e : Fin 6, ∑ s : Fin 6, (bm e s : ℝ) ^ 2))⁻¹) := by
    intro e s
    have : (bm e s : ℝ) * (Real.sqrt (∑ e : Fin 6, ∑ s : Fin 6, (bm e s : ℝ) ^ 2))⁻¹ -
        -(bm e s : ℝ) * (Real.sqrt (∑ e : Fin 6, ∑ s : Fin 6, (bm e s : ℝ) ^ 2))⁻¹ =
        (bm e s : ℝ) * (2 * (Real.sqrt (∑ e : Fin 6, ∑ s : Fin 6, (bm e s : ℝ) ^ 2))⁻¹) := by
      ring
    rw [this, abs_mul, abs_of_pos (by positivity : (0 : ℝ) <
      2 * (Real.sqrt (∑ e : Fin 6, ∑ s : Fin 6, (bm e s : ℝ) ^ 2))⁻¹)]
  simp only [cell, ← Finset.sum_mul]
  field_simp
  ring

/-- The matrix whose only nonzero cell is `[1][1]`, with value `v`. -/
theorem single_cell_ne_zero :
    ∃ e s : Fin 6, (fun e s => if e = 1 ∧ s = 1 then (7 : Int) else 0 : BrightMat) e s ≠ 0 :=
  ⟨1, 1, by decide⟩

/-- C13. For every measured matrix with at least one nonzero entry, the innovation
between the matrix and itself (the expected matrix holds the same 36 values) is exactly
zero. -/
theorem innovation_self (bm : BrightMat) (h : ∃ e s, bm e s ≠ 0) :
    innovation bm (fun e s => (bm e s : ℝ)) = FVal.num 0 := by
  have hpos : 0 < ∑ e : Fin 6, ∑ s : Fin 6, (bm e s : ℝ) ^ 2 :=
    sum_sq_pos (fun e s => (bm e s : ℝ))
      (by obtain ⟨e, s, hes⟩ := h; exact ⟨e, s, Int.cast_ne_zero.mpr hes⟩)
  rw [innovation_eq_num bm _ hpos.ne' hpos.ne']
  simp

/-- Witness of C13: the matrix whose only nonzero cell is `[1][1] = 7`. -/
theorem innovation_self_witness :
    (∃ e s : Fin 6,
      (fun e s => if e = 1 ∧ s = 1 then (7 : Int) else 0 : BrightMat) e s ≠ 0) ∧
    innovation (fun e s => if e = 1 ∧ s = 1 then (7 : Int) else 0)
      (fun e s => (((fun e s => if e = 1 ∧ s = 1 then (7 : Int) else 0 : BrightMat) e s :
        Int) : ℝ)) = FVal.num 0 :=
  ⟨single_cell_ne_zero, innovation_self _ single_cell_ne_zero⟩

/-- C14 (amended). For every measured matrix `M` with at least one nonzero entry, the
innovation between `M` and `-M` is twice the sum of the absolute values of the entries
divided by the Frobenius norm; this value is at least 2 and at most 12. The innovation
between `M` and any expected matrix with a nonzero entry is a number between 0 and 12. -/
theorem innovation_neg_bounds (bm : BrightMat) (h : ∃ e s, bm e s ≠ 0) :
    innovation bm (fun e s => -(bm e s : ℝ)) =
      FVal.num (2 * (∑ e : Fin 6, ∑ s : Fin 6, |(bm e s : ℝ)|) /
        Real.sqrt (∑ e : Fin 6, ∑ s : Fin 6, (bm e s : ℝ) ^ 2)) ∧
    2 ≤ 2 * (∑ e : Fin 6, ∑ s : Fin 6, |(bm e s : ℝ)|) /
        Real.sqrt (∑ e : Fin 6, ∑ s : Fin 6, (bm e s : ℝ) ^ 2) ∧
    2 * (∑ e : Fin 6, ∑ s : Fin 6, |(bm e s : ℝ)|) /
        Real.sqrt (∑ e : Fin 6, ∑ s : Fin 6, (bm e s : ℝ) ^ 2) ≤ 12 ∧
    (∀ expBM : Fin 6 → Fin 6 → ℝ, (∃ e s, expBM e s ≠ 0) →
      ∃ x, innovation bm expBM = FVal.num x ∧ 0 ≤ x ∧ x ≤ 12) := by
  have hpos : 0 < ∑ e : Fin 6, ∑ s : Fin 6, (bm e s : ℝ) ^ 2 :=
    sum_sq_pos (fun e s => (bm e s : ℝ))
      (by obtain ⟨e, s, hes⟩ := h; exact ⟨e, s, Int.cast_ne_zero.mpr hes⟩)
  have hs : 0 < Real.sqrt (∑ e : Fin 6, ∑ s : Fin 6, (bm e s : ℝ) ^ 2) :=
    Real.sqrt_pos.mpr hpos
  obtain ⟨b1, b2⟩ := sum_abs_bounds (fun e s => (bm e s : ℝ))
  refine ⟨innovation_neg_eq bm h, ?_, ?_, ?_⟩
  · rw [le_div_iff₀ hs]
    linarith
  · rw [div_le_iff₀ hs]
    linarith
  · intro expBM hE
    have hposE : 0 < ∑ e : Fin 6, ∑ s : Fin 6, expBM e s ^ 2 := sum_sq_pos expBM hE
    have hsE : 0 < Real.sqrt (∑ e : Fin 6, ∑ s : Fin 6, expBM e s ^ 2) :=
      Real.sqrt_pos.mpr hposE
    obtain ⟨-, c2⟩ := sum_abs_bounds expBM
    refine ⟨_, innovation_eq_num bm expBM hposE.ne' hpos.ne', ?_, ?_⟩
    · exact Finset.sum_nonneg (fun _ _ => Finset.sum_nonneg (fun _ _ => abs_nonneg _))
    · rw [rpow_neg_half _ hpos, rpow_neg_half _ hposE]
      have cell : ∀ e s : Fin 6,
          |(bm e s : ℝ) * (Real.sqrt (∑ e : Fin 6, ∑ s : Fin 6, (bm e s : ℝ) ^ 2))⁻¹ -
            expBM e s * (Real.sqrt (∑ e : Fin 6, ∑ s : Fin 6, expBM e s ^ 2))⁻¹| ≤
          |(bm e s : ℝ)| * (Real.sqrt (∑ e : Fin 6, ∑ s : Fin 6, (bm e s : ℝ) ^ 2))⁻¹ +
            |expBM e s| * (Real.sqrt (∑ e : Fin 6, ∑ s : Fin 6, expBM e s ^ 2))⁻¹ := by
        intro e s
        have := abs_sub
          ((bm e s : ℝ) * (Real.sqrt (∑ e : Fin 6, ∑ s : Fin 6, (bm e s : ℝ) ^ 2))⁻¹)
          (expBM e s * (Real.sqrt (∑ e : Fin 6, ∑ s : Fin 6, expBM e s ^ 2))⁻¹)
        rw [abs_mul, abs_mul, abs_of_pos (inv_pos.mpr hs), abs_of_pos (inv_pos.mpr hsE)] at this
        exact this
      calc (∑ e : Fin 6, ∑ s : Fin 6,
            |(bm e s : ℝ) * (Real.sqrt (∑ e : Fin 6, ∑ s : Fin 6, (bm e s : ℝ) ^ 2))⁻¹ -
              expBM e s * (Real.sqrt (∑ e : Fin 6, ∑ s : Fin 6, expBM e s ^ 2))⁻¹|)
          ≤ ∑ e : Fin 6, ∑ s : Fin 6,
            (|(bm e s : ℝ)| * (Real.sqrt (∑ e : Fin 6, ∑ s : Fin 6, (bm e s : ℝ) ^ 2))⁻¹ +
              |expBM e s| * (Real.sqrt (∑ e : Fin 6, ∑ s : Fin 6, expBM e s ^ 2))⁻¹) :=
            Finset.sum_le_sum (fun e _ => Finset.sum_le_sum (fun s _ => cell e s))
        _ = (∑ e : Fin 6, ∑ s : Fin 6, |(bm e s : ℝ)|) *
              (Real.sqrt (∑ e : Fin 6, ∑ s : Fin 6, (bm e s : ℝ) ^ 2))⁻¹ +
            (∑ e : Fin 6, ∑ s : Fin 6, |expBM e s|) *
              (Real.sqrt (∑ e : Fin 6, ∑ s : Fin 6, expBM e s ^ 2))⁻¹ := by
            simp only [Finset.sum_add_distrib, Finset.sum_mul]
        _ ≤ 6 + 6 := by
            have t1 : (∑ e : Fin 6, ∑ s : Fin 6, |(bm e s : ℝ)|) *
                (Real.sqrt (∑ e : Fin 6, ∑ s : Fin 6, (bm e s : ℝ) ^ 2))⁻¹ ≤ 6 := by
              rw [← div_eq_mul_inv, div_le_iff₀ hs]
              exact b2
            have t2 : (∑ e : Fin 6, ∑ s : Fin 6, |expBM e s|) *
                (Real.sqrt (∑ e : Fin 6, ∑ s : Fin 6, expBM e s ^ 2))⁻¹ ≤ 6 := by
              rw [← div_eq_mul_inv, div_le_iff₀ hsE]
              exact c2
            linarith
        _ = 12 := by norm_num

/-- Witness of C14: the matrix whose only nonzero cell is `[1][1] = 7`. -/
theorem innovation_neg_bounds_witness :
    (∃ e s : Fin 6,
      (fun e s => if e = 1 ∧ s = 1 then (7 : Int) else 0 : BrightMat) e s ≠ 0) ∧
    (∀ expBM : Fin 6 → Fin 6 → ℝ, (∃ e s, expBM e s ≠ 0) →
      ∃ x, innovation (fun e s => if e = 1 ∧ s = 1 then (7 : Int) else 0) expBM =
        FVal.num x ∧ 0 ≤ x ∧ x ≤ 12) :=
  ⟨single_cell_ne_zero, (innovation_neg_bounds _ single_cell_ne_zero).2.2.2⟩

/-- C14 (counterexample). For the matrix whose 36 entries are all 1, the innovation
between the matrix and its negation is 12, not 2. -/
theorem innovation_neg_all_ones :
    innovation (fun _ _ => 1) (fun e s => -(((fun _ _ => 1 : BrightMat) e s : Int) : ℝ)) =
      FVal.num 12 ∧
    FVal.num 12 ≠ FVal.num 2 := by
  constructor
  · rw [innovation_neg_eq (fun _ _ => 1) ⟨0, 0, by decide⟩]
    congr 1
    have h36 : Real.sqrt 36 = 6 := by
      rw [show (36 : ℝ) = 6 ^ 2 by norm_num, Real.sqrt_sq (by norm_num)]
    simp
    norm_num [h36]
  · intro h
    simp only [FVal.num.injEq] at h
    norm_num at h

/-- Bounds of the ceiling of `3*x/π` for `x` in `(lo*π/3, hi*π/3]`. -/
theorem ceil_three_div_pi_bounds (x : ℝ) (lo hi : ℤ) (h1 : (lo : ℝ) * Real.pi < 3 * x)
    (h2 : 3 * x ≤ (hi : ℝ) * Real.pi) :
    lo + 1 ≤ ⌈(3.0 * x) / Real.pi⌉ ∧ ⌈(3.0 * x) / Real.pi⌉ ≤ hi := by
  have hpi := Real.pi_pos
  have e3 : (3.0 : ℝ) = 3 := by norm_num
  rw [e3]
  constructor
  · rw [Int.add_one_le_iff, Int.lt_ceil, lt_div_iff₀ hpi]
    exact h1
  · rw [Int.ceil_le, div_le_iff₀ hpi]
    exact h2

/-- The ceiling brackets its argument: `(c-1)*π/3 < x ≤ c*π/3` for `c = ⌈3*x/π⌉`. -/
theorem ceil_three_div_pi_sector (x : ℝ) :
    ((⌈(3.0 * x) / Real.pi⌉ : ℝ) - 1) * (Real.pi / 3) < x ∧
    x ≤ (⌈(3.0 * x) / Real.pi⌉ : ℝ) * (Real.pi / 3) := by
  have hpi := Real.pi_pos
  have e3 : (3.0 : ℝ) = 3 := by norm_num
  have h1 := Int.ceil_lt_add_one ((3.0 * x) / Real.pi)
  have h2 := Int.le_ceil ((3.0 * x) / Real.pi)
  rw [e3] at h1 h2 ⊢
  rw [← sub_lt_iff_lt_add, lt_div_iff₀ hpi] at h1
  rw [div_le_iff₀ hpi] at h2
  constructor <;> nlinarith

/-- The table `basis_angle` read at `(6 - c) mod 6` is the centre `c*π/3 - π/6` of the
sector `((c-1)*π/3, c*π/3]`, for `c` from -2 to 3. -/
theorem basis_angle_of_ceil (c : ℤ) (h1 : -2 ≤ c) (h2 : c ≤ 3) :
    basis_angle (Int.tmod (6 - c) 6).toNat = (c : ℝ) * (Real.pi / 3) - Real.pi / 6 := by
  interval_cases c <;> simp [basis_angle, Int.tmod] <;> ring

/-- C12 (amended). In `get_initial_range_guess`, for every bearing in `(-π, π]` the
selected sensor direction is `bestS = (6 - ⌈3*bearing/π⌉) mod 6` (a ceiling with a minus
sign, not a rounding), it lies in `0..5`, the cast to `int8_t` is exact, and the bearing
lies within `π/6` of `basis_angle[bestS]`, more precisely in
`(basis_angle[bestS] - π/6, basis_angle[bestS] + π/6]`; for every bearing and heading
in `(-π, π]` the selected emitter direction is
`bestE = (6 - ⌈3*(bearing - heading - π)/π⌉) mod 6`, in `0..5`, with an exact cast. -/
theorem best_direction_eq (bearing heading : ℝ)
    (hb : -Real.pi < bearing ∧ bearing ≤ Real.pi)
    (hh : -Real.pi < heading ∧ heading ≤ Real.pi) :
    (bestS bearing = (6 - ⌈(3 * bearing) / Real.pi⌉) % 6 ∧
      (0 ≤ bestS bearing ∧ bestS bearing ≤ 5) ∧
      (-128 ≤ ⌈(3 * bearing) / Real.pi⌉ ∧ ⌈(3 * bearing) / Real.pi⌉ ≤ 127) ∧
      (basis_angle (bestS bearing).toNat - Real.pi / 6 < bearing ∧
        bearing ≤ basis_angle (bestS bearing).toNat + Real.pi / 6)) ∧
    (bestE bearing heading = (6 - ⌈(3 * (bearing - heading - Real.pi)) / Real.pi⌉) % 6 ∧
      (0 ≤ bestE bearing heading ∧ bestE bearing heading ≤ 5) ∧
      (-128 ≤ ⌈(3 * (bearing - heading - Real.pi)) / Real.pi⌉ ∧
        ⌈(3 * (bearing - heading - Real.pi)) / Real.pi⌉ ≤ 127)) := by
  have hpi := Real.pi_pos
  have e3 : (3.0 : ℝ) = 3 := by norm_num
  obtain ⟨c1, c2⟩ := ceil_three_div_pi_bounds bearing (-3) 3
    (by push_cast; linarith [hb.1]) (by push_cast; linarith [hb.2])
  obtain ⟨d1, d2⟩ := ceil_three_div_pi_bounds (bearing - heading - Real.pi) (-9) 3
    (by push_cast; linarith [hb.1, hh.2]) (by push_cast; linarith [hb.2, hh.1])
  obtain ⟨s1, s2⟩ := ceil_three_div_pi_sector bearing
  have hba := basis_angle_of_ceil ⌈(3.0 * bearing) / Real.pi⌉ (by omega) (by omega)
  simp only [bestS, bestE]
  rw [e3] at c1 c2 d1 d2 s1 s2 hba ⊢
  refine ⟨⟨?_, ⟨?_, ?_⟩, ⟨by omega, by omega⟩, ?_, ?_⟩, ?_, ⟨?_, ?_⟩, ⟨by omega, by omega⟩⟩
  · rw [Int.tmod_eq_emod (by omega) (by norm_num)]
  · rw [Int.tmod_eq_emod (by omega) (by norm_num)]; omega
  · rw [Int.tmod_eq_emod (by omega) (by norm_num)]; omega
  · rw [hba]; linarith
  · rw [hba]; linarith
  · rw [Int.tmod_eq_emod (by omega) (by norm_num)]
  · rw [Int.tmod_eq_emod (by omega) (by norm_num)]; omega
  · rw [Int.tmod_eq_emod (by omega) (by norm_num)]; omega

/-- Witness of C12: bearing 0 and heading 0. -/
theorem best_direction_eq_witness :
    (-Real.pi < (0 : ℝ) ∧ (0 : ℝ) ≤ Real.pi) ∧
    bestS 0 = (6 - ⌈(3 * (0 : ℝ)) / Real.pi⌉) % 6 ∧
    bestE 0 0 = (6 - ⌈(3 * ((0 : ℝ) - 0 - Real.pi)) / Real.pi⌉) % 6 :=
  have hz : -Real.pi < (0 : ℝ) ∧ (0 : ℝ) ≤ Real.pi :=
    ⟨by linarith [Real.pi_pos], Real.pi_pos.le⟩
  ⟨hz, (best_direction_eq 0 0 hz hz).1.1, (best_direction_eq 0 0 hz hz).2.1⟩

/-- C12 (counterexample). For the bearing `π/4`, which lies in `(-π, π]`, the code selects
sensor 5, whereas `round(3*bearing/π) mod 6` is 1. -/
theorem bestS_not_round :
    (-Real.pi < Real.pi / 4 ∧ Real.pi / 4 ≤ Real.pi) ∧
    bestS (Real.pi / 4) = 5 ∧ round ((3 * (Real.pi / 4)) / Real.pi) % 6 = 1 := by
  have hpi := Real.pi_pos
  have hq : (3.0 * (Real.pi / 4)) / Real.pi = 3 / 4 := by
    field_simp
    ring
  have hq2 : (3 * (Real.pi / 4)) / Real.pi = 3 / 4 := by
    field_simp
    ring
  refine ⟨⟨by linarith, by linarith⟩, ?_, ?_⟩
  · have hc : ⌈(3 / 4 : ℝ)⌉ = 1 := by
      rw [Int.ceil_eq_iff]
      constructor <;> norm_num
    simp only [bestS, hq, hc]
    decide
  · have hr : round (3 / 4 : ℝ) = 1 := by
      rw [round_eq, Int.floor_eq_iff]
      constructor <;> norm_num
    rw [hq2, hr]
    decide

/-- The value of `SQRT3_OVER2` is the cosine of `π/6`. -/
theorem SQRT3_OVER2_eq : SQRT3_OVER2 = Real.cos (Real.pi / 6) := by
  rw [Real.cos_pi_div_six, SQRT3_OVER2]

/-- The entries of `bearingBasis` are the unit vectors at the angles `basis_angle`. -/
theorem bearingBasis_eq (j : Nat) (hj : j < 6) :
    bearingBasis j = (Real.cos (basis_angle j), Real.sin (basis_angle j)) := by
  have e6 : (6.0 : ℝ) = 6 := by norm_num
  have e5 : (5.0 : ℝ) = 5 := by norm_num
  have h56 : (5 * Real.pi) / 6 = Real.pi - Real.pi / 6 := by ring
  interval_cases j <;>
    simp only [bearingBasis, basis_angle, e6, e5, h56, Real.cos_neg, Real.sin_neg,
      Real.cos_pi_sub, Real.sin_pi_sub, Real.cos_pi_div_six, Real.sin_pi_div_six,
      Real.cos_pi_div_two, Real.sin_pi_div_two, SQRT3_OVER2, Prod.mk.injEq] <;>
    constructor <;> norm_num

/-- The entries of `headingBasis` are the unit vectors at the angles `π - k*π/3`. -/
theorem headingBasis_eq (k : Nat) (hk : k < 6) :
    headingBasis k =
      (Real.cos (Real.pi - k * (Real.pi / 3)), Real.sin (Real.pi - k * (Real.pi / 3))) := by
  have a0 : Real.pi - ((0 : Nat) : ℝ) * (Real.pi / 3) = Real.pi := by push_cast; ring
  have a1 : Real.pi - ((1 : Nat) : ℝ) * (Real.pi / 3) = Real.pi - Real.pi / 3 := by
    push_cast; ring
  have a2 : Real.pi - ((2 : Nat) : ℝ) * (Real.pi / 3) = Real.pi / 3 := by push_cast; ring
  have a3 : Real.pi - ((3 : Nat) : ℝ) * (Real.pi / 3) = 0 := by push_cast; ring
  have a4 : Real.pi - ((4 : Nat) : ℝ) * (Real.pi / 3) = -(Real.pi / 3) := by push_cast; ring
  have a5 : Real.pi - ((5 : Nat) : ℝ) * (Real.pi / 3) = -(Real.pi - Real.pi / 3) := by
    push_cast; ring
  interval_cases k <;>
    simp only [headingBasis, a0, a1, a2, a3, a4, a5, Real.cos_neg, Real.sin_neg,
      Real.cos_pi_sub, Real.sin_pi_sub, Real.cos_pi_div_three, Real.sin_pi_div_three,
      Real.cos_pi, Real.sin_pi, Real.cos_zero, Real.sin_zero, SQRT3_OVER2,
      Prod.mk.injEq] <;>
    constructor <;> norm_num

/-- The four sums accumulated by `calculate_bearing_and_heading`. -/
theorem bearing_sums (bm : BrightMat) :
    (dirs.foldl (fun acc e => dirs.foldl (bearingCell bm e) acc)
        { bearingX := 0, bearingY := 0, headingX := 0, headingY := 0 }) =
      { bearingX := ∑ e : Fin 6, ∑ s : Fin 6, (bm e s : ℝ) * (bearingBasis s.val).1
        bearingY := ∑ e : Fin 6, ∑ s : Fin 6, (bm e s : ℝ) * (bearingBasis s.val).2
        headingX := ∑ e : Fin 6, ∑ s : Fin 6,
          (bm e s : ℝ) * (headingBasis ((s.val + (6 - e.val)) % 6)).1
        headingY := ∑ e : Fin 6, ∑ s : Fin 6,
          (bm e s : ℝ) * (headingBasis ((s.val + (6 - e.val)) % 6)).2 } := by
  simp only [dirs, List.foldl, bearingCell, getCosBearingBasis, getSinBearingBasis,
    getCosHeadingBasis, getSinHeadingBasis, Fin.sum_univ_six]
  congr 1 <;> ring

/-- The index `(j+(6-i))%6` used by `getCosHeadingBasis` is `(j - i) mod 6`. -/
theorem heading_index_eq (e s : Fin 6) :
    (s.val + (6 - e.val)) % 6 = (((s.val : Int) - (e.val : Int)) % 6).toNat := by
  fin_cases e <;> fin_cases s <;> rfl

/-- C16. `calculate_bearing_and_heading` returns
`bearing = atan2(Σ m[e][s]·sin θ_s, Σ m[e][s]·cos θ_s)` with `θ_s = basis_angle[s]`, and
`heading = atan2(Σ m[e][s]·sin φ_k, Σ m[e][s]·cos φ_k)` with `k = (s - e) mod 6` and
`φ_k = π - k·π/3`, the sums running over the 36 cells; the weights are the entries of
`bearingBasis[s]` and `headingBasis[k]`, which are the unit vectors at these angles (60°
apart); and the bearing is a function of the six column totals `Σ_e m[e][s]` only. -/
theorem calculate_bearing_and_heading_eq (bm : BrightMat) :
    (calculate_bearing_and_heading bm).1 =
      atan2f (∑ e : Fin 6, ∑ s : Fin 6, (bm e s : ℝ) * Real.sin (basis_angle s.val))
        (∑ e : Fin 6, ∑ s : Fin 6, (bm e s : ℝ) * Real.cos (basis_angle s.val)) ∧
    (calculate_bearing_and_heading bm).2 =
      atan2f
        (∑ e : Fin 6, ∑ s : Fin 6, (bm e s : ℝ) *
          Real.sin (Real.pi -
            (((((s.val : Int) - (e.val : Int)) % 6).toNat : Nat) : ℝ) * (Real.pi / 3)))
        (∑ e : Fin 6, ∑ s : Fin 6, (bm e s : ℝ) *
          Real.cos (Real.pi -
            (((((s.val : Int) - (e.val : Int)) % 6).toNat : Nat) : ℝ) * (Real.pi / 3))) ∧
    (calculate_bearing_and_heading bm).1 =
      atan2f (∑ s : Fin 6, (∑ e : Fin 6, (bm e s : ℝ)) * Real.sin (basis_angle s.val))
        (∑ s : Fin 6, (∑ e : Fin 6, (bm e s : ℝ)) * Real.cos (basis_angle s.val)) ∧
    (∀ e s : Fin 6,
      (getCosBearingBasis e.val s.val, getSinBearingBasis e.val s.val) =
        (Real.cos (basis_angle s.val), Real.sin (basis_angle s.val)) ∧
      (getCosHeadingBasis e.val s.val, getSinHeadingBasis e.val s.val) =
        headingBasis ((((s.val : Int) - (e.val : Int)) % 6).toNat) ∧
      headingBasis ((((s.val : Int) - (e.val : Int)) % 6).toNat) =
        (Real.cos (Real.pi -
            (((((s.val : Int) - (e.val : Int)) % 6).toNat : Nat) : ℝ) * (Real.pi / 3)),
          Real.sin (Real.pi -
            (((((s.val : Int) - (e.val : Int)) % 6).toNat : Nat) : ℝ) * (Real.pi / 3)))) := by
  have hk : ∀ e s : Fin 6, (s.val + (6 - e.val)) % 6 < 6 := fun e s => Nat.mod_lt _ (by norm_num)
  have hB1 : ∀ s : Fin 6, (bearingBasis s.val).1 = Real.cos (basis_angle s.val) := fun s => by
    rw [bearingBasis_eq s.val s.isLt]
  have hB2 : ∀ s : Fin 6, (bearingBasis s.val).2 = Real.sin (basis_angle s.val) := fun s => by
    rw [bearingBasis_eq s.val s.isLt]
  have hH : ∀ e s : Fin 6, headingBasis ((s.val + (6 - e.val)) % 6) =
      (Real.cos (Real.pi -
            (((((s.val : Int) - (e.val : Int)) % 6).toNat : Nat) : ℝ) * (Real.pi / 3)),
        Real.sin (Real.pi -
            (((((s.val : Int) - (e.val : Int)) % 6).toNat : Nat) : ℝ) * (Real.pi / 3))) := by
    intro e s
    rw [headingBasis_eq _ (hk e s), heading_index_eq e s]
  have hb : (calculate_bearing_and_heading bm).1 =
      atan2f (∑ e : Fin 6, ∑ s : Fin 6, (bm e s : ℝ) * Real.sin (basis_angle s.val))
        (∑ e : Fin 6, ∑ s : Fin 6, (bm e s : ℝ) * Real.cos (basis_angle s.val)) := by
    simp only [calculate_bearing_and_heading, bearing_sums, hB1, hB2]
  refine ⟨hb, ?_, ?_, ?_⟩
  · simp only [calculate_bearing_and_heading, bearing_sums, hH]
  · rw [hb]
    congr 1
    · rw [Finset.sum_comm]
      exact Finset.sum_congr rfl (fun s _ => (Finset.sum_mul _ _ _).symm)
    · rw [Finset.sum_comm]
      exact Finset.sum_congr rfl (fun s _ => (Finset.sum_mul _ _ _).symm)
  · intro e s
    refine ⟨?_, ?_, ?_⟩
    · simp only [getCosBearingBasis, getSinBearingBasis, hB1, hB2]
    · simp only [getCosHeadingBasis, getSinHeadingBasis, heading_index_eq e s]
    · rw [← heading_index_eq e s]
      exact headingBasis_eq _ (hk e s)

/-- The angle of a point on the negative imaginary axis. -/
theorem atan2f_neg_zero {y : ℝ} (hy : y < 0) : atan2f y 0 = -(Real.pi / 2) := by
  rw [atan2f, Complex.arg_eq_neg_pi_div_two_iff]
  exact ⟨rfl, hy⟩

/-- The angle of a point on the negative real axis. -/
theorem atan2f_zero_neg {x : ℝ} (hx : x < 0) : atan2f 0 x = Real.pi := by
  rw [atan2f, Complex.arg_eq_pi_iff]
  exact ⟨hx, rfl⟩

/-- The value of `pretty_angle` at `-2π` is 0. -/
theorem pretty_angle_neg_two_pi : pretty_angle (-(2 * Real.pi)) = 0 := by
  have hpi := Real.pi_pos
  have hneg : ¬ (-(2 * Real.pi) ≥ 0) := by rw [ge_iff_le, not_le]; linarith
  have hq : (-(2 * Real.pi) - Real.pi) / (2 * Real.pi) = -(3 / 2) := by
    field_simp
    ring
  have hq0 : ¬ (0 : ℝ) ≤ -(3 / 2) := by norm_num
  have hc : ⌈(-(3 / 2) : ℝ)⌉ = -1 := by
    rw [Int.ceil_eq_iff]
    constructor <;> norm_num
  simp only [pretty_angle, if_neg hneg, fmodf, hq, if_neg hq0, hc]
  push_cast
  ring

/-- A weighted sum over the cells of a matrix whose only nonzero cell is `[1][1]`. -/
theorem single_cell_sum (bm : BrightMat) (v : Int)
    (hbm : ∀ e s, bm e s = if e = 1 ∧ s = 1 then v else 0) (w : Fin 6 → Fin 6 → ℝ) :
    (∑ e : Fin 6, ∑ s : Fin 6, (bm e s : ℝ) * w e s) = (v : ℝ) * w 1 1 := by
  have h1 : ∀ e s : Fin 6, (bm e s : ℝ) * w e s =
      if e = 1 then (if s = 1 then (v : ℝ) * w e s else 0) else 0 := by
    intro e s
    rw [hbm e s]
    by_cases he : e = 1 <;> by_cases hs : s = 1 <;> simp [he, hs]
  simp only [h1, Finset.sum_ite_eq', Finset.mem_univ, if_true, Finset.sum_const_zero]
  rw [Finset.sum_eq_single (1 : Fin 6)]
  · simp
  · intro e _ he
    simp [he]
  · intro h
    exact absurd (Finset.mem_univ _) h

/-- The result of `calculate_bearing_and_heading` for a matrix whose only nonzero cell is
`[1][1]`, with a positive value. -/
theorem single_cell_angles (bm : BrightMat) (v : Int)
    (hbm : ∀ e s, bm e s = if e = 1 ∧ s = 1 then v else 0) (hv : 0 < v) :
    calculate_bearing_and_heading bm = (-(Real.pi / 2), Real.pi) := by
  have hv' : (0 : ℝ) < v := by exact_mod_cast hv
  simp only [calculate_bearing_and_heading, bearing_sums]
  rw [single_cell_sum bm v hbm (fun _ s => (bearingBasis s.val).1),
    single_cell_sum bm v hbm (fun _ s => (bearingBasis s.val).2),
    single_cell_sum bm v hbm (fun e s => (headingBasis ((s.val + (6 - e.val)) % 6)).1),
    single_cell_sum bm v hbm (fun e s => (headingBasis ((s.val + (6 - e.val)) % 6)).2)]
  have e1 : (bearingBasis (1 : Fin 6).val).1 = 0 := rfl
  have e2 : (bearingBasis (1 : Fin 6).val).2 = -1 := rfl
  have e3 : (headingBasis (((1 : Fin 6).val + (6 - (1 : Fin 6).val)) % 6)).1 = -1 := rfl
  have e4 : (headingBasis (((1 : Fin 6).val + (6 - (1 : Fin 6).val)) % 6)).2 = 0 := rfl
  simp only [e1, e2, e3, e4, mul_zero, mul_neg, mul_one]
  rw [atan2f_neg_zero (by linarith), atan2f_zero_neg (by linarith)]

/-- For the bearing `-π/2` the selected sensor is 1. -/
theorem bestS_neg_pi_div_two : bestS (-(Real.pi / 2)) = 1 := by
  have hpi := Real.pi_pos
  have hq : (3.0 * -(Real.pi / 2)) / Real.pi = -(3 / 2) := by
    field_simp
    ring
  have hc : ⌈(-(3 / 2) : ℝ)⌉ = -1 := by
    rw [Int.ceil_eq_iff]
    constructor <;> norm_num
  simp only [bestS, hq, hc]
  decide

/-- For the bearing `-π/2` and the heading `π` the selected emitter is 1. -/
theorem bestE_neg_pi_div_two_pi : bestE (-(Real.pi / 2)) Real.pi = 1 := by
  have hpi := Real.pi_pos
  have hq : (3.0 * (-(Real.pi / 2) - Real.pi - Real.pi)) / Real.pi = -(15 / 2) := by
    field_simp
    ring
  have hc : ⌈(-(15 / 2) : ℝ)⌉ = -7 := by
    rw [Int.ceil_eq_iff]
    constructor <;> norm_num
  simp only [bestE, hq, hc]
  decide

/-- The inverse amplitude model of an intensity of at least `4/0.94` is a real number not
below the near-field floor 0.5. -/
theorem inverse_amplitude_model_pos (lambda : ℝ) (h : 4 / 0.94 ≤ lambda) :
    ∃ rho, 0.5 ≤ rho ∧ inverse_amplitude_model lambda 255 = FVal.num rho := by
  by_cases hsat : lambda ≥ 2597.1
  · exact ⟨0.5, le_rfl, by simp only [inverse_amplitude_model, if_true, if_pos hsat]⟩
  · have hlt : lambda < 2597.1 := not_le.mp hsat
    have h4 : (3.90804 : ℝ) < 4 / 0.94 := by norm_num
    have hd : 0 < lambda - 3.90804 := by linarith
    have harg : ¬ 13427.5 / (lambda - 3.90804) - 5.17716 < 0 := by
      rw [not_lt, sub_nonneg, le_div_iff₀ hd]
      nlinarith
    refine ⟨Real.sqrt (13427.5 / (lambda - 3.90804) - 5.17716) + 0.528561, ?_, ?_⟩
    · have := Real.sqrt_nonneg (13427.5 / (lambda - 3.90804) - 5.17716)
      linarith
    · simp only [inverse_amplitude_model, if_true, if_neg hsat, fdiv, if_neg hd.ne',
        FVal.subReal, FVal.sqrtf, if_neg harg, FVal.addReal]

/-- C17. For every matrix whose only nonzero cell is `[emitter=1][sensor=1]` with value
`v ≥ 4` (so in particular for `4 ≤ v ≤ 32767`) and every positive
`DROPLET_SENSOR_RADIUS`: `calculate_bearing_and_heading` gives bearing `-π/2` and heading
`π`; for these angles `get_initial_range_guess` selects `bestE = 1` and `bestS = 1`, has
`alpha = 0` and `beta = 0`, and with power 255 returns a finite, strictly positive
range. -/
theorem single_cell_initial_guess (bm : BrightMat) (v : Int) (sensorRadius : ℝ)
    (hbm : ∀ e s, bm e s = if e = 1 ∧ s = 1 then v else 0) (hv : 4 ≤ v)
    (hR : 0 < sensorRadius) :
    calculate_bearing_and_heading bm = (-(Real.pi / 2), Real.pi) ∧
    bestE (-(Real.pi / 2)) Real.pi = 1 ∧ bestS (-(Real.pi / 2)) = 1 ∧
    initialAlpha (-(Real.pi / 2)) = 0 ∧ initialBeta (-(Real.pi / 2)) Real.pi = 0 ∧
    ∃ x, 0 < x ∧
      get_initial_range_guess bm sensorRadius (-(Real.pi / 2)) Real.pi 255 = FVal.num x := by
  have hpi := Real.pi_pos
  have hS := bestS_neg_pi_div_two
  have hE := bestE_neg_pi_div_two_pi
  have hA : initialAlpha (-(Real.pi / 2)) = 0 := by
    have : -(Real.pi / 2) - basis_angle (1 : Int).toNat = 0 := by
      simp [basis_angle]
    rw [initialAlpha, hS, this]
    exact pretty_angle_eq_self (by linarith) hpi
  have hB : initialBeta (-(Real.pi / 2)) Real.pi = 0 := by
    have : -(Real.pi / 2) - Real.pi - basis_angle (1 : Int).toNat - Real.pi =
        -(2 * Real.pi) := by
      simp [basis_angle]
      ring
    rw [initialBeta, hE, this]
    exact pretty_angle_neg_two_pi
  refine ⟨single_cell_angles bm v hbm (by omega), hE, hS, hA, hB, ?_⟩
  have hv' : (4 : ℝ) ≤ v := by exact_mod_cast hv
  have hcell : brightCell bm 1 1 = v := by
    simp [brightCell, hbm]
  have hsm : sensor_model 0 = 1 := by
    simp [sensor_model]
    norm_num
  have hem : emitter_model 0 = 0.94 := by
    simp [emitter_model]
    norm_num
  obtain ⟨rho, hrho, hinv⟩ := inverse_amplitude_model_pos ((v : ℝ) / (1 * 0.94))
    (by rw [one_mul]; exact div_le_div_of_nonneg_right hv' (by norm_num))
  have c1 : ¬ ((0 : ℝ) > Real.pi / 2 ∨ (0 : ℝ) < -(Real.pi / 2)) := by
    rw [not_or]
    constructor <;> linarith
  have hexp : (1 : ℝ) * 0.94 > 0 := by norm_num
  simp only [get_initial_range_guess, hA, hB, if_neg c1, hsm, hem, if_pos hexp, hS, hE, hcell,
    hinv, FVal.mulReal, FVal.addReal, FVal.hypotf]
  refine ⟨_, ?_, rfl⟩
  apply Real.sqrt_pos.mpr
  have hX : rho * Real.cos (-(Real.pi / 2)) +
      sensorRadius * ((bearingBasis (1 : Int).toNat).1 - (headingBasis (1 : Int).toNat).1) =
      sensorRadius * 0.5 := by
    rw [Real.cos_neg, Real.cos_pi_div_two]
    simp [bearingBasis, headingBasis]
  rw [hX]
  have : 0 < (sensorRadius * 0.5) ^ 2 := by positivity
  positivity

/-- Witness of C17: the matrix whose only nonzero cell is `[1][1] = 7`, sensor radius 2. -/
theorem single_cell_initial_guess_witness :
    (∀ e s : Fin 6, (fun e s => if e = 1 ∧ s = 1 then (7 : Int) else 0 : BrightMat) e s =
      if e = 1 ∧ s = 1 then (7 : Int) else 0) ∧ (4 : Int) ≤ 7 ∧ (0 : ℝ) < 2 ∧
    calculate_bearing_and_heading (fun e s => if e = 1 ∧ s = 1 then (7 : Int) else 0) =
      (-(Real.pi / 2), Real.pi) ∧
    ∃ x, 0 < x ∧
      get_initial_range_guess (fun e s => if e = 1 ∧ s = 1 then (7 : Int) else 0) 2
        (-(Real.pi / 2)) Real.pi 255 = FVal.num x :=
  ⟨fun _ _ => rfl, by decide, by norm_num,
    (single_cell_initial_guess _ 7 2 (fun _ _ => rfl) (by decide) (by norm_num)).1,
    (single_cell_initial_guess _ 7 2 (fun _ _ => rfl) (by decide) (by norm_num)).2.2.2.2.2⟩

/-! ## Theorems: angle normalisation and amplitude round trip -/

/-- The result of `pretty_angle` differs from its argument by a whole number of turns. -/
theorem pretty_angle_turns (a : ℝ) : ∃ k : ℤ, pretty_angle a = a + k * (2 * Real.pi) := by
  by_cases ha : 0 ≤ a
  · by_cases hq : 0 ≤ (a + Real.pi) / (2 * Real.pi)
    · refine ⟨-⌊(a + Real.pi) / (2 * Real.pi)⌋, ?_⟩
      simp only [pretty_angle, ge_iff_le, if_pos ha, fmodf, if_pos hq]
      push_cast
      ring
    · refine ⟨-⌈(a + Real.pi) / (2 * Real.pi)⌉, ?_⟩
      simp only [pretty_angle, ge_iff_le, if_pos ha, fmodf, if_neg hq]
      push_cast
      ring
  · by_cases hq : 0 ≤ (a - Real.pi) / (2 * Real.pi)
    · refine ⟨-⌊(a - Real.pi) / (2 * Real.pi)⌋, ?_⟩
      simp only [pretty_angle, ge_iff_le, if_neg ha, fmodf, if_pos hq]
      push_cast
      ring
    · refine ⟨-⌈(a - Real.pi) / (2 * Real.pi)⌉, ?_⟩
      simp only [pretty_angle, ge_iff_le, if_neg ha, fmodf, if_neg hq]
      push_cast
      ring

/-- The result of `pretty_angle` lies in `[-π, π]`. -/
theorem pretty_angle_mem_closed (a : ℝ) :
    -Real.pi ≤ pretty_angle a ∧ pretty_angle a ≤ Real.pi := by
  by_cases ha : 0 ≤ a
  · obtain ⟨h1, h2⟩ := pretty_angle_bounds_of_nonneg ha
    exact ⟨h1, h2.le⟩
  · obtain ⟨h1, h2⟩ := pretty_angle_bounds_of_neg (not_le.mp ha)
    exact ⟨h1.le, h2⟩

/-- C29. For every real angle `a`, `pretty_angle a` differs from `a` by an integer
multiple of 2π and lies in the closed interval `[-π, π]`; for `-π < a < π` it is `a`. -/
theorem pretty_angle_normalises (a : ℝ) :
    (∃ k : ℤ, pretty_angle a = a + k * (2 * Real.pi)) ∧
    (-Real.pi ≤ pretty_angle a ∧ pretty_angle a ≤ Real.pi) ∧
    (-Real.pi < a ∧ a < Real.pi → pretty_angle a = a) :=
  ⟨pretty_angle_turns a, pretty_angle_mem_closed a, fun h => pretty_angle_eq_self h.1 h.2⟩

/-- C30. Over exact reals: for every `r ≥ 0.528561` with `amplitude_model r < 2597.1`,
`inverse_amplitude_model (amplitude_model r) 255` is `r`; for every `r` with
`amplitude_model r ≥ 2597.1` the inverse returns the near-field floor 0.5, and every
`r ≤ 0.5` is such an `r`. -/
theorem amplitude_inverse_branches (r : ℝ) :
    (0.528561 ≤ r ∧ amplitude_model r < 2597.1 →
      inverse_amplitude_model (amplitude_model r) 255 = FVal.num r) ∧
    (amplitude_model r ≥ 2597.1 →
      inverse_amplitude_model (amplitude_model r) 255 = FVal.num 0.5) ∧
    (r ≤ 0.5 → amplitude_model r ≥ 2597.1) := by
  refine ⟨fun h => ?_, fun h => ?_, fun h => ?_⟩
  · obtain ⟨h1, h2⟩ := h
    rw [inverse_amplitude_model_of_lt (by linarith) h2, abs_of_nonneg (by linarith)]
    congr 1
    ring
  · simp only [inverse_amplitude_model, if_true, if_pos h]
  · simp only [amplitude_model, if_pos h, ge_iff_le, le_refl]

/-- Both branches of the round trip occur: at `r = 1` the model value is below 2597.1
and the inverse returns 1; at `r = 0.51` it is at least 2597.1. -/
theorem amplitude_inverse_branches_occur :
    amplitude_model 1 < 2597.1 ∧ amplitude_model 0.51 ≥ 2597.1 := by
  refine ⟨?_, amplitude_model_ge_of_lt (by norm_num) (by norm_num)⟩
  rw [amplitude_model_of_gt (by norm_num)]
  norm_num

/-! ## Theorems: health history invariant and confidence penalty -/

/-- One iteration of the health loop keeps the history below `2^b`, for `b = 16` or
`b = 24`, when the counter it handles is at most 14 (needed for the sensors 0..3). -/
theorem healthStep_lt (chk : Nat) (acc : HealthAcc) (i b : Nat) (hi : i < 6)
    (hb : b = 16 ∨ b = 24) (hlt : acc.hist < 2 ^ b)
    (h14 : i ≤ 3 → healthCounter acc.hist i ≤ 14) :
    (healthStep chk acc i).hist < 2 ^ b := by
  rcases Nat.lt_or_ge i 3 with h3 | h3
  · rw [healthStep_hist chk acc i (by omega)]
    have h14 := h14 (by omega)
    simp only [healthCounter_eq] at h14 ⊢
    rcases hb with hb | hb <;> subst hb <;>
      split_ifs with hz hc <;>
      interval_cases i <;>
      simp only [Nat.reducePow, Nat.reduceMul] at * <;> omega
  · rcases Nat.eq_or_lt_of_le h3 with h3 | h3
    · subst h3
      rw [healthStep_hist_three]
      have h14 := h14 le_rfl
      simp only [healthCounter_eq] at h14 ⊢
      rcases hb with hb | hb <;> subst hb <;>
        split_ifs with hz hc <;>
        simp only [Nat.reducePow, Nat.reduceMul] at * <;> omega
    · rw [healthStep_hist_high chk acc i h3 hi]
      rcases hb with hb | hb <;> subst hb <;>
        simp only [Nat.reducePow] at * <;> omega

/-- The health loop keeps the history below `2^b`, for `b = 16` or `b = 24`, when the
counters of the sensors 0..3 start at most at 14. -/
theorem healthPrefix_lt (chk hist b : Nat) (hb : b = 16 ∨ b = 24)
    (H : ∀ i, i ≤ 3 → healthCounter hist i ≤ 14)
    (hlt : hist < 2 ^ b) (m : Nat) (hm : m ≤ 6) : (healthPrefix chk hist m).hist < 2 ^ b := by
  induction m with
  | zero => simpa [healthPrefix] using hlt
  | succ m ih =>
    rw [healthPrefix_succ]
    refine healthStep_lt chk _ m b (by omega) hb (ih (by omega)) (fun hm3 => ?_)
    rw [(healthPrefix_before chk hist 3 (by norm_num) H m hm3 hm3).1 m le_rfl hm3]
    exact H m hm3

/-- A word below `2^16` has the counters of the sensors 4 and 5 at 0. -/
theorem healthCounter_high_of_lt (h s : Nat) (hlt : h < 2 ^ 16) (hs4 : 4 ≤ s) :
    healthCounter h s = 0 := by
  rw [healthCounter_eq]
  have hp : 2 ^ 16 ≤ 2 ^ (4 * s) := Nat.pow_le_pow_right (by norm_num) (by omega)
  rw [Nat.div_eq_of_lt (lt_of_lt_of_le hlt hp)]

/-- From a history below `2^16` with the counters of the sensors 0..3 at most 14, the
health loop prints no fault for the sensors 4 and 5. -/
theorem healthPrefix_no_high_fault (chk hist s : Nat) (hs4 : 4 ≤ s)
    (H : ∀ i, i ≤ 3 → healthCounter hist i ≤ 14) (hlt : hist < 2 ^ 16) (m : Nat)
    (hm : m ≤ 6) : Event.health_fault s ∉ (healthPrefix chk hist m).faults := by
  induction m with
  | zero => simp [healthPrefix]
  | succ m ih =>
    rw [healthPrefix_succ]
    by_cases hms : m = s
    · subst hms
      have h0 := healthCounter_high_of_lt _ m
        (healthPrefix_lt chk hist 16 (Or.inl rfl) H hlt m (by omega)) hs4
      have hcond : ¬ (if m ≤ 3 then chk.testBit m = true ∧
          healthCounter (healthPrefix chk hist m).hist m = 14
        else healthCounter (healthPrefix chk hist m).hist m = 15) := by
        rw [if_neg (by omega), h0]
        norm_num
      rw [(healthStep_faults chk _ m (by omega)).1, if_neg hcond]
      exact ih (by omega)
    · rw [(healthStep_faults_mem chk _ m s (by omega) hms).1]
      exact ih (by omega)

/-- The states that `processBrightMeas` can reach from `range_algs_init`: the history is
below `2^16` and the counters of the sensors 0..3 are at most 14. From such a state the
same holds after the call, the counters of the sensors 4 and 5 are 0 and no fault is
printed for them, whatever the matrix. -/
theorem processBrightMeas_high_sensors (st : State)
    (H : ∀ i, i ≤ 3 → healthCounter st.sensorHealthHistory i ≤ 14)
    (hlt : st.sensorHealthHistory < 2 ^ 16) :
    (∀ i, i ≤ 3 → healthCounter (processBrightMeas st).1.sensorHealthHistory i ≤ 14) ∧
    (processBrightMeas st).1.sensorHealthHistory < 2 ^ 16 ∧
    ∀ s, 4 ≤ s → s < 6 →
      healthCounter (processBrightMeas st).1.sensorHealthHistory s = 0 ∧
      Event.health_fault s ∉ (processBrightMeas st).1.trace.drop st.trace.length := by
  obtain ⟨hh, ht⟩ := processBrightMeas_health st
  have hlt2 : (processBrightMeas st).1.sensorHealthHistory < 2 ^ 16 := by
    rw [hh, healthLoop_six]
    exact healthPrefix_lt _ _ 16 (Or.inl rfl) H hlt 6 le_rfl
  refine ⟨fun i hi => ?_, hlt2, fun s hs4 hs => ⟨healthCounter_high_of_lt _ s hlt2 hs4, ?_⟩⟩
  · rw [hh, (healthLoop_counter _ _ i hi (fun j hj => H j (by omega))).1]
    have := H i hi
    split_ifs <;> omega
  · rw [ht, List.mem_append, not_or]
    refine ⟨?_, ?_⟩
    · rw [healthLoop_six]
      exact healthPrefix_no_high_fault _ _ s hs4 H hlt 6 le_rfl
    · split_ifs <;> simp

/-- Any number of cycles from a state reachable from `range_algs_init`: the counters of
the sensors 4 and 5 are still 0 and no fault has been printed for them. -/
theorem runCycles_high_sensors (ms : List BrightMat) :
    ∀ (st : State), (∀ i, i ≤ 3 → healthCounter st.sensorHealthHistory i ≤ 14) →
      st.sensorHealthHistory < 2 ^ 16 →
      ((∀ i, i ≤ 3 → healthCounter (runCycles ms st).sensorHealthHistory i ≤ 14) ∧
        (runCycles ms st).sensorHealthHistory < 2 ^ 16) ∧
      ∃ evs, (runCycles ms st).trace = st.trace ++ evs ∧
        ∀ s, 4 ≤ s → s < 6 → Event.health_fault s ∉ evs := by
  induction ms with
  | nil =>
    intro st H hlt
    exact ⟨⟨H, hlt⟩, [], by simp [runCycles], fun _ _ _ => List.not_mem_nil _⟩
  | cons m ms ih =>
    intro st H hlt
    obtain ⟨c1, c2, c3⟩ := processBrightMeas_high_sensors { st with brightMeas := m } H hlt
    obtain ⟨r1, evs2, r3, r4⟩ := ih (processCycle st m) c1 c2
    have htr : (processCycle st m).trace =
        st.trace ++ (processCycle st m).trace.drop st.trace.length := by
      have h : (processCycle st m).trace = st.trace ++ _ :=
        processBrightMeas_trace { st with brightMeas := m }
      rw [h, List.drop_left]
    have hrun : runCycles (m :: ms) st = runCycles ms (processCycle st m) := rfl
    rw [hrun]
    refine ⟨r1, (processCycle st m).trace.drop st.trace.length ++ evs2, ?_, fun s hs4 hs => ?_⟩
    · rw [r3, ← List.append_assoc, ← htr]
    · rw [List.mem_append, not_or]
      exact ⟨(c3 s hs4 hs).2, r4 s hs4 hs⟩

/-- The published confidence when the three acceptance tests pass. -/
theorem use_rnb_data_conf_of_accept {F : Type} (fl : FloatOps F) (st : State)
    (h : rnbAccepted fl st = true) :
    (use_rnb_data fl st).last_good_rnb.conf =
      fl.toUInt8
        (if fl.isnan
            (if fl.gt (rnbInnovation fl st) (fl.lit 3.0) = true then
              fl.div (fl.div (fl.sqrtf (fl.ofInt (processBrightMeas st).2))
                (fl.mul (rnbInnovation fl st) (rnbInnovation fl st))) (fl.lit 10.0)
            else fl.div (fl.sqrtf (fl.ofInt (processBrightMeas st).2))
                (fl.mul (rnbInnovation fl st) (rnbInnovation fl st))) = true
          then fl.lit 0.01
          else
            (if fl.gt (rnbInnovation fl st) (fl.lit 3.0) = true then
              fl.div (fl.div (fl.sqrtf (fl.ofInt (processBrightMeas st).2))
                (fl.mul (rnbInnovation fl st) (rnbInnovation fl st))) (fl.lit 10.0)
            else fl.div (fl.sqrtf (fl.ofInt (processBrightMeas st).2))
                (fl.mul (rnbInnovation fl st) (rnbInnovation fl st)))) := by
  obtain ⟨hbm, hid, hlg, hup, -⟩ := processBrightMeas_frame st
  simp only [rnbAccepted, rnbInnovation, rnbFlooredRange, rnbRefinedRange, rnbInitialRange,
    rnbAngles, Bool.and_eq_true, Bool.not_eq_true'] at h
  obtain ⟨⟨h1, h2⟩, h3, h4⟩ := h
  unfold use_rnb_data
  simp only [State.emit, hbm, hid, rnbInnovation, rnbFlooredRange, rnbRefinedRange,
    rnbInitialRange, rnbAngles]
  simp_all
/-- C26. For every float semantics in which `x > 3.0` implies `x > 2.5`: on every path
of `use_rnb_data` that publishes an estimate the rejection test `error > 2.5` has failed,
that is, the innovation is not greater than 2.5, so the test `error > 3.0` fails as well,
the tenfold penalty is not applied, and the published confidence is
`sqrtf(matrixSum)/(error*error)`, replaced by 0.01 if it is a NaN, cast to `uint8_t`. -/
theorem use_rnb_data_no_penalty {F : Type} (fl : FloatOps F) (st : State)
    (hgt : ∀ x, fl.gt x (fl.lit 3.0) = true → fl.gt x (fl.lit 2.5) = true)
    (h : rnbAccepted fl st = true) :
    (use_rnb_data fl st).rnb_updated = 1 ∧
    fl.gt (rnbInnovation fl st) (fl.lit 2.5) = false ∧
    fl.gt (rnbInnovation fl st) (fl.lit 3.0) = false ∧
    (use_rnb_data fl st).last_good_rnb.conf =
      fl.toUInt8
        (if fl.isnan (fl.div (fl.sqrtf (fl.ofInt (processBrightMeas st).2))
            (fl.mul (rnbInnovation fl st) (rnbInnovation fl st))) = true
          then fl.lit 0.01
          else fl.div (fl.sqrtf (fl.ofInt (processBrightMeas st).2))
            (fl.mul (rnbInnovation fl st) (rnbInnovation fl st))) := by
  have h25 : fl.gt (rnbInnovation fl st) (fl.lit 2.5) = false := by
    simp only [rnbAccepted, Bool.and_eq_true, Bool.not_eq_true'] at h
    exact h.2.2
  have h30 : fl.gt (rnbInnovation fl st) (fl.lit 3.0) = false := by
    by_contra hc
    have := hgt _ (by simpa using hc)
    rw [h25] at this
    exact Bool.false_ne_true this
  refine ⟨(use_rnb_data_of_accept fl st h).1, h25, h30, ?_⟩
  rw [use_rnb_data_conf_of_accept fl st h]
  simp only [h30, Bool.false_eq_true, if_false]

/-! ## Theorems: the initial range guess never aborts -/

/-- Adding whole turns to an angle of `(-π, π)` does not change its normal form. -/
theorem pretty_angle_add_turns {y : ℝ} (h1 : -Real.pi < y) (h2 : y < Real.pi) (m : ℤ) :
    pretty_angle (y + m * (2 * Real.pi)) = y := by
  have hpi := Real.pi_pos
  obtain ⟨k, hk⟩ := pretty_angle_turns (y + m * (2 * Real.pi))
  obtain ⟨b1, b2⟩ := pretty_angle_mem_closed (y + m * (2 * Real.pi))
  rw [hk] at b1 b2
  have e : y + (m : ℝ) * (2 * Real.pi) + (k : ℝ) * (2 * Real.pi) =
      y + ((m + k : ℤ) : ℝ) * (2 * Real.pi) := by
    push_cast; ring
  rw [e] at b1 b2
  have hlt : ((m + k : ℤ) : ℝ) < 1 := by
    by_contra hc
    have := not_lt.mp hc
    nlinarith
  have hgt : (-1 : ℝ) < ((m + k : ℤ) : ℝ) := by
    by_contra hc
    have := not_lt.mp hc
    nlinarith
  have hz : m + k = 0 := by
    have a1 : m + k < 1 := by exact_mod_cast hlt
    have a2 : -1 < m + k := by exact_mod_cast hgt
    omega
  rw [hk, e, hz]
  simp

/-- The table `basis_angle` read at `(6 - c) mod 6`, for `c` from -8 to 3: the centre of
the sector `((c-1)*π/3, c*π/3]`, plus one turn when `c ≤ -3`. -/
theorem basis_angle_of_ceil_turn (c : ℤ) (h1 : -8 ≤ c) (h2 : c ≤ 3) :
    basis_angle (Int.tmod (6 - c) 6).toNat =
      (c : ℝ) * (Real.pi / 3) - Real.pi / 6 + (if c ≤ -3 then 2 * Real.pi else 0) := by
  interval_cases c <;> simp [basis_angle, Int.tmod] <;> ring

/-- The sensor model is positive within `π/6` of the boresight. -/
theorem sensor_model_pos_of_abs_le {a : ℝ} (h : |a| ≤ Real.pi / 6) : 0 < sensor_model a := by
  have hpi := Real.pi_lt_d2
  have ha : |a| ≤ 0.525 := by linarith
  have h0 := abs_nonneg a
  have hsq : a ^ 2 ≤ 0.525 ^ 2 := by
    rw [← sq_abs]
    nlinarith
  have h4 : a ^ 4 ≤ 0.525 ^ 4 := by nlinarith [sq_nonneg a]
  simp only [sensor_model, ge_iff_le]
  rw [if_neg (by linarith), if_pos (by linarith)]
  norm_num at h4 ⊢
  linarith

/-- The emitter model is positive within `π/6` of the boresight. -/
theorem emitter_model_pos_of_abs_le {b : ℝ} (h : |b| ≤ Real.pi / 6) :
    0 < emitter_model b := by
  have hpi := Real.pi_lt_d2
  have hb : |b| ≤ 0.525 := by linarith
  have h0 := abs_nonneg b
  have hsq : b ^ 2 ≤ 0.525 ^ 2 := by
    rw [← sq_abs]
    nlinarith
  have h4 : b ^ 4 ≤ 0.525 ^ 4 := by nlinarith [sq_nonneg b]
  simp only [emitter_model, ge_iff_le]
  rw [if_neg (by linarith), if_pos (by linarith)]
  norm_num at h4 ⊢
  nlinarith [sq_nonneg b]

/-- The offset `alpha` of the initial guess, for a bearing in `(-π, π]`. -/
theorem initialAlpha_bounds (bearing : ℝ) (hb : -Real.pi < bearing ∧ bearing ≤ Real.pi) :
    initialAlpha bearing = bearing - basis_angle (bestS bearing).toNat ∧
    -(Real.pi / 6) < initialAlpha bearing ∧ initialAlpha bearing ≤ Real.pi / 6 := by
  have hpi := Real.pi_pos
  obtain ⟨c1, c2⟩ := ceil_three_div_pi_bounds bearing (-3) 3
    (by push_cast; linarith [hb.1]) (by push_cast; linarith [hb.2])
  obtain ⟨s1, s2⟩ := ceil_three_div_pi_sector bearing
  have hba := basis_angle_of_ceil ⌈(3.0 * bearing) / Real.pi⌉ (by omega) (by omega)
  have e : initialAlpha bearing = bearing - basis_angle (bestS bearing).toNat := by
    simp only [initialAlpha, bestS]
    rw [hba]
    exact pretty_angle_eq_self (by linarith) (by linarith)
  have e2 : bearing - basis_angle (bestS bearing).toNat =
      bearing - ((⌈(3.0 * bearing) / Real.pi⌉ : ℝ) * (Real.pi / 3) - Real.pi / 6) := by
    simp only [bestS]
    rw [hba]
  refine ⟨e, ?_, ?_⟩
  · rw [e, e2]
    linarith
  · rw [e, e2]
    linarith

/-- The offset `beta` of the initial guess, for a bearing and a heading in `(-π, π]`. -/
theorem initialBeta_bounds (bearing heading : ℝ)
    (hb : -Real.pi < bearing ∧ bearing ≤ Real.pi)
    (hh : -Real.pi < heading ∧ heading ≤ Real.pi) :
    -(Real.pi / 6) < initialBeta bearing heading ∧
    initialBeta bearing heading ≤ Real.pi / 6 := by
  have hpi := Real.pi_pos
  obtain ⟨d1, d2⟩ := ceil_three_div_pi_bounds (bearing - heading - Real.pi) (-9) 3
    (by push_cast; linarith [hb.1, hh.2]) (by push_cast; linarith [hb.2, hh.1])
  obtain ⟨s1, s2⟩ := ceil_three_div_pi_sector (bearing - heading - Real.pi)
  have hba := basis_angle_of_ceil_turn ⌈(3.0 * (bearing - heading - Real.pi)) / Real.pi⌉
    (by omega) (by omega)
  set c := ⌈(3.0 * (bearing - heading - Real.pi)) / Real.pi⌉ with hc
  have key : initialBeta bearing heading =
      bearing - heading - Real.pi - ((c : ℝ) * (Real.pi / 3) - Real.pi / 6) := by
    simp only [initialBeta, bestE]
    rw [← hc, hba]
    have e : bearing - heading -
        ((c : ℝ) * (Real.pi / 3) - Real.pi / 6 + (if c ≤ -3 then 2 * Real.pi else 0)) - Real.pi =
        (bearing - heading - Real.pi - ((c : ℝ) * (Real.pi / 3) - Real.pi / 6)) +
          ((if c ≤ -3 then -1 else 0 : ℤ) : ℝ) * (2 * Real.pi) := by
      split_ifs <;> push_cast <;> ring
    rw [e]
    exact pretty_angle_add_turns (by linarith) (by linarith) _
  rw [key]
  exact ⟨by linarith, by linarith⟩

/-- C25. For every bearing and heading in `(-π, π]`, `get_initial_range_guess` takes the
basis direction nearest to the bearing: its `alpha` is the bearing minus the selected
basis angle, and `alpha` and `beta` both lie in `(-π/6, π/6]`; hence
`sensor_model(alpha)*emitter_model(beta) > 0`, none of the three abort tests (alpha
outside ±π/2, beta outside ±π/2, expected contribution not positive) succeeds, and the
function returns `hypotf(RX, RY)`. -/
theorem get_initial_range_guess_no_abort (bm : BrightMat) (sensorRadius bearing heading : ℝ)
    (power : Nat) (hb : -Real.pi < bearing ∧ bearing ≤ Real.pi)
    (hh : -Real.pi < heading ∧ heading ≤ Real.pi) :
    initialAlpha bearing = bearing - basis_angle (bestS bearing).toNat ∧
    (-(Real.pi / 6) < initialAlpha bearing ∧ initialAlpha bearing ≤ Real.pi / 6) ∧
    (-(Real.pi / 6) < initialBeta bearing heading ∧
      initialBeta bearing heading ≤ Real.pi / 6) ∧
    sensor_model (initialAlpha bearing) * emitter_model (initialBeta bearing heading) > 0 ∧
    ¬ (initialAlpha bearing > Real.pi / 2 ∨ initialAlpha bearing < -(Real.pi / 2)) ∧
    ¬ (initialBeta bearing heading > Real.pi / 2 ∨
      initialBeta bearing heading < -(Real.pi / 2)) ∧
    get_initial_range_guess bm sensorRadius bearing heading power =
      FVal.hypotf
        (((inverse_amplitude_model
            ((brightCell bm (bestE bearing heading) (bestS bearing) : ℝ) /
              (sensor_model (initialAlpha bearing) *
                emitter_model (initialBeta bearing heading))) power).mulReal
          (Real.cos bearing)).addReal
          (sensorRadius * ((bearingBasis (bestS bearing).toNat).1 -
            (headingBasis (bestE bearing heading).toNat).1)))
        (((inverse_amplitude_model
            ((brightCell bm (bestE bearing heading) (bestS bearing) : ℝ) /
              (sensor_model (initialAlpha bearing) *
                emitter_model (initialBeta bearing heading))) power).mulReal
          (Real.sin bearing)).addReal
          (sensorRadius * ((bearingBasis (bestS bearing).toNat).2 -
            (headingBasis (bestE bearing heading).toNat).2))) := by
  have hpi := Real.pi_pos
  obtain ⟨ea, a1, a2⟩ := initialAlpha_bounds bearing hb
  obtain ⟨b1, b2⟩ := initialBeta_bounds bearing heading hb hh
  have hs := sensor_model_pos_of_abs_le (abs_le.mpr ⟨a1.le, a2⟩)
  have he := emitter_model_pos_of_abs_le (abs_le.mpr ⟨b1.le, b2⟩)
  have hpos : sensor_model (initialAlpha bearing) *
      emitter_model (initialBeta bearing heading) > 0 := mul_pos hs he
  have na : ¬ (initialAlpha bearing > Real.pi / 2 ∨ initialAlpha bearing < -(Real.pi / 2)) := by
    rintro (h | h) <;> linarith
  have nb : ¬ (initialBeta bearing heading > Real.pi / 2 ∨
      initialBeta bearing heading < -(Real.pi / 2)) := by
    rintro (h | h) <;> linarith
  refine ⟨ea, ⟨a1, a2⟩, ⟨b1, b2⟩, hpos, na, nb, ?_⟩
  simp only [get_initial_range_guess, if_neg na, if_neg nb, if_pos hpos]

/-- Witness of C25: bearing 0 and heading 0. -/
theorem get_initial_range_guess_no_abort_witness :
    ((-Real.pi < (0 : ℝ) ∧ (0 : ℝ) ≤ Real.pi)) ∧
    sensor_model (initialAlpha 0) * emitter_model (initialBeta 0 0) > 0 :=
  have hz : -Real.pi < (0 : ℝ) ∧ (0 : ℝ) ≤ Real.pi :=
    ⟨by linarith [Real.pi_pos], Real.pi_pos.le⟩
  ⟨hz, (get_initial_range_guess_no_abort (fun _ _ => 0) 0 0 0 255 hz hz).2.2.2.1⟩

/-! ## Theorems: the forward model -/

/-- The expected brightness in terms of the ray of the cell. -/
theorem full_expected_bright_mat_eq (radius r b h : ℝ) (i j : Fin 6) :
    full_expected_bright_mat radius r b h i j =
      if (expectedRij radius r b h i j).1 * (bearingBasis j.val).1 +
            (expectedRij radius r b h i j).2 * (bearingBasis j.val).2 > 0 ∧
          -(expectedRij radius r b h i j).1 * (radius * Real.cos (basis_angle i.val + h)) -
            (expectedRij radius r b h i j).2 * (radius * Real.sin (basis_angle i.val + h)) > 0
      then
        (((expectedRij radius r b h i j).1 * (bearingBasis j.val).1 +
            (expectedRij radius r b h i j).2 * (bearingBasis j.val).2) *
          (-(expectedRij radius r b h i j).1 * (radius * Real.cos (basis_angle i.val + h)) -
            (expectedRij radius r b h i j).2 * (radius * Real.sin (basis_angle i.val + h))) *
          amplitude_model (Real.sqrt ((expectedRij radius r b h i j).1 *
            (expectedRij radius r b h i j).1 +
            (expectedRij radius r b h i j).2 * (expectedRij radius r b h i j).2))) /
        ((expectedRij radius r b h i j).1 * (expectedRij radius r b h i j).1 +
          (expectedRij radius r b h i j).2 * (expectedRij radius r b h i j).2)
      else 0 := rfl

/-- The cosine of a normalised angle is the cosine of the angle. -/
theorem cos_pretty_angle (a : ℝ) : Real.cos (pretty_angle a) = Real.cos a := by
  obtain ⟨k, hk⟩ := pretty_angle_turns a
  rw [hk, Real.cos_add_int_mul_two_pi]

/-- A vector is its length times the unit vector at its angle. -/
theorem polar_form (x y : ℝ) :
    x = Real.sqrt (x * x + y * y) * Real.cos (atan2f y x) ∧
    y = Real.sqrt (x * x + y * y) * Real.sin (atan2f y x) := by
  have habs : Complex.abs ⟨x, y⟩ = Real.sqrt (x * x + y * y) := by
    rw [Complex.abs_apply, Complex.normSq_mk]
  have h1 := Complex.abs_mul_cos_arg ⟨x, y⟩
  have h2 := Complex.abs_mul_sin_arg ⟨x, y⟩
  rw [habs] at h1 h2
  exact ⟨h1.symm, h2.symm⟩

/-- The length of a vector is positive unless the vector is zero. -/
theorem sqrt_sq_add_sq_pos {x y : ℝ} (h : (x, y) ≠ (0, 0)) : 0 < Real.sqrt (x * x + y * y) := by
  apply Real.sqrt_pos.mpr
  by_contra hc
  have hx : x = 0 := by nlinarith [mul_self_nonneg x, mul_self_nonneg y]
  have hy : y = 0 := by nlinarith [mul_self_nonneg x, mul_self_nonneg y]
  exact h (by rw [hx, hy])
/-- C22 (amended). For every pose `(r, b, h)`, every cell `(i, j)` and a positive
`DROPLET_RADIUS`, the expected brightness computed by `full_expected_bright_mat` is the
cosine law `DROPLET_RADIUS * cos(alpha_ij) * cos(beta_ij) * amplitude_model(|r_ij|)` when
the ray `r_ij` from sensor `j` to emitter `i` is not zero and both cosines are positive,
and 0 otherwise; `alpha_ij` and `beta_ij` are the angular offsets of the ray from the
boresight of the sensor and of the emitter. The functions `sensor_model` and
`emitter_model` are not used. -/
theorem full_expected_bright_mat_cosine (radius r b h : ℝ) (i j : Fin 6) (hR : 0 < radius) :
    full_expected_bright_mat radius r b h i j =
      if expectedRij radius r b h i j ≠ (0, 0) ∧ 0 < Real.cos (rayAlpha radius r b h i j) ∧
          0 < Real.cos (rayBeta radius r b h i j)
      then radius * Real.cos (rayAlpha radius r b h i j) * Real.cos (rayBeta radius r b h i j) *
        amplitude_model (Real.sqrt ((expectedRij radius r b h i j).1 *
          (expectedRij radius r b h i j).1 +
          (expectedRij radius r b h i j).2 * (expectedRij radius r b h i j).2))
      else 0 := by
  rw [full_expected_bright_mat_eq]
  simp only [rayAlpha, rayBeta, cos_pretty_angle]
  generalize hx : (expectedRij radius r b h i j).1 = x
  generalize hy : (expectedRij radius r b h i j).2 = y
  have hxy : expectedRij radius r b h i j = (x, y) := by rw [← hx, ← hy]
  rw [hxy, bearingBasis_eq j.val j.isLt]
  simp only []
  obtain ⟨p1, p2⟩ := polar_form x y
  obtain ⟨q1, q2⟩ := polar_form (-x) (-y)
  have hρ : Real.sqrt (-x * -x + -y * -y) = Real.sqrt (x * x + y * y) := by
    congr 1
    ring
  rw [hρ] at q1 q2
  have hsq : x * x + y * y = Real.sqrt (x * x + y * y) * Real.sqrt (x * x + y * y) :=
    (Real.mul_self_sqrt (add_nonneg (mul_self_nonneg x) (mul_self_nonneg y))).symm
  have hpos : (x, y) ≠ (0, 0) → 0 < Real.sqrt (x * x + y * y) := sqrt_sq_add_sq_pos
  generalize Real.sqrt (x * x + y * y) = ρ at p1 p2 q1 q2 hsq hpos ⊢
  generalize hA : atan2f y x = φ at p1 p2 ⊢
  generalize hB : atan2f (-y) (-x) = φ2 at q1 q2 ⊢
  have hα : x * Real.cos (basis_angle j.val) + y * Real.sin (basis_angle j.val) =
      ρ * Real.cos (φ - basis_angle j.val) := by
    rw [Real.cos_sub]
    linear_combination Real.cos (basis_angle j.val) * p1 + Real.sin (basis_angle j.val) * p2
  have hβ : -x * (radius * Real.cos (basis_angle i.val + h)) -
      y * (radius * Real.sin (basis_angle i.val + h)) =
      radius * ρ * Real.cos (φ2 - basis_angle i.val - h) := by
    have e : φ2 - basis_angle i.val - h = φ2 - (basis_angle i.val + h) := by ring
    rw [e, Real.cos_sub]
    linear_combination (radius * Real.cos (basis_angle i.val + h)) * q1 +
      (radius * Real.sin (basis_angle i.val + h)) * q2
  rw [hα, hβ]
  generalize Real.cos (φ - basis_angle j.val) = A
  generalize Real.cos (φ2 - basis_angle i.val - h) = B
  by_cases h0 : (x, y) = (0, 0)
  · have hx0 : x = 0 := (Prod.mk.inj h0).1
    have hy0 : y = 0 := (Prod.mk.inj h0).2
    have hρ0 : ρ = 0 := by
      rw [hx0, hy0] at hsq
      have : ρ * ρ = 0 := by linarith
      exact mul_self_eq_zero.mp this
    have n1 : ¬ (ρ * A > 0 ∧ radius * ρ * B > 0) := by
      rw [hρ0]
      simp
    rw [if_neg n1, if_neg (fun hh => hh.1 h0)]
  · have hpos := hpos h0
    by_cases hc : 0 < A ∧ 0 < B
    · have c1 : ρ * A > 0 := mul_pos hpos hc.1
      have c2 : radius * ρ * B > 0 := mul_pos (mul_pos hR hpos) hc.2
      rw [if_pos ⟨c1, c2⟩, if_pos ⟨h0, hc⟩, hsq]
      field_simp
      ring
    · have hn : ¬ (ρ * A > 0 ∧ radius * ρ * B > 0) := by
        rintro ⟨c1, c2⟩
        apply hc
        constructor
        · by_contra hA0
          nlinarith [not_lt.mp hA0]
        · by_contra hB0
          have := mul_pos hR hpos
          nlinarith [not_lt.mp hB0]
      rw [if_neg hn, if_neg (fun hh => hc hh.2)]

/-- Witness of C22: radius 1, sender at the origin with heading 0, cell `[0][0]`. -/
theorem full_expected_bright_mat_cosine_witness :
    (0 : ℝ) < 1 ∧
    full_expected_bright_mat 1 0 0 0 0 0 =
      if expectedRij 1 0 0 0 0 0 ≠ (0, 0) ∧ 0 < Real.cos (rayAlpha 1 0 0 0 0 0) ∧
          0 < Real.cos (rayBeta 1 0 0 0 0 0)
      then 1 * Real.cos (rayAlpha 1 0 0 0 0 0) * Real.cos (rayBeta 1 0 0 0 0 0) *
        amplitude_model (Real.sqrt ((expectedRij 1 0 0 0 0 0).1 * (expectedRij 1 0 0 0 0 0).1 +
          (expectedRij 1 0 0 0 0 0).2 * (expectedRij 1 0 0 0 0 0).2))
      else 0 :=
  ⟨one_pos, full_expected_bright_mat_cosine 1 0 0 0 0 0 one_pos⟩
/-- The angle of a point on the positive imaginary axis. -/
theorem atan2f_pos_zero {y : ℝ} (hy : 0 < y) : atan2f y 0 = Real.pi / 2 := by
  rw [atan2f, Complex.arg_eq_pi_div_two_iff]
  exact ⟨rfl, hy⟩

/-- The ray of cell `[1][4]` for a sender centred at `facingCentre`: one unit along the
boresight of sensor 4. -/
theorem facing_rij (R h : ℝ) :
    expectedRij R (Complex.abs (facingCentre R h)) (Complex.arg (facingCentre R h)) h 1 4 =
      (0, 1) := by
  have h1 := Complex.abs_mul_cos_arg (facingCentre R h)
  have h2 := Complex.abs_mul_sin_arg (facingCentre R h)
  have v1 : ((1 : Fin 6) : Nat) = 1 := rfl
  have v4 : ((4 : Fin 6) : Nat) = 4 := rfl
  simp only [expectedRij, h1, h2, v1, v4, scaledBearingBasis, facingCentre, Prod.mk.injEq]
  constructor <;> norm_num

/-- The value of the amplitude model at distance 1 is positive. -/
theorem amplitude_model_one_pos : 0 < amplitude_model 1 := by
  rw [amplitude_model_of_gt (by norm_num)]
  positivity

/-- The brightness that `full_expected_bright_mat` expects in cell `[1][4]` for a sender
centred at `facingCentre`. -/
theorem facing_code (R h : ℝ) :
    full_expected_bright_mat R (Complex.abs (facingCentre R h))
        (Complex.arg (facingCentre R h)) h 1 4 =
      if R * Real.cos h > 0 then R * Real.cos h * amplitude_model 1 else 0 := by
  have v1 : ((1 : Fin 6) : Nat) = 1 := rfl
  have v4 : ((4 : Fin 6) : Nat) = 4 := rfl
  have hs : Real.sin (-(Real.pi / 2) + h) = -Real.cos h := by
    rw [Real.sin_add, Real.sin_neg, Real.cos_neg, Real.sin_pi_div_two, Real.cos_pi_div_two]
    ring
  rw [full_expected_bright_mat_eq, facing_rij]
  simp only [v1, v4, bearingBasis, basis_angle, hs]
  norm_num

/-- The brightness that the product of the three models gives in cell `[1][4]` for a
sender centred at `facingCentre`. -/
theorem facing_spec (R h : ℝ) (h1 : -Real.pi < h) (h2 : h < Real.pi) :
    spec_expected_bright R (Complex.abs (facingCentre R h))
        (Complex.arg (facingCentre R h)) h 1 4 =
      emitter_model (-h) * amplitude_model 1 := by
  have hpi := Real.pi_pos
  have v1 : ((1 : Fin 6) : Nat) = 1 := rfl
  have v4 : ((4 : Fin 6) : Nat) = 4 := rfl
  have ha : pretty_angle (atan2f 1 0 - basis_angle 4) = 0 := by
    rw [atan2f_pos_zero one_pos]
    simp only [basis_angle, sub_self]
    exact pretty_angle_eq_self (by linarith) (by linarith)
  have hb : pretty_angle (atan2f (-1) (-0) - basis_angle 1 - h) = -h := by
    rw [neg_zero, atan2f_neg_zero (by norm_num)]
    have e : -(Real.pi / 2) - basis_angle 1 - h = -h := by
      simp only [basis_angle]
      ring
    rw [e]
    exact pretty_angle_eq_self (by linarith) (by linarith)
  simp only [spec_expected_bright, rayAlpha, rayBeta, facing_rij, v1, v4, ha, hb]
  have hsm : sensor_model 0 = 1 := by
    simp [sensor_model]
    norm_num
  rw [hsm]
  norm_num

/-- The emitter model at an offset of `π/6` is above its boresight value 0.94. -/
theorem emitter_model_pi_div_six : 0.94 < emitter_model (-(Real.pi / 6)) := by
  have hpi := Real.pi_lt_d2
  have hpi3 := Real.pi_gt_three
  have habs : |(-(Real.pi / 6))| = Real.pi / 6 := by
    rw [abs_neg, abs_of_pos (by positivity)]
  simp only [emitter_model, ge_iff_le, habs]
  rw [if_neg (by linarith), if_pos (by linarith)]
  have hx : (Real.pi / 6) ^ 2 < 0.5 := by nlinarith
  have hx0 : 0 < (Real.pi / 6) ^ 2 := by positivity
  have e4 : (-(Real.pi / 6)) ^ 4 = ((Real.pi / 6) ^ 2) ^ 2 := by ring
  have e2 : (-(Real.pi / 6)) ^ 2 = (Real.pi / 6) ^ 2 := by ring
  rw [e4, e2]
  nlinarith

/-- C22 (counterexample). Whatever the value of `DROPLET_RADIUS`, the matrix computed by
`full_expected_bright_mat` is not the product
`sensor_model(alpha)*emitter_model(beta)*amplitude_model(|r_ij|)`: with emitter 1 placed one
unit in front of sensor 4 the two agree for heading 0 only if the radius is 0.94, and then
for heading `π/6` the code gives `0.94*cos(π/6)*amplitude_model(1)`, the product
`emitter_model(-π/6)*amplitude_model(1)`, which is larger. -/
theorem full_expected_bright_mat_not_product :
    ¬ ∃ radius : ℝ, ∀ (r b h : ℝ) (i j : Fin 6),
      full_expected_bright_mat radius r b h i j = spec_expected_bright radius r b h i j := by
  rintro ⟨R, H⟩
  have hpi := Real.pi_pos
  have hamp := amplitude_model_one_pos
  have hA := H (Complex.abs (facingCentre R 0)) (Complex.arg (facingCentre R 0)) 0 1 4
  rw [facing_code, facing_spec R 0 (by linarith) (by linarith)] at hA
  have hem0 : emitter_model (-0) = 0.94 := by
    simp [emitter_model]
    norm_num
  rw [hem0, Real.cos_zero, mul_one] at hA
  have hR : R = 0.94 := by
    by_cases hp : R > 0
    · rw [if_pos hp] at hA
      exact mul_right_cancel₀ hamp.ne' hA
    · rw [if_neg hp] at hA
      nlinarith
  have hB := H (Complex.abs (facingCentre R (Real.pi / 6)))
    (Complex.arg (facingCentre R (Real.pi / 6))) (Real.pi / 6) 1 4
  rw [facing_code, facing_spec R (Real.pi / 6) (by linarith) (by linarith)] at hB
  have hcos : Real.cos (Real.pi / 6) ≤ 1 := Real.cos_le_one _
  have hcos0 : 0 < Real.cos (Real.pi / 6) := by
    rw [Real.cos_pi_div_six]
    positivity
  have hem := emitter_model_pi_div_six
  rw [hR] at hB
  rw [if_pos (by positivity)] at hB
  nlinarith

/-! ## Theorems: range_estimate -/

/-- The two nested loops of the search visit the cells in scan order. -/
theorem brightestCell_eq_maxScan (bm : BrightMat) : brightestCell bm = maxScan bm scanCells :=
  rfl

/-- Invariant of the search for the brightest cell over a list of cells in increasing
scan order: the running maximum bounds every cell seen, it is the reading of the recorded
cell unless nothing was recorded, and the recorded cell comes first among the cells that
hold the running maximum. -/
theorem maxScan_invariant (bm : BrightMat) (l : List (Fin 6 × Fin 6))
    (hs : l.Pairwise (fun a b => scanIndex a < scanIndex b)) :
    (∀ c ∈ l, bm c.1 c.2 ≤ (maxScan bm l).maxBright) ∧
    (((maxScan bm l).maxBright = bm (maxScan bm l).maxE (maxScan bm l).maxS ∧
        ((maxScan bm l).maxE, (maxScan bm l).maxS) ∈ l) ∨
      maxScan bm l = { maxBright := -32768, maxE := 0, maxS := 0 }) ∧
    (∀ c ∈ l, bm c.1 c.2 = (maxScan bm l).maxBright →
      scanIndex ((maxScan bm l).maxE, (maxScan bm l).maxS) ≤ scanIndex c) := by
  induction l using List.reverseRecOn with
  | nil =>
    refine ⟨by simp, Or.inr rfl, by simp⟩
  | append_singleton l c ih =>
    rw [List.pairwise_append] at hs
    obtain ⟨hs1, -, hs3⟩ := hs
    obtain ⟨i1, i2, i3⟩ := ih hs1
    have hstep : maxScan bm (l ++ [c]) = maxStep bm c.1 (maxScan bm l) c.2 := by
      simp [maxScan, List.foldl_append]
    rw [hstep]
    by_cases hgt : bm c.1 c.2 > (maxScan bm l).maxBright
    · simp only [maxStep, if_pos hgt]
      refine ⟨?_, Or.inl (by simp), ?_⟩
      · intro c1 hc1
        rcases List.mem_append.mp hc1 with h | h
        · exact le_of_lt (lt_of_le_of_lt (i1 c1 h) hgt)
        · rw [List.mem_singleton.mp h]
      · intro c1 hc1 heq
        rcases List.mem_append.mp hc1 with h | h
        · have := i1 c1 h
          omega
        · rw [List.mem_singleton.mp h]
    · simp only [maxStep, if_neg hgt]
      refine ⟨?_, ?_, ?_⟩
      · intro c1 hc1
        rcases List.mem_append.mp hc1 with h | h
        · exact i1 c1 h
        · rw [List.mem_singleton.mp h]
          exact not_lt.mp hgt
      · rcases i2 with ⟨h1, h2⟩ | h
        · exact Or.inl ⟨h1, List.mem_append.mpr (Or.inl h2)⟩
        · exact Or.inr h
      · intro c1 hc1 heq
        rcases List.mem_append.mp hc1 with h | h
        · exact i3 c1 h heq
        · rw [List.mem_singleton.mp h]
          rcases i2 with ⟨-, h2⟩ | h0
          · exact le_of_lt (hs3 _ h2 c (List.mem_singleton.mpr rfl))
          · rw [h0]
            simp [scanIndex]

/-- The scan visits every cell, in increasing order of `6*e + s`. -/
theorem scanCells_spec :
    (∀ c : Fin 6 × Fin 6, c ∈ scanCells) ∧
    scanCells.Pairwise (fun a b => scanIndex a < scanIndex b) := by
  constructor <;> decide

/-- The brightest cell found by `range_estimate` in a matrix with at least one reading
above −32768, or in any matrix of `int16_t` readings. -/
theorem brightestCell_spec (bm : BrightMat)
    (h : bm.isInt16 ∨ ∃ e s, -32768 < bm e s) :
    (brightestCell bm).maxBright = bm (brightestCell bm).maxE (brightestCell bm).maxS ∧
    (∀ e s, bm e s ≤ bm (brightestCell bm).maxE (brightestCell bm).maxS) ∧
    (∀ e s, bm e s = bm (brightestCell bm).maxE (brightestCell bm).maxS →
      6 * (brightestCell bm).maxE.val + (brightestCell bm).maxS.val ≤ 6 * e.val + s.val) := by
  obtain ⟨hmem, hpw⟩ := scanCells_spec
  obtain ⟨i1, i2, i3⟩ := maxScan_invariant bm scanCells hpw
  rw [← brightestCell_eq_maxScan] at i1 i2 i3
  have hmax : (brightestCell bm).maxBright =
      bm (brightestCell bm).maxE (brightestCell bm).maxS := by
    rcases i2 with ⟨h1, -⟩ | h0
    · exact h1
    · rw [h0] at i1 ⊢
      simp only at i1 ⊢
      rcases h with h16 | ⟨e, s, hes⟩
      · have := (h16 0 0).1
        have := i1 (0, 0) (hmem _)
        simp only at this
        omega
      · have := i1 (e, s) (hmem _)
        simp only at this
        omega
  refine ⟨hmax, fun e s => ?_, fun e s heq => ?_⟩
  · rw [← hmax]
    exact i1 (e, s) (hmem _)
  · have := i3 (e, s) (hmem _) (by rw [hmax]; exact heq)
    simpa [scanIndex] using this

/-- C24. In `range_estimate`, for a matrix of `int16_t` readings, the cell
`(maxE, maxS)` holds the maximum entry of the whole matrix and is the first cell in
emitter-major scan order among those that hold it; the nine cells that are averaged are
the cells `((maxE + de) mod 6, (maxS + ds) mod 6)` for `de, ds` in `{-1, 0, 1}` (the loop
offsets 0, 1, 2 minus one), and every index lies in `0..5`. -/
theorem range_estimate_neighbourhood (bm : BrightMat) (h16 : bm.isInt16) :
    (∀ e s, bm e s ≤ bm (brightestCell bm).maxE (brightestCell bm).maxS) ∧
    (∀ e s, bm e s = bm (brightestCell bm).maxE (brightestCell bm).maxS →
      6 * (brightestCell bm).maxE.val + (brightestCell bm).maxS.val ≤ 6 * e.val + s.val) ∧
    (∀ e s : Fin 3, brightMatSubset bm e s =
        bm (otherIndex (brightestCell bm).maxE e) (otherIndex (brightestCell bm).maxS s) ∧
      ∀ (R i b h : ℝ) (p : Nat), rangeMatSubset bm R i b h p e s =
        rangeCell bm R i b h p (otherIndex (brightestCell bm).maxE e)
          (otherIndex (brightestCell bm).maxS s)) ∧
    (∀ (m : Fin 6) (d : Fin 3),
      ((otherIndex m d).val : Int) = ((m.val : Int) + ((d.val : Int) - 1)) % 6 ∧
      (otherIndex m d).val < 6) := by
  obtain ⟨-, h2, h3⟩ := brightestCell_spec bm (Or.inl h16)
  refine ⟨h2, h3, fun e s => ⟨rfl, fun _ _ _ _ _ => rfl⟩, ?_⟩
  decide

/-- Witness of C24: in the all-zero matrix the brightest cell is `[0][0]`. -/
theorem range_estimate_neighbourhood_witness :
    BrightMat.isInt16 (fun _ _ => 0) ∧
    (∀ e s : Fin 6, (fun _ _ => 0 : BrightMat) e s ≤
      (fun _ _ => 0 : BrightMat) (brightestCell (fun _ _ => 0)).maxE
        (brightestCell (fun _ _ => 0)).maxS) :=
  have h16 : BrightMat.isInt16 (fun _ _ => 0) := fun _ _ => ⟨by norm_num, by norm_num⟩
  ⟨h16, (range_estimate_neighbourhood (fun _ _ => 0) h16).1⟩

/-- The squared Frobenius norm of the neighbourhood as a sum. -/
theorem froebNormSquared_eq (bm : BrightMat) :
    froebNormSquared bm = ∑ e : Fin 3, ∑ s : Fin 3, (brightMatSubset bm e s : ℝ) ^ 2 := by
  simp only [froebNormSquared, subDirs, List.foldl, Fin.sum_univ_three]
  ring

/-- The weight of a cell when the norm of the neighbourhood is not zero. -/
theorem froebWeight_num (bm : BrightMat) (hN : froebNormSquared bm ≠ 0) (e s : Fin 3) :
    froebWeight bm e s =
      FVal.num (((brightMatSubset bm e s : ℝ) / Real.sqrt (froebNormSquared bm)) ^ 2) := by
  have hN0 : 0 ≤ froebNormSquared bm := by
    rw [froebNormSquared_eq]
    positivity
  have hs : Real.sqrt (froebNormSquared bm) ≠ 0 := by
    rw [Ne, Real.sqrt_eq_zero hN0]
    exact hN
  simp only [froebWeight, fdiv, if_neg hs, FVal.powf2]

/-- The value of `range_estimate` when the nine per-cell ranges are numbers and the norm
of the neighbourhood is not zero. -/
theorem range_estimate_num (bm : BrightMat) (R i b h : ℝ) (p : Nat) (ρ : Fin 3 → Fin 3 → ℝ)
    (hρ : ∀ e s, rangeMatSubset bm R i b h p e s = FVal.num (ρ e s))
    (hN : froebNormSquared bm ≠ 0) :
    range_estimate bm R i b h p =
      FVal.num (∑ e : Fin 3, ∑ s : Fin 3,
        ρ e s * ((brightMatSubset bm e s : ℝ) / Real.sqrt (froebNormSquared bm)) ^ 2) := by
  simp only [range_estimate, subDirs, List.foldl, hρ, froebWeight_num bm hN, FVal.mul_num,
    FVal.add_num, Fin.sum_univ_three]
  congr 1
  ring
/-- The vector `(calcRx, calcRy)` of cell `[1][4]` for a sender straight ahead of
sensor 4 at distance `3*R`, heading 0: emitter 1 faces sensor 4, both offsets are 0. -/
theorem calcR_facing (bm : BrightMat) (R : ℝ) (hR : 0 < R) :
    calcR bm R (3 * R) (Real.pi / 2) 0 255 1 4 =
      ((((inverse_amplitude_model ((bm 1 4 : ℝ) / 0.94) 255).mulReal 1).addReal 0).subReal 0,
        (((inverse_amplitude_model ((bm 1 4 : ℝ) / 0.94) 255).mulReal 0).addReal R).subReal
          (-R)) := by
  have hpi := Real.pi_pos
  have v1 : ((1 : Fin 6) : Nat) = 1 := rfl
  have v4 : ((4 : Fin 6) : Nat) = 4 := rfl
  have hcb : getCosBearingBasis 0 4 = 0 := by simp [getCosBearingBasis, bearingBasis]
  have hsb : getSinBearingBasis 0 4 = 1 := by simp [getSinBearingBasis, bearingBasis]
  have hc1 : Real.cos (basis_angle 1 + 0) = 0 := by
    simp [basis_angle]
  have hs1 : Real.sin (basis_angle 1 + 0) = -1 := by
    simp [basis_angle]
  have e1 : R * -1 + 3 * R * 1 - R * 1 = R := by ring
  have e2 : R * 0 + 3 * R * 0 - R * 0 = 0 := by ring
  have e3 : R * 1 - (R * -1 + 3 * R * 1) = -R := by ring
  have e4 : R * 0 - (R * 0 + 3 * R * 0) = 0 := by ring
  have hα : pretty_angle (atan2f R 0 - basis_angle 4) = 0 := by
    rw [atan2f_pos_zero hR]
    simp only [basis_angle, sub_self]
    exact pretty_angle_eq_self (by linarith) (by linarith)
  have hβ : pretty_angle (atan2f (-R) 0 - basis_angle 1 - 0) = 0 := by
    rw [atan2f_neg_zero (by linarith)]
    have e : -(Real.pi / 2) - basis_angle 1 - 0 = 0 := by
      simp only [basis_angle]
      ring
    rw [e]
    exact pretty_angle_eq_self (by linarith) (by linarith)
  have hsm : sensor_model 0 = 1 := by
    simp [sensor_model]
    norm_num
  have hem : emitter_model 0 = 0.94 := by
    simp [emitter_model]
    norm_num
  simp only [calcR, v1, v4, hcb, hsb, hc1, hs1, Real.cos_pi_div_two, Real.sin_pi_div_two,
    e1, e2, e3, e4, hα, hβ, hsm, hem, Real.cos_zero, Real.sin_zero, one_mul]
  rw [if_pos (by norm_num)]
  simp only [mul_zero, mul_one, mul_neg]
/-- The angle of the point at distance `ρ > 0` in the direction `θ` of `(-π, π]`. -/
theorem atan2f_polar (ρ θ : ℝ) (hρ : 0 < ρ) (h1 : -Real.pi < θ) (h2 : θ ≤ Real.pi) :
    atan2f (ρ * Real.sin θ) (ρ * Real.cos θ) = θ := by
  have e : (⟨ρ * Real.cos θ, ρ * Real.sin θ⟩ : ℂ) =
      (ρ : ℂ) * (Complex.cos θ + Complex.sin θ * Complex.I) := by
    apply Complex.ext
    · simp [← Complex.ofReal_cos, ← Complex.ofReal_sin]
    · simp [← Complex.ofReal_cos, ← Complex.ofReal_sin]
  rw [atan2f, e]
  exact Complex.arg_mul_cos_add_sin_mul_I hρ ⟨h1, h2⟩

/-- The vector `(calcRx, calcRy)` of cell `[0][4]` for a sender straight ahead of
sensor 4 at distance `3*R`, heading 0: sensor 4 lies at `-π/2` from the boresight of
emitter 0, so the expected contribution is 0 and `calcRIJmag` is 0. -/
theorem calcR_side (bm : BrightMat) (R : ℝ) (hR : 0 < R) :
    calcR bm R (3 * R) (Real.pi / 2) 0 255 0 4 =
      (FVal.num (-(R * (Real.sqrt 3 / 2))), FVal.num (R * (3 / 2))) := by
  have hpi := Real.pi_pos
  have hpi3 := Real.pi_gt_three
  have v0 : ((0 : Fin 6) : Nat) = 0 := rfl
  have v4 : ((4 : Fin 6) : Nat) = 4 := rfl
  have hcb : getCosBearingBasis 0 4 = 0 := by simp [getCosBearingBasis, bearingBasis]
  have hsb : getSinBearingBasis 0 4 = 1 := by simp [getSinBearingBasis, bearingBasis]
  have e6 : (6.0 : ℝ) = 6 := by norm_num
  have hc0 : Real.cos (basis_angle 0 + 0) = Real.sqrt 3 / 2 := by
    simp only [basis_angle, add_zero, Real.cos_neg, e6, Real.cos_pi_div_six]
  have hs0 : Real.sin (basis_angle 0 + 0) = -(1 / 2) := by
    simp only [basis_angle, add_zero, Real.sin_neg, e6, Real.sin_pi_div_six]
  have h3 : Real.sqrt 3 * Real.sqrt 3 = 3 := Real.mul_self_sqrt (by norm_num)
  have hsin : Real.sin (-(2 * Real.pi / 3)) = -(Real.sqrt 3 / 2) := by
    have e : 2 * Real.pi / 3 = Real.pi - Real.pi / 3 := by ring
    rw [Real.sin_neg, e, Real.sin_pi_sub, Real.sin_pi_div_three]
  have hcos : Real.cos (-(2 * Real.pi / 3)) = -(1 / 2) := by
    have e : 2 * Real.pi / 3 = Real.pi - Real.pi / 3 := by ring
    rw [Real.cos_neg, e, Real.cos_pi_sub, Real.cos_pi_div_three]
  have hat : atan2f (R * 1 - (R * -(1 / 2) + 3 * R * 1)) (R * 0 - (R * (Real.sqrt 3 / 2) + 3 * R * 0)) =
      -(2 * Real.pi / 3) := by
    have := atan2f_polar (R * Real.sqrt 3) (-(2 * Real.pi / 3)) (by positivity)
      (by linarith) (by linarith)
    rw [hsin, hcos] at this
    have a1 : R * 1 - (R * -(1 / 2) + 3 * R * 1) = R * Real.sqrt 3 * -(Real.sqrt 3 / 2) := by
      linear_combination (R / 2) * h3
    have a2 : R * 0 - (R * (Real.sqrt 3 / 2) + 3 * R * 0) = R * Real.sqrt 3 * -(1 / 2) := by
      ring
    rw [a1, a2]
    exact this
  have hβ : pretty_angle (-(2 * Real.pi / 3) - basis_angle 0 - 0) = -(Real.pi / 2) := by
    have e : -(2 * Real.pi / 3) - basis_angle 0 - 0 = -(Real.pi / 2) := by
      simp only [basis_angle, e6]
      ring
    rw [e]
    exact pretty_angle_eq_self (by linarith) (by linarith)
  have hem : emitter_model (-(Real.pi / 2)) = 0 := by
    have habs : |(-(Real.pi / 2))| = Real.pi / 2 := by
      rw [abs_neg, abs_of_pos (by positivity)]
    simp only [emitter_model, habs]
    rw [if_pos (by norm_num; linarith)]
    norm_num
  simp only [calcR, v0, v4, hcb, hsb, hc0, hs0, Real.cos_pi_div_two, Real.sin_pi_div_two]
  simp only [hat, hβ, hem]
  simp only [mul_zero, gt_iff_lt, lt_self_iff_false, if_false, FVal.mulReal,
    FVal.addReal, FVal.subReal, zero_mul]
  congr 1 <;> congr 1 <;> ring
/-- The value of the spec-side vector average when the nine per-cell vectors are numbers
and the norm of the neighbourhood is not zero. -/
theorem spec_range_estimate_num (bm : BrightMat) (R i b h : ℝ) (p : Nat)
    (vx vy : Fin 3 → Fin 3 → ℝ)
    (hv : ∀ e s, rangeVector bm R i b h p (otherIndex (brightestCell bm).maxE e)
      (otherIndex (brightestCell bm).maxS s) = (FVal.num (vx e s), FVal.num (vy e s)))
    (hN : froebNormSquared bm ≠ 0) :
    spec_range_estimate bm R i b h p =
      FVal.num (Real.sqrt
        ((∑ e : Fin 3, ∑ s : Fin 3,
          vx e s * ((brightMatSubset bm e s : ℝ) / Real.sqrt (froebNormSquared bm)) ^ 2) ^ 2 +
        (∑ e : Fin 3, ∑ s : Fin 3,
          vy e s * ((brightMatSubset bm e s : ℝ) / Real.sqrt (froebNormSquared bm)) ^ 2) ^ 2)) := by
  simp only [spec_range_estimate, subDirs, List.foldl, hv, froebWeight_num bm hN, FVal.mul_num,
    FVal.add_num, Fin.sum_univ_three, FVal.hypotf]
  congr 2
  ring

set_option maxRecDepth 100000 in
/-- The brightest cell of `twoCells 2442` is `[0][4]`. -/
theorem brightestCell_twoCells :
    brightestCell (twoCells 2442) = { maxBright := 2442, maxE := 0, maxS := 4 } := by
  rfl

set_option maxRecDepth 100000 in
/-- The brightest cell of `oneCell v` for a positive reading `v` is `[1][4]`. -/
theorem brightestCell_oneCell_one :
    brightestCell (oneCell 1) = { maxBright := 1, maxE := 1, maxS := 4 } := by
  rfl

set_option maxRecDepth 100000 in
/-- The brightest cell of `oneCell 2442` is `[1][4]`. -/
theorem brightestCell_oneCell_big :
    brightestCell (oneCell 2442) = { maxBright := 2442, maxE := 1, maxS := 4 } := by
  rfl
/-- A cell without a positive reading has range 0. -/
theorem rangeCell_of_nonpos (bm : BrightMat) (R i b h : ℝ) (p : Nat) (e s : Fin 6)
    (hle : bm e s ≤ 0) : rangeCell bm R i b h p e s = FVal.num 0 := by
  rw [rangeCell, if_neg (not_lt.mpr hle)]

/-- The inverse amplitude model saturates at the reading 2442 seen head-on. -/
theorem inverse_amplitude_model_saturated :
    inverse_amplitude_model (((2442 : Int) : ℝ) / 0.94) 255 = FVal.num 0.5 := by
  have h : ((2442 : Int) : ℝ) / 0.94 ≥ 2597.1 := by norm_num
  simp only [inverse_amplitude_model, if_true, if_pos h]

/-- The inverse amplitude model has no value at the reading 1 seen head-on. -/
theorem inverse_amplitude_model_dim :
    inverse_amplitude_model (((1 : Int) : ℝ) / 0.94) 255 = FVal.nan := by
  have h : ¬ ((1 : Int) : ℝ) / 0.94 ≥ 2597.1 := by norm_num
  have h0 : ((1 : Int) : ℝ) / 0.94 - 3.90804 ≠ 0 := by norm_num
  have hneg : (13427.5 : ℝ) / (((1 : Int) : ℝ) / 0.94 - 3.90804) - 5.17716 < 0 := by norm_num
  simp only [inverse_amplitude_model, if_true, if_neg h, fdiv, if_neg h0, FVal.subReal,
    FVal.sqrtf, if_pos hneg, FVal.addReal]

/-- The range of the facing cell `[1][4]` for the reading 2442. -/
theorem rangeCell_facing_big (bm : BrightMat) (R : ℝ) (hR : 0 < R) (hb : bm 1 4 = 2442) :
    rangeCell bm R (3 * R) (Real.pi / 2) 0 255 1 4 =
      FVal.num (Real.sqrt ((0.5 : ℝ) ^ 2 + (2 * R) ^ 2)) := by
  rw [rangeCell, if_pos (by rw [hb]; norm_num), calcR_facing bm R hR, hb,
    inverse_amplitude_model_saturated]
  simp only [FVal.mulReal, FVal.addReal, FVal.subReal, FVal.hypotf]
  congr 3 <;> ring

/-- The range of the facing cell `[1][4]` for the reading 1 is a NaN. -/
theorem rangeCell_facing_dim (bm : BrightMat) (R : ℝ) (hR : 0 < R) (hb : bm 1 4 = 1) :
    rangeCell bm R (3 * R) (Real.pi / 2) 0 255 1 4 = FVal.nan := by
  rw [rangeCell, if_pos (by rw [hb]; norm_num), calcR_facing bm R hR, hb,
    inverse_amplitude_model_dim]
  simp only [FVal.mulReal, FVal.addReal, FVal.subReal, FVal.hypotf]

/-- The range of the side cell `[0][4]` for a positive reading. -/
theorem rangeCell_side (bm : BrightMat) (R : ℝ) (hR : 0 < R) (hb : 0 < bm 0 4) :
    rangeCell bm R (3 * R) (Real.pi / 2) 0 255 0 4 =
      FVal.num (Real.sqrt ((R * (Real.sqrt 3 / 2)) ^ 2 + (R * (3 / 2)) ^ 2)) := by
  rw [rangeCell, if_pos hb, calcR_side bm R hR]
  simp only [FVal.hypotf]
  congr 3
  ring

set_option maxRecDepth 100000 in
/-- The nine per-cell ranges of the neighbourhood for `twoCells 2442`. -/
theorem rangeMatSubset_twoCells (R : ℝ) (hR : 0 < R) (e s : Fin 3) :
    rangeMatSubset (twoCells 2442) R (3 * R) (Real.pi / 2) 0 255 e s =
      FVal.num (if e = 1 ∧ s = 1 then Real.sqrt ((R * (Real.sqrt 3 / 2)) ^ 2 + (R * (3 / 2)) ^ 2)
        else if e = 2 ∧ s = 1 then Real.sqrt ((0.5 : ℝ) ^ 2 + (2 * R) ^ 2) else 0) := by
  simp only [rangeMatSubset, brightestCell_twoCells]
  fin_cases e <;> fin_cases s
  case «1».«1» =>
    rw [if_pos ⟨rfl, rfl⟩]
    exact rangeCell_side _ R hR (by decide)
  case «2».«1» =>
    rw [if_neg (by decide), if_pos ⟨rfl, rfl⟩]
    exact rangeCell_facing_big _ R hR (by decide)
  all_goals
    rw [if_neg (by decide), if_neg (by decide)]
    exact rangeCell_of_nonpos _ _ _ _ _ _ _ _ (by decide)
set_option maxRecDepth 100000 in
/-- The readings of the neighbourhood for `twoCells 2442`. -/
theorem brightMatSubset_twoCells (e s : Fin 3) :
    brightMatSubset (twoCells 2442) e s = if (e = 1 ∨ e = 2) ∧ s = 1 then 2442 else 0 := by
  revert e s
  decide

/-- The squared norm of the neighbourhood for `twoCells 2442`. -/
theorem froebNormSquared_twoCells : froebNormSquared (twoCells 2442) = 2 * 2442 ^ 2 := by
  rw [froebNormSquared_eq]
  simp only [brightMatSubset_twoCells, Fin.sum_univ_three]
  simp
  norm_num

/-- The weight of a cell of reading 2442 in a neighbourhood of squared norm `2*2442^2`
is one half. -/
theorem weight_half : (((2442 : Int) : ℝ) / Real.sqrt (2 * 2442 ^ 2)) ^ 2 = 1 / 2 := by
  rw [div_pow, Real.sq_sqrt (by positivity)]
  norm_num

/-- The value that `range_estimate` returns for `twoCells 2442`, seen from a sender
straight ahead of sensor 4 at distance `3*R` with heading 0: half the sum of the two
per-cell ranges. -/
theorem range_estimate_twoCells (R : ℝ) (hR : 0 < R) :
    range_estimate (twoCells 2442) R (3 * R) (Real.pi / 2) 0 255 =
      FVal.num (Real.sqrt ((-(R * (Real.sqrt 3 / 2))) ^ 2 + (R * (3 / 2)) ^ 2) / 2 +
        Real.sqrt ((0.5 : ℝ) ^ 2 + (2 * R) ^ 2) / 2) := by
  have hN : froebNormSquared (twoCells 2442) ≠ 0 := by
    rw [froebNormSquared_twoCells]
    norm_num
  rw [range_estimate_num _ _ _ _ _ _ _ (rangeMatSubset_twoCells R hR) hN]
  have hw := weight_half
  simp only [brightMatSubset_twoCells, froebNormSquared_twoCells, Fin.sum_univ_three]
  simp only [Fin.isValue, true_and, false_and, and_true, and_false, or_true, true_or,
    or_false, false_or, if_true, if_false, zero_ne_one, one_ne_zero, Fin.reduceEq, hw,
    Int.cast_zero, zero_div, zero_mul, mul_zero, add_zero, zero_add, neg_sq, ne_eq,
    OfNat.ofNat_ne_zero, not_false_eq_true, zero_pow]
  congr 1
  ring

/-- The per-cell range is the length of the per-cell range vector. -/
theorem rangeCell_eq_hypotf (bm : BrightMat) (R i b h : ℝ) (p : Nat) (e s : Fin 6) :
    rangeCell bm R i b h p e s =
      FVal.hypotf (rangeVector bm R i b h p e s).1 (rangeVector bm R i b h p e s).2 := by
  by_cases hpos : bm e s > 0
  · simp only [rangeCell, rangeVector, if_pos hpos]
  · simp only [rangeCell, rangeVector, if_neg hpos, FVal.hypotf]
    norm_num

/-- C23 (amended). When the nine per-cell range vectors `(calcRx, calcRy)` of the 3×3
neighbourhood are numbers (a cell without a positive reading counts as the zero vector)
and the Frobenius norm of the neighbourhood is not zero, `range_estimate` returns the
weighted average of the per-cell lengths, `Σ w_es * hypotf(calcRx_es, calcRy_es)` with
`w_es = (brightness_es / norm)²`: the lengths are averaged, not the vectors. -/
theorem range_estimate_weighted_lengths (bm : BrightMat) (R i b h : ℝ) (p : Nat)
    (vx vy : Fin 3 → Fin 3 → ℝ)
    (hv : ∀ e s, rangeVector bm R i b h p (otherIndex (brightestCell bm).maxE e)
      (otherIndex (brightestCell bm).maxS s) = (FVal.num (vx e s), FVal.num (vy e s)))
    (hN : froebNormSquared bm ≠ 0) :
    range_estimate bm R i b h p =
      FVal.num (∑ e : Fin 3, ∑ s : Fin 3,
        Real.sqrt ((vx e s) ^ 2 + (vy e s) ^ 2) *
          ((brightMatSubset bm e s : ℝ) / Real.sqrt (froebNormSquared bm)) ^ 2) := by
  refine range_estimate_num bm R i b h p _ (fun e s => ?_) hN
  rw [rangeMatSubset, rangeCell_eq_hypotf, hv]
  rfl

set_option maxRecDepth 100000 in
/-- The nine per-cell range vectors of the neighbourhood for `twoCells 2442`. -/
theorem rangeVector_twoCells (R : ℝ) (hR : 0 < R) (e s : Fin 3) :
    rangeVector (twoCells 2442) R (3 * R) (Real.pi / 2) 0 255
        (otherIndex (brightestCell (twoCells 2442)).maxE e)
        (otherIndex (brightestCell (twoCells 2442)).maxS s) =
      (FVal.num (if e = 1 ∧ s = 1 then -(R * (Real.sqrt 3 / 2))
          else if e = 2 ∧ s = 1 then 0.5 else 0),
        FVal.num (if e = 1 ∧ s = 1 then R * (3 / 2)
          else if e = 2 ∧ s = 1 then 2 * R else 0)) := by
  simp only [brightestCell_twoCells]
  fin_cases e <;> fin_cases s
  case «1».«1» =>
    rw [if_pos ⟨rfl, rfl⟩, if_pos ⟨rfl, rfl⟩]
    show rangeVector (twoCells 2442) R (3 * R) (Real.pi / 2) 0 255 0 4 = _
    rw [rangeVector, if_pos (by decide), calcR_side _ R hR]
  case «2».«1» =>
    rw [if_neg (by decide), if_pos ⟨rfl, rfl⟩, if_neg (by decide), if_pos ⟨rfl, rfl⟩]
    show rangeVector (twoCells 2442) R (3 * R) (Real.pi / 2) 0 255 1 4 = _
    have hb : (twoCells 2442) 1 4 = 2442 := by decide
    rw [rangeVector, if_pos (by decide), calcR_facing _ R hR, hb,
      inverse_amplitude_model_saturated]
    simp only [FVal.mulReal, FVal.addReal, FVal.subReal]
    congr 2 <;> ring
  all_goals
    rw [if_neg (by decide), if_neg (by decide), if_neg (by decide), if_neg (by decide)]
    rw [rangeVector, if_neg (by decide)]

/-- The value of the spec-side vector average for `twoCells 2442`, seen from a sender
straight ahead of sensor 4 at distance `3*R` with heading 0. -/
theorem spec_range_estimate_twoCells (R : ℝ) (hR : 0 < R) :
    spec_range_estimate (twoCells 2442) R (3 * R) (Real.pi / 2) 0 255 =
      FVal.num (Real.sqrt (((-(R * (Real.sqrt 3 / 2)) + 0.5) / 2) ^ 2 +
        ((R * (3 / 2) + 2 * R) / 2) ^ 2)) := by
  have hN : froebNormSquared (twoCells 2442) ≠ 0 := by
    rw [froebNormSquared_twoCells]
    norm_num
  rw [spec_range_estimate_num _ _ _ _ _ _ _ _ (rangeVector_twoCells R hR) hN]
  have hw := weight_half
  simp only [brightMatSubset_twoCells, froebNormSquared_twoCells, Fin.sum_univ_three]
  simp only [Fin.isValue, true_and, false_and, and_true, and_false, or_true, true_or,
    or_false, false_or, if_true, if_false, zero_ne_one, one_ne_zero, Fin.reduceEq, hw,
    Int.cast_zero, zero_div, zero_mul, mul_zero, add_zero, zero_add, ne_eq,
    OfNat.ofNat_ne_zero, not_false_eq_true, zero_pow]
  congr 3 <;> ring

/-- The mean of the lengths of two vectors that are not parallel is not the length of
their mean. -/
theorem avg_len_ne (x0 y0 x1 y1 : ℝ) (hc : x0 * y1 - x1 * y0 ≠ 0) :
    Real.sqrt (x0 ^ 2 + y0 ^ 2) / 2 + Real.sqrt (x1 ^ 2 + y1 ^ 2) / 2 ≠
      Real.sqrt (((x0 + x1) / 2) ^ 2 + ((y0 + y1) / 2) ^ 2) := by
  intro h
  have ha : Real.sqrt (x0 ^ 2 + y0 ^ 2) ^ 2 = x0 ^ 2 + y0 ^ 2 := Real.sq_sqrt (by positivity)
  have hb : Real.sqrt (x1 ^ 2 + y1 ^ 2) ^ 2 = x1 ^ 2 + y1 ^ 2 := Real.sq_sqrt (by positivity)
  have hm : Real.sqrt (((x0 + x1) / 2) ^ 2 + ((y0 + y1) / 2) ^ 2) ^ 2 =
      ((x0 + x1) / 2) ^ 2 + ((y0 + y1) / 2) ^ 2 := Real.sq_sqrt (by positivity)
  rw [← h] at hm
  generalize Real.sqrt (x0 ^ 2 + y0 ^ 2) = a at ha hm
  generalize Real.sqrt (x1 ^ 2 + y1 ^ 2) = b at hb hm
  have hab : a * b = x0 * x1 + y0 * y1 := by linear_combination 2 * hm - ha / 2 - hb / 2
  have hz : (x0 * y1 - x1 * y0) ^ 2 = 0 := by
    linear_combination (-(x1 ^ 2 + y1 ^ 2)) * ha - a ^ 2 * hb +
      (a * b + (x0 * x1 + y0 * y1)) * hab
  exact hc (pow_eq_zero_iff (by norm_num) |>.mp hz)

/-- C23 (counterexample). Readings 2442 in the cells `[0][4]` and `[1][4]`, sender straight
ahead of sensor 4 at distance `3*R` with heading 0, whatever the positive value `R` of
`DROPLET_SENSOR_RADIUS`: the two cells have weight 1/2 each and range vectors
`(-R*√3/2, 3R/2)` and `(0.5, 2R)`, which are not parallel; `range_estimate` returns half
the sum of their lengths, which is not the length of their average. -/
theorem range_estimate_not_vector_length :
    ¬ ∃ R : ℝ, 0 < R ∧
      range_estimate (twoCells 2442) R (3 * R) (Real.pi / 2) 0 255 =
        spec_range_estimate (twoCells 2442) R (3 * R) (Real.pi / 2) 0 255 := by
  rintro ⟨R, hR, h⟩
  rw [range_estimate_twoCells R hR, spec_range_estimate_twoCells R hR, FVal.num.injEq] at h
  have h3 : (0 : ℝ) < Real.sqrt 3 := Real.sqrt_pos.mpr (by norm_num)
  refine avg_len_ne (-(R * (Real.sqrt 3 / 2))) (R * (3 / 2)) 0.5 (2 * R) ?_ h
  have : -(R * (Real.sqrt 3 / 2)) * (2 * R) - 0.5 * (R * (3 / 2)) < 0 := by
    have := mul_pos hR hR
    have := mul_pos this h3
    nlinarith
  exact this.ne

/-- Witness of C23: `twoCells 2442` seen from a sender straight ahead of sensor 4 at
distance 3 with heading 0 and sensor radius 1. -/
theorem range_estimate_weighted_lengths_witness :
    froebNormSquared (twoCells 2442) ≠ 0 ∧
    range_estimate (twoCells 2442) 1 (3 * 1) (Real.pi / 2) 0 255 =
      FVal.num (∑ e : Fin 3, ∑ s : Fin 3,
        Real.sqrt ((if e = 1 ∧ s = 1 then -((1 : ℝ) * (Real.sqrt 3 / 2))
            else if e = 2 ∧ s = 1 then 0.5 else 0) ^ 2 +
          (if e = 1 ∧ s = 1 then (1 : ℝ) * (3 / 2)
            else if e = 2 ∧ s = 1 then 2 * 1 else 0) ^ 2) *
          ((brightMatSubset (twoCells 2442) e s : ℝ) /
            Real.sqrt (froebNormSquared (twoCells 2442))) ^ 2) :=
  have hN : froebNormSquared (twoCells 2442) ≠ 0 := by
    rw [froebNormSquared_twoCells]
    norm_num
  ⟨hN, range_estimate_weighted_lengths (twoCells 2442) 1 (3 * 1) (Real.pi / 2) 0 255 _ _
    (rangeVector_twoCells 1 one_pos) hN⟩

/-- A weighted mean with non-negative weights of sum 1 lies between two of the
averaged values. -/
theorem weighted_mean_between {ι : Type} [Fintype ι] (w ρ : ι → ℝ) (hw : ∀ k, 0 ≤ w k)
    (h1 : ∑ k, w k = 1) :
    (∃ k, ρ k ≤ ∑ k, ρ k * w k) ∧ (∃ k, ∑ k, ρ k * w k ≤ ρ k) := by
  have hz : ∑ k, w k * (ρ k - ∑ j, ρ j * w j) = 0 := by
    simp only [mul_sub, Finset.sum_sub_distrib, ← Finset.sum_mul, h1, one_mul]
    rw [sub_eq_zero]
    exact Finset.sum_congr rfl (fun k _ => mul_comm _ _)
  constructor
  · by_contra hc
    push_neg at hc
    have hnn : ∀ k ∈ Finset.univ, 0 ≤ w k * (ρ k - ∑ j, ρ j * w j) :=
      fun k _ => mul_nonneg (hw k) (sub_nonneg.mpr (hc k).le)
    have hall := (Finset.sum_eq_zero_iff_of_nonneg hnn).mp hz
    have hw0 : ∀ k, w k = 0 := by
      intro k
      rcases mul_eq_zero.mp (hall k (Finset.mem_univ k)) with h | h
      · exact h
      · linarith [hc k]
    simp [hw0] at h1
  · by_contra hc
    push_neg at hc
    have hnn : ∀ k ∈ Finset.univ, 0 ≤ -(w k * (ρ k - ∑ j, ρ j * w j)) := by
      intro k _
      have := mul_nonneg (hw k) (sub_nonneg.mpr (hc k).le)
      linarith
    have hz2 : ∑ k, -(w k * (ρ k - ∑ j, ρ j * w j)) = 0 := by
      rw [Finset.sum_neg_distrib, hz, neg_zero]
    have hall := (Finset.sum_eq_zero_iff_of_nonneg hnn).mp hz2
    have hw0 : ∀ k, w k = 0 := by
      intro k
      rcases mul_eq_zero.mp (neg_eq_zero.mp (hall k (Finset.mem_univ k))) with h | h
      · exact h
      · linarith [hc k]
    simp [hw0] at h1

/-- The centre of the neighbourhood is the brightest cell. -/
theorem otherIndex_one (m : Fin 6) : otherIndex m 1 = m := by
  revert m
  decide

/-- With a positive entry in the matrix the squared norm of the neighbourhood is
positive. -/
theorem froebNormSquared_pos (bm : BrightMat) (hpos : ∃ e s, 0 < bm e s) :
    0 < froebNormSquared bm := by
  obtain ⟨e, s, hes⟩ := hpos
  obtain ⟨-, hmax, -⟩ := brightestCell_spec bm (Or.inr ⟨e, s, by omega⟩)
  have hc : 0 < brightMatSubset bm 1 1 := by
    simp only [brightMatSubset, otherIndex_one]
    exact lt_of_lt_of_le hes (hmax e s)
  have hcr : (0 : ℝ) < (brightMatSubset bm 1 1 : ℝ) := by exact_mod_cast hc
  rw [froebNormSquared_eq]
  simp only [Fin.sum_univ_three]
  have := pow_pos hcr 2
  positivity

/-- The weights of the neighbourhood add up to 1 when its norm is not zero. -/
theorem weights_sum_one (bm : BrightMat) (hN : 0 < froebNormSquared bm) :
    ∑ e : Fin 3, ∑ s : Fin 3,
      ((brightMatSubset bm e s : ℝ) / Real.sqrt (froebNormSquared bm)) ^ 2 = 1 := by
  simp only [div_pow, Real.sq_sqrt hN.le, ← Finset.sum_div]
  rw [← froebNormSquared_eq]
  exact div_self hN.ne'

/-- C28 (amended). In `range_estimate`, if at least one entry of the brightness matrix is
positive, the squared Frobenius norm of the 3×3 neighbourhood is strictly positive, the
nine weights `(brightness/norm)²` are non-negative numbers and sum to 1; if moreover the
nine per-cell ranges of the neighbourhood are numbers (none is a NaN or infinite), the
returned range is a number that lies between two of them, hence between the smallest and
the largest. -/
theorem range_estimate_bounds (bm : BrightMat) (R i b h : ℝ) (p : Nat)
    (ρ : Fin 3 → Fin 3 → ℝ) (hpos : ∃ e s, 0 < bm e s)
    (hρ : ∀ e s, rangeMatSubset bm R i b h p e s = FVal.num (ρ e s)) :
    0 < froebNormSquared bm ∧
    (∀ e s, froebWeight bm e s =
        FVal.num (((brightMatSubset bm e s : ℝ) / Real.sqrt (froebNormSquared bm)) ^ 2) ∧
      0 ≤ ((brightMatSubset bm e s : ℝ) / Real.sqrt (froebNormSquared bm)) ^ 2) ∧
    ∑ e : Fin 3, ∑ s : Fin 3,
      ((brightMatSubset bm e s : ℝ) / Real.sqrt (froebNormSquared bm)) ^ 2 = 1 ∧
    ∃ x, range_estimate bm R i b h p = FVal.num x ∧
      (∃ e s, ρ e s ≤ x) ∧ (∃ e s, x ≤ ρ e s) := by
  have hN := froebNormSquared_pos bm hpos
  have hsum := weights_sum_one bm hN
  refine ⟨hN, fun e s => ⟨froebWeight_num bm hN.ne' e s, sq_nonneg _⟩, hsum, _,
    range_estimate_num bm R i b h p ρ hρ hN.ne', ?_⟩
  have hb := weighted_mean_between
    (fun k : Fin 3 × Fin 3 =>
      ((brightMatSubset bm k.1 k.2 : ℝ) / Real.sqrt (froebNormSquared bm)) ^ 2)
    (fun k : Fin 3 × Fin 3 => ρ k.1 k.2) (fun k => sq_nonneg _)
    (by rw [Fintype.sum_prod_type]; exact hsum)
  rw [Fintype.sum_prod_type] at hb
  obtain ⟨⟨k1, hk1⟩, ⟨k2, hk2⟩⟩ := hb
  exact ⟨⟨k1.1, k1.2, hk1⟩, ⟨k2.1, k2.2, hk2⟩⟩
set_option maxRecDepth 100000 in
/-- The nine per-cell ranges of the neighbourhood for `oneCell 2442`. -/
theorem rangeMatSubset_oneCell_big (R : ℝ) (hR : 0 < R) (e s : Fin 3) :
    rangeMatSubset (oneCell 2442) R (3 * R) (Real.pi / 2) 0 255 e s =
      FVal.num (if e = 1 ∧ s = 1 then Real.sqrt ((0.5 : ℝ) ^ 2 + (2 * R) ^ 2) else 0) := by
  simp only [rangeMatSubset, brightestCell_oneCell_big]
  fin_cases e <;> fin_cases s
  case «1».«1» =>
    rw [if_pos ⟨rfl, rfl⟩]
    exact rangeCell_facing_big _ R hR (by decide)
  all_goals
    rw [if_neg (by decide)]
    exact rangeCell_of_nonpos _ _ _ _ _ _ _ _ (by decide)

/-- A NaN range in the centre cell of the neighbourhood makes the result of
`range_estimate` a NaN. -/
theorem range_estimate_nan_of_centre (bm : BrightMat) (R i b h : ℝ) (p : Nat)
    (hc : rangeMatSubset bm R i b h p 1 1 = FVal.nan) :
    range_estimate bm R i b h p = FVal.nan := by
  have A : ∀ x, FVal.add x FVal.nan = FVal.nan := by
    intro x
    cases x <;> rfl
  have B : ∀ x, FVal.add FVal.nan x = FVal.nan := by
    intro x
    cases x <;> rfl
  have C : ∀ w, FVal.mul FVal.nan w = FVal.nan := by
    intro w
    cases w <;> rfl
  simp only [range_estimate, subDirs, List.foldl, hc, A, B, C]

/-- No float is at most a NaN, and a NaN is at most no float. -/
theorem FVal.le_nan (v : FVal) : ¬ FVal.le v FVal.nan ∧ ¬ FVal.le FVal.nan v := by
  cases v <;> simp [FVal.le]

/-- Witness of C28: the reading 2442 in cell `[1][4]`, seen head-on from distance 3 with
sensor radius 1: the returned range is the range of that cell. -/
theorem range_estimate_bounds_witness :
    (∃ e s, 0 < oneCell 2442 e s) ∧
    0 < froebNormSquared (oneCell 2442) ∧
    ∃ x, range_estimate (oneCell 2442) 1 (3 * 1) (Real.pi / 2) 0 255 = FVal.num x :=
  have hpos : ∃ e s, 0 < oneCell 2442 e s := ⟨1, 4, by decide⟩
  ⟨hpos,
    (range_estimate_bounds (oneCell 2442) 1 (3 * 1) (Real.pi / 2) 0 255 _ hpos
      (rangeMatSubset_oneCell_big 1 one_pos)).1,
    (range_estimate_bounds (oneCell 2442) 1 (3 * 1) (Real.pi / 2) 0 255 _ hpos
      (rangeMatSubset_oneCell_big 1 one_pos)).2.2.2.imp (fun _ hx => hx.1)⟩

/-- C28 (counterexample). The matrix with the single reading 1 in cell `[1][4]` has a
positive entry; seen head-on (sender straight ahead of sensor 4 at distance `3*R`,
heading 0, whatever the positive sensor radius `R`) the reading divided by the expected
contribution 0.94 is below 3.90804, the range of that cell is a NaN, and so is the value
returned by `range_estimate`: it lies between no two values. -/
theorem range_estimate_nan_cell :
    (∃ e s, 0 < oneCell 1 e s) ∧
    ¬ ∃ R : ℝ, 0 < R ∧ ∃ lo hi : FVal,
      FVal.le lo (range_estimate (oneCell 1) R (3 * R) (Real.pi / 2) 0 255) ∧
      FVal.le (range_estimate (oneCell 1) R (3 * R) (Real.pi / 2) 0 255) hi := by
  refine ⟨⟨1, 4, by decide⟩, ?_⟩
  rintro ⟨R, hR, lo, hi, h1, -⟩
  have hc : rangeMatSubset (oneCell 1) R (3 * R) (Real.pi / 2) 0 255 1 1 = FVal.nan := by
    simp only [rangeMatSubset, brightestCell_oneCell_one, otherIndex_one]
    exact rangeCell_facing_dim _ R hR (by decide)
  rw [range_estimate_nan_of_centre _ _ _ _ _ _ hc] at h1
  exact (FVal.le_nan lo).1 h1

/-! ## Theorems: legacy packing -/

/-- Invariant of the measurement loop: from a state whose `high` and `low` bracket the
readings seen so far. -/
theorem spread_foldl (l : List Nat) (acc : SpreadAcc) :
    (l.foldl spreadStep acc).high = l.foldl max acc.high ∧
    (l.foldl spreadStep acc).low = l.foldl min acc.low := by
  induction l generalizing acc with
  | nil => exact ⟨rfl, rfl⟩
  | cons m l ih =>
    simp only [List.foldl_cons]
    obtain ⟨h1, h2⟩ := ih (spreadStep acc m)
    rw [h1, h2]
    constructor
    · congr 1
      simp only [spreadStep]
      split_ifs <;> omega
    · congr 1
      simp only [spreadStep]
      split_ifs <;> omega

/-- For at least one reading, all below 256, `diff` is the largest reading minus the
smallest. -/
theorem measSpread_eq (m : Nat) (l : List Nat) (hb : ∀ x ∈ m :: l, x < 256) :
    measSpread (m :: l) = (m :: l).foldl max 0 - (m :: l).foldl min 255 ∧
    (m :: l).foldl min 255 ≤ (m :: l).foldl max 0 := by
  have hmax : ∀ (l : List Nat) (a : Nat), a ≤ l.foldl max a ∧
      ((∀ x ∈ l, x < 256) → a < 256 → l.foldl max a < 256) := by
    intro l
    induction l with
    | nil => exact fun a => ⟨le_rfl, fun _ h => h⟩
    | cons x l ih =>
      intro a
      simp only [List.foldl_cons]
      refine ⟨le_trans (le_max_left a x) (ih _).1, fun hx ha => (ih _).2 ?_ ?_⟩
      · exact fun y hy => hx y (List.mem_cons_of_mem _ hy)
      · exact max_lt ha (hx x (List.mem_cons_self _ _))
  have hmin : ∀ (l : List Nat) (a : Nat), l.foldl min a ≤ a := by
    intro l
    induction l with
    | nil => exact fun a => le_rfl
    | cons x l ih =>
      intro a
      simp only [List.foldl_cons]
      exact le_trans (ih _) (min_le_left a x)
  have hm := hb m (List.mem_cons_self _ _)
  have h1 : (m :: l).foldl min 255 ≤ m := by
    simp only [List.foldl_cons]
    exact le_trans (hmin l _) (min_le_right _ _)
  have h2 : m ≤ (m :: l).foldl max 0 := by
    simp only [List.foldl_cons]
    exact le_trans (le_max_right _ _) (hmax l _).1
  have h3 : (m :: l).foldl max 0 < 256 := (hmax (m :: l) 0).2 hb (by norm_num)
  obtain ⟨e1, e2⟩ := spread_foldl (m :: l) { high := 0, low := 255 }
  refine ⟨?_, le_trans h1 h2⟩
  simp only [measSpread, e1, e2]
  omega

/-- What the legacy `pack_measurements_into_matrix` stores: the entry
`brightness_matrix[s][e]` is the `diff` of the readings `bright_meas[e][s]`. -/
theorem pack_measurements_into_matrix_cell (bright_meas : Fin 6 → Fin 6 → List Nat)
    (bm0 : Fin 6 → Fin 6 → Nat) (e s : Fin 6) :
    (pack_measurements_into_matrix bright_meas bm0).1 s e = measSpread (bright_meas e s) := by
  simp only [pack_measurements_into_matrix, dirs, List.foldl, packCell]
  fin_cases e <;> fin_cases s <;> simp

/-- C21 (failing input). With the raw measurements `oneSighting` (emitter 0 seen by
sensor 1, readings 0 and 10) the legacy `pack_measurements_into_matrix` leaves
`brightness_matrix[0][1]` at 0, although the largest minus the smallest reading of
`bright_meas[0][1]` is 10; the 10 is stored in `brightness_matrix[1][0]`, the transposed
cell. -/
theorem pack_measurements_into_matrix_transposed :
    measSpread (oneSighting 0 1) = 10 ∧
    (pack_measurements_into_matrix oneSighting (fun _ _ => 0)).1 0 1 = 0 ∧
    (pack_measurements_into_matrix oneSighting (fun _ _ => 0)).1 1 0 = 10 := by
  decide

/-! ## Theorems: one cycle over the exact reals -/

/-- The angle of a point on the positive real axis. -/
theorem atan2f_zero_pos {x : ℝ} (hx : 0 < x) : atan2f 0 x = 0 := by
  rw [atan2f]
  have : (⟨x, 0⟩ : ℂ) = ((x : ℝ) : ℂ) := by
    apply Complex.ext <;> simp
  rw [this]
  exact Complex.arg_ofReal_of_nonneg hx.le

/-- The result of `calculate_bearing_and_heading` for `oneCell v` with a positive
reading: the sender is straight ahead of sensor 4 and its heading is 0. -/
theorem oneCell_angles (v : Int) (hv : 0 < v) :
    calculate_bearing_and_heading (oneCell v) = (Real.pi / 2, 0) := by
  have hv' : (0 : ℝ) < v := by exact_mod_cast hv
  have h1 : (∑ e : Fin 6, ∑ s : Fin 6, ((oneCell v e s : Int) : ℝ) * (bearingBasis s.val).1)
      = 0 := by
    simp [Fin.sum_univ_six, oneCell, bearingBasis]
  have h2 : (∑ e : Fin 6, ∑ s : Fin 6, ((oneCell v e s : Int) : ℝ) * (bearingBasis s.val).2)
      = v := by
    simp [Fin.sum_univ_six, oneCell, bearingBasis]
  have h3 : (∑ e : Fin 6, ∑ s : Fin 6,
      ((oneCell v e s : Int) : ℝ) * (headingBasis ((s.val + (6 - e.val)) % 6)).1) = v := by
    simp [Fin.sum_univ_six, oneCell, headingBasis]
  have h4 : (∑ e : Fin 6, ∑ s : Fin 6,
      ((oneCell v e s : Int) : ℝ) * (headingBasis ((s.val + (6 - e.val)) % 6)).2) = 0 := by
    simp [Fin.sum_univ_six, oneCell, headingBasis]
  simp only [calculate_bearing_and_heading, bearing_sums, h1, h2, h3, h4]
  rw [atan2f_pos_zero hv', atan2f_zero_pos hv']

/-- For the bearing `π/2` the selected sensor is 4. -/
theorem bestS_pi_div_two : bestS (Real.pi / 2) = 4 := by
  have hpi := Real.pi_pos
  have hq : (3.0 * (Real.pi / 2)) / Real.pi = 3 / 2 := by
    field_simp
    ring
  have hc : ⌈((3 / 2 : ℝ))⌉ = 2 := by
    rw [Int.ceil_eq_iff]
    constructor <;> norm_num
  simp only [bestS, hq, hc]
  decide

/-- For the bearing `π/2` and the heading 0 the selected emitter is 1. -/
theorem bestE_pi_div_two_zero : bestE (Real.pi / 2) 0 = 1 := by
  have hpi := Real.pi_pos
  have hq : (3.0 * (Real.pi / 2 - 0 - Real.pi)) / Real.pi = -(3 / 2) := by
    field_simp
    ring
  have hc : ⌈(-(3 / 2) : ℝ)⌉ = -1 := by
    rw [Int.ceil_eq_iff]
    constructor <;> norm_num
  simp only [bestE, hq, hc]
  decide

/-- The local `initial_range` of `get_initial_range_guess` for `oneCell 2442` seen at
bearing `π/2` and heading 0: the reading saturates the inverse amplitude model (0.5), and
the offset between sensor 4 and emitter 1 is added. -/
theorem oneCell_initial_guess (sensorRadius : ℝ) :
    get_initial_range_guess (oneCell 2442) sensorRadius (Real.pi / 2) 0 255 =
      FVal.num (Real.sqrt ((sensorRadius * 0.5) ^ 2 +
        (0.5 + sensorRadius * (1 - SQRT3_OVER2)) ^ 2)) := by
  have hpi := Real.pi_pos
  have hS := bestS_pi_div_two
  have hE := bestE_pi_div_two_zero
  have hA : initialAlpha (Real.pi / 2) = 0 := by
    have : Real.pi / 2 - basis_angle (4 : Int).toNat = 0 := by
      simp [basis_angle]
    rw [initialAlpha, hS, this]
    exact pretty_angle_eq_self (by linarith) hpi
  have hB : initialBeta (Real.pi / 2) 0 = 0 := by
    have : Real.pi / 2 - 0 - basis_angle (1 : Int).toNat - Real.pi = 0 := by
      simp [basis_angle]
    rw [initialBeta, hE, this]
    exact pretty_angle_eq_self (by linarith) hpi
  have hcell : brightCell (oneCell 2442) 1 4 = 2442 := by
    simp [brightCell, oneCell]
  have hsm : sensor_model 0 = 1 := by
    simp [sensor_model]
    norm_num
  have hem : emitter_model 0 = 0.94 := by
    simp [emitter_model]
    norm_num
  have c1 : ¬ ((0 : ℝ) > Real.pi / 2 ∨ (0 : ℝ) < -(Real.pi / 2)) := by
    rw [not_or]
    constructor <;> linarith
  have hexp : (1 : ℝ) * 0.94 > 0 := by norm_num
  have hinv : inverse_amplitude_model (((2442 : Int) : ℝ) / (1 * 0.94)) 255 = FVal.num 0.5 := by
    rw [one_mul]
    exact inverse_amplitude_model_saturated
  simp only [get_initial_range_guess, hA, hB, if_neg c1, hsm, hem, if_pos hexp, hS, hE, hcell,
    hinv, FVal.mulReal, FVal.addReal, FVal.hypotf]
  congr 2
  rw [Real.cos_pi_div_two, Real.sin_pi_div_two]
  simp [bearingBasis, headingBasis]

/-- The vector `(calcRx, calcRy)` of cell `[1][4]` for a sender straight ahead of
sensor 4 with heading 0 and an initial range below `2*DROPLET_SENSOR_RADIUS`: emitter 1
is then placed behind sensor 4, `alpha` is `π`, the expected contribution is 0 and
`calcRIJmag` is 0, so that the range vector is `(0, 2*DROPLET_SENSOR_RADIUS)`. -/
theorem calcR_facing_near (bm : BrightMat) (R ρ : ℝ) (hρ : ρ < 2 * R) :
    calcR bm R ρ (Real.pi / 2) 0 255 1 4 = (FVal.num 0, FVal.num (2 * R)) := by
  have hpi := Real.pi_pos
  have hpi3 := Real.pi_gt_three
  have v1 : ((1 : Fin 6) : Nat) = 1 := rfl
  have v4 : ((4 : Fin 6) : Nat) = 4 := rfl
  have hcb : getCosBearingBasis 0 4 = 0 := by simp [getCosBearingBasis, bearingBasis]
  have hsb : getSinBearingBasis 0 4 = 1 := by simp [getSinBearingBasis, bearingBasis]
  have hc1 : Real.cos (basis_angle 1 + 0) = 0 := by
    simp [basis_angle]
  have hs1 : Real.sin (basis_angle 1 + 0) = -1 := by
    simp [basis_angle]
  have e1 : R * -1 + ρ * 1 - R * 1 = ρ - 2 * R := by ring
  have e2 : R * 0 + ρ * 0 - R * 0 = 0 := by ring
  have e3 : R * 1 - (R * -1 + ρ * 1) = 2 * R - ρ := by ring
  have e4 : R * 0 - (R * 0 + ρ * 0) = 0 := by ring
  have hα : pretty_angle (atan2f (ρ - 2 * R) 0 - basis_angle 4) = Real.pi := by
    rw [atan2f_neg_zero (by linarith)]
    have e : -(Real.pi / 2) - basis_angle 4 = -Real.pi := by
      simp only [basis_angle]
      ring
    rw [e]
    exact pretty_angle_neg_pi
  have hsm : sensor_model Real.pi = 0 := by
    have h : |Real.pi| ≥ 1.5 := by
      rw [abs_of_pos hpi]
      norm_num
      linarith
    simp only [sensor_model, if_pos h]
    norm_num
  simp only [calcR, v1, v4, hcb, hsb, hc1, hs1, Real.cos_pi_div_two, Real.sin_pi_div_two,
    e1, e2, e3, e4, hα, hsm]
  simp only [zero_mul, gt_iff_lt, lt_irrefl, if_false, FVal.mulReal,
    FVal.addReal, FVal.subReal, mul_zero, mul_one, mul_neg, add_zero, sub_zero, zero_add,
    sub_neg_eq_add]
  congr 2
  ring

/-- The range of cell `[1][4]` in the situation of `calcR_facing_near`. -/
theorem rangeCell_facing_near (bm : BrightMat) (R ρ : ℝ) (hR : 0 < R) (hρ : ρ < 2 * R)
    (hb : 0 < bm 1 4) :
    rangeCell bm R ρ (Real.pi / 2) 0 255 1 4 = FVal.num (2 * R) := by
  rw [rangeCell, if_pos hb, calcR_facing_near bm R ρ hρ]
  simp only [FVal.hypotf]
  congr 1
  have : (0 : ℝ) ^ 2 + (2 * R) ^ 2 = (2 * R) ^ 2 := by ring
  rw [this, Real.sqrt_sq (by linarith)]

set_option maxRecDepth 100000 in
/-- The nine per-cell ranges of the neighbourhood for `oneCell 2442` in the situation of
`calcR_facing_near`. -/
theorem rangeMatSubset_oneCell_near (R ρ : ℝ) (hR : 0 < R) (hρ : ρ < 2 * R) (e s : Fin 3) :
    rangeMatSubset (oneCell 2442) R ρ (Real.pi / 2) 0 255 e s =
      FVal.num (if e = 1 ∧ s = 1 then 2 * R else 0) := by
  simp only [rangeMatSubset, brightestCell_oneCell_big]
  fin_cases e <;> fin_cases s
  case «1».«1» =>
    rw [if_pos ⟨rfl, rfl⟩]
    exact rangeCell_facing_near _ R ρ hR hρ (by decide)
  all_goals
    rw [if_neg (by decide)]
    exact rangeCell_of_nonpos _ _ _ _ _ _ _ _ (by decide)

set_option maxRecDepth 100000 in
/-- The readings of the neighbourhood for `oneCell 2442`. -/
theorem brightMatSubset_oneCell (e s : Fin 3) :
    brightMatSubset (oneCell 2442) e s = if e = 1 ∧ s = 1 then 2442 else 0 := by
  simp only [brightMatSubset, brightestCell_oneCell_big]
  fin_cases e <;> fin_cases s <;> rfl

/-- The squared norm of the neighbourhood for `oneCell 2442`. -/
theorem froebNormSquared_oneCell : froebNormSquared (oneCell 2442) = 2442 ^ 2 := by
  rw [froebNormSquared_eq]
  simp only [brightMatSubset_oneCell, Fin.sum_univ_three]
  norm_num [Fin.ext_iff]

/-- The value of `range_estimate` for `oneCell 2442`, seen at bearing `π/2` and heading 0
from an initial range below `2*DROPLET_SENSOR_RADIUS`, is `2*DROPLET_SENSOR_RADIUS`. -/
theorem range_estimate_oneCell_near (R ρ : ℝ) (hR : 0 < R) (hρ : ρ < 2 * R) :
    range_estimate (oneCell 2442) R ρ (Real.pi / 2) 0 255 = FVal.num (2 * R) := by
  rw [range_estimate_num (oneCell 2442) R ρ (Real.pi / 2) 0 255 _
    (rangeMatSubset_oneCell_near R ρ hR hρ) (by rw [froebNormSquared_oneCell]; norm_num)]
  congr 1
  rw [froebNormSquared_oneCell, Real.sqrt_sq (by norm_num)]
  simp only [brightMatSubset_oneCell, Fin.sum_univ_three]
  norm_num [Fin.ext_iff]

/-- The innovation between `oneCell 2442` and an expected matrix whose only nonzero
cells are `[0][5]`, `[1][4]` and `[2][3]`, the cell `[1][4]` being positive and the two
others non-negative and at most half of it together. -/
theorem innovation_oneCell_bound (E : Fin 6 → Fin 6 → ℝ) (a b c : ℝ)
    (hE : ∀ i j, E i j = if i = 0 ∧ j = 5 then a else if i = 1 ∧ j = 4 then b
      else if i = 2 ∧ j = 3 then c else 0)
    (ha : 0 ≤ a) (hb : 0 < b) (hc : 0 ≤ c) (hac : a + c ≤ b / 2) :
    ∃ x, innovation (oneCell 2442) E = FVal.num x ∧ 0 ≤ x ∧ x ≤ 1.5 := by
  have hN : (∑ e : Fin 6, ∑ s : Fin 6, E e s ^ 2) = a ^ 2 + b ^ 2 + c ^ 2 := by
    simp only [hE, Fin.sum_univ_six]
    simp +decide
  have hM : (∑ e : Fin 6, ∑ s : Fin 6, ((oneCell 2442 e s : Int) : ℝ) ^ 2) = 2442 ^ 2 := by
    simp only [oneCell, Fin.sum_univ_six]
    simp +decide
  have hNpos : 0 < a ^ 2 + b ^ 2 + c ^ 2 := by positivity
  rw [innovation_eq_num _ _ (by rw [hN]; exact hNpos.ne') (by rw [hM]; norm_num), hN, hM,
    rpow_neg_half _ hNpos, rpow_neg_half _ (by norm_num), Real.sqrt_sq (by norm_num)]
  refine ⟨_, rfl, ?_, ?_⟩
  · exact Finset.sum_nonneg fun _ _ => Finset.sum_nonneg fun _ _ => abs_nonneg _
  · have hs : 0 < Real.sqrt (a ^ 2 + b ^ 2 + c ^ 2) := Real.sqrt_pos.mpr hNpos
    have hbs : b ≤ Real.sqrt (a ^ 2 + b ^ 2 + c ^ 2) := by
      apply Real.le_sqrt_of_sq_le
      nlinarith [sq_nonneg a, sq_nonneg c]
    set n := Real.sqrt (a ^ 2 + b ^ 2 + c ^ 2) with hn
    have h1 : 0 ≤ b * n⁻¹ := by positivity
    have h2 : b * n⁻¹ ≤ 1 := by
      rw [← div_eq_mul_inv, div_le_one hs]
      exact hbs
    have h3 : a * n⁻¹ ≤ a / b := by
      rw [← div_eq_mul_inv]
      exact div_le_div_of_nonneg_left ha hb hbs
    have h4 : c * n⁻¹ ≤ c / b := by
      rw [← div_eq_mul_inv]
      exact div_le_div_of_nonneg_left hc hb hbs
    have h5 : a / b + c / b ≤ 1 / 2 := by
      rw [← add_div, div_le_iff₀ hb]
      linarith
    have h6 : 0 ≤ a * n⁻¹ := by positivity
    have h7 : 0 ≤ c * n⁻¹ := by positivity
    simp only [hE, oneCell, Fin.sum_univ_six]
    simp +decide
    rw [abs_of_nonneg h6, abs_of_nonneg h7, abs_of_nonneg (by linarith : 0 ≤ 1 - b * n⁻¹)]
    linarith

/-- Bounds of the square root of 3. -/
theorem sqrt_three_bounds :
    Real.sqrt 3 * Real.sqrt 3 = 3 ∧ 1.732 < Real.sqrt 3 ∧ Real.sqrt 3 < 1.7321 := by
  refine ⟨Real.mul_self_sqrt (by norm_num), ?_, ?_⟩
  · rw [Real.lt_sqrt (by norm_num)]
    norm_num
  · rw [Real.sqrt_lt' (by norm_num)]
    norm_num

/-- The expected brightness of the cell `[i][j]` for a sender straight ahead of sensor 4
(bearing `π/2`) at range 5 with heading 0, in terms of the basis tables. -/
theorem full_expected_bright_mat_ahead (radius : ℝ) (i j : Fin 6) :
    full_expected_bright_mat radius 5 (Real.pi / 2) 0 i j =
      if (radius * (bearingBasis i.val).1 - (scaledBearingBasis j.val).1) *
            (bearingBasis j.val).1 +
          (5 + radius * (bearingBasis i.val).2 - (scaledBearingBasis j.val).2) *
            (bearingBasis j.val).2 > 0 ∧
          -(radius * (bearingBasis i.val).1 - (scaledBearingBasis j.val).1) *
              (radius * (bearingBasis i.val).1) -
            (5 + radius * (bearingBasis i.val).2 - (scaledBearingBasis j.val).2) *
              (radius * (bearingBasis i.val).2) > 0
      then
        (((radius * (bearingBasis i.val).1 - (scaledBearingBasis j.val).1) *
              (bearingBasis j.val).1 +
            (5 + radius * (bearingBasis i.val).2 - (scaledBearingBasis j.val).2) *
              (bearingBasis j.val).2) *
          (-(radius * (bearingBasis i.val).1 - (scaledBearingBasis j.val).1) *
              (radius * (bearingBasis i.val).1) -
            (5 + radius * (bearingBasis i.val).2 - (scaledBearingBasis j.val).2) *
              (radius * (bearingBasis i.val).2)) *
          amplitude_model (Real.sqrt
            ((radius * (bearingBasis i.val).1 - (scaledBearingBasis j.val).1) *
              (radius * (bearingBasis i.val).1 - (scaledBearingBasis j.val).1) +
            (5 + radius * (bearingBasis i.val).2 - (scaledBearingBasis j.val).2) *
              (5 + radius * (bearingBasis i.val).2 - (scaledBearingBasis j.val).2)))) /
        ((radius * (bearingBasis i.val).1 - (scaledBearingBasis j.val).1) *
            (radius * (bearingBasis i.val).1 - (scaledBearingBasis j.val).1) +
          (5 + radius * (bearingBasis i.val).2 - (scaledBearingBasis j.val).2) *
            (5 + radius * (bearingBasis i.val).2 - (scaledBearingBasis j.val).2))
      else 0 := by
  have hb := bearingBasis_eq i.val i.isLt
  have h1 : Real.cos (basis_angle i.val + 0) = (bearingBasis i.val).1 := by
    rw [hb, add_zero]
  have h2 : Real.sin (basis_angle i.val + 0) = (bearingBasis i.val).2 := by
    rw [hb, add_zero]
  have hr : expectedRij radius 5 (Real.pi / 2) 0 i j =
      (radius * (bearingBasis i.val).1 - (scaledBearingBasis j.val).1,
        5 + radius * (bearingBasis i.val).2 - (scaledBearingBasis j.val).2) := by
    rw [expectedRij, h1, h2, Real.cos_pi_div_two, Real.sin_pi_div_two, mul_zero, zero_add,
      mul_one]
  rw [full_expected_bright_mat_eq, hr, h1, h2]

set_option maxHeartbeats 4000000 in
/-- For a sender straight ahead of sensor 4 at range 5 with heading 0 and
`DROPLET_RADIUS = 2.22`, the expected matrix is zero outside the cells `[0][5]`, `[1][4]`
and `[2][3]`: in every other cell the sensor or the emitter faces away from the ray. -/
theorem full_expected_bright_mat_ahead_zero (i j : Fin 6)
    (h : ¬ ((i = 0 ∧ j = 5) ∨ (i = 1 ∧ j = 4) ∨ (i = 2 ∧ j = 3))) :
    full_expected_bright_mat 2.22 5 (Real.pi / 2) 0 i j = 0 := by
  obtain ⟨hs, hlo, hhi⟩ := sqrt_three_bounds
  rw [full_expected_bright_mat_ahead]
  apply if_neg
  rintro ⟨ha, hb⟩
  revert h
  fin_cases i <;> fin_cases j <;> intro h
  case «0».«5» => exact h (by decide)
  case «1».«4» => exact h (by decide)
  case «2».«3» => exact h (by decide)
  all_goals
    clear h
    simp only [bearingBasis, scaledBearingBasis, SQRT3_OVER2] at ha hb
    norm_num at ha hb <;> linarith [ha, hb, hs, hlo, hhi]

/-- The amplitude model is positive, and at most 1304 beyond the distance 2.8. -/
theorem amplitude_model_far (r : ℝ) (hr : 2.8 ≤ r) :
    0 < amplitude_model r ∧ amplitude_model r ≤ 1304 := by
  have h5 : ¬ r ≤ 0.5 := by
    rw [not_le]
    linarith
  have hd : (10.33 : ℝ) ≤ 5.17716 + (r - 0.528561) ^ 2 := by nlinarith
  have hd0 : (0 : ℝ) < 5.17716 + (r - 0.528561) ^ 2 := by linarith
  have hq : 13427.5 / (5.17716 + (r - 0.528561) ^ 2) ≤ 13427.5 / 10.33 :=
    div_le_div_of_nonneg_left (by norm_num) (by norm_num) hd
  have hq0 : 0 < 13427.5 / (5.17716 + (r - 0.528561) ^ 2) := div_pos (by norm_num) hd0
  simp only [amplitude_model, if_neg h5]
  constructor
  · linarith
  · have : (13427.5 : ℝ) / 10.33 ≤ 1300 := by norm_num
    linarith

/-- The expected brightness `alpha*beta*amplitude_model(|rij|)/|rij|²` of a cell whose ray
has a squared length of at least 8.12, with `alpha ≤ 1.53` and `beta ≤ 2.94`, lies between
0 and 730. -/
theorem expected_cell_bound (α β q : ℝ) (hα0 : 0 < α) (hα : α ≤ 1.53) (hβ0 : 0 < β)
    (hβ : β ≤ 2.94) (hq : 8.12 ≤ q) :
    0 ≤ α * β * amplitude_model (Real.sqrt q) / q ∧
      α * β * amplitude_model (Real.sqrt q) / q ≤ 730 := by
  have hr : 2.8 ≤ Real.sqrt q := by
    apply Real.le_sqrt_of_sq_le
    norm_num
    linarith
  obtain ⟨hA0, hA⟩ := amplitude_model_far _ hr
  have hq0 : 0 < q := by linarith
  constructor
  · positivity
  · rw [div_le_iff₀ hq0]
    have h1 : α * β ≤ 1.53 * 2.94 := mul_le_mul hα hβ hβ0.le (by norm_num)
    have h2 : α * β * amplitude_model (Real.sqrt q) ≤ 1.53 * 2.94 * 1304 :=
      mul_le_mul h1 hA hA0.le (by norm_num)
    nlinarith

/-- The expected brightness of the cells `[0][5]` and `[2][3]` for a sender straight ahead
of sensor 4 at range 5 with heading 0 and `DROPLET_RADIUS = 2.22` lies between 0 and
730. -/
theorem full_expected_bright_mat_ahead_side (i j : Fin 6)
    (h : (i = 0 ∧ j = 5) ∨ (i = 2 ∧ j = 3)) :
    0 ≤ full_expected_bright_mat 2.22 5 (Real.pi / 2) 0 i j ∧
      full_expected_bright_mat 2.22 5 (Real.pi / 2) 0 i j ≤ 730 := by
  obtain ⟨hs, hlo, hhi⟩ := sqrt_three_bounds
  rw [full_expected_bright_mat_ahead]
  split_ifs with hc
  · obtain ⟨ha, hb⟩ := hc
    refine expected_cell_bound _ _ _ ha ?_ hb ?_ ?_ <;>
      rcases h with ⟨rfl, rfl⟩ | ⟨rfl, rfl⟩ <;>
      simp only [bearingBasis, scaledBearingBasis, SQRT3_OVER2] <;>
      norm_num <;> nlinarith [hs, hlo, hhi]
  · norm_num

/-- The expected brightness of the cell `[1][4]` for a sender straight ahead of sensor 4 at
range 5 with heading 0 and `DROPLET_RADIUS = 2.22` is at least 5700. -/
theorem full_expected_bright_mat_ahead_centre :
    5700 ≤ full_expected_bright_mat 2.22 5 (Real.pi / 2) 0 1 4 := by
  have hq : Real.sqrt ((0.6972 : ℝ) * 0.6972) = 0.6972 := Real.sqrt_mul_self (by norm_num)
  have h5 : ¬ (0.6972 : ℝ) ≤ 0.5 := by norm_num
  have v1 : ((1 : Fin 6) : ℕ) = 1 := rfl
  have v4 : ((4 : Fin 6) : ℕ) = 4 := rfl
  have ex : (2.22 : ℝ) * 0 - 0.0 = 0 := by norm_num
  have ey : (5 : ℝ) + 2.22 * -1 - 2.0828 = 0.6972 := by norm_num
  rw [full_expected_bright_mat_ahead]
  have ez : ((0 : ℝ) - 0.0) * (0 - 0.0) + 0.6972 * 0.6972 = 0.6972 * 0.6972 := by norm_num
  simp only [v1, v4, bearingBasis, scaledBearingBasis, ex, ey, mul_zero, zero_add]
  rw [ez, hq, if_pos (by norm_num)]
  simp only [amplitude_model, if_neg h5]
  norm_num

/-- The innovation of `oneCell 2442` against the expected matrix of a sender straight
ahead of sensor 4 at range 5 with heading 0 and `DROPLET_RADIUS = 2.22` is a number
between 0 and 1.5. -/
theorem calculate_innovation_oneCell :
    ∃ x, calculate_innovation (oneCell 2442) 2.22 5 (Real.pi / 2) 0 = FVal.num x ∧
      0 ≤ x ∧ x ≤ 1.5 := by
  obtain ⟨ha0, ha⟩ := full_expected_bright_mat_ahead_side 0 5 (Or.inl ⟨rfl, rfl⟩)
  obtain ⟨hc0, hc⟩ := full_expected_bright_mat_ahead_side 2 3 (Or.inr ⟨rfl, rfl⟩)
  have hb := full_expected_bright_mat_ahead_centre
  refine innovation_oneCell_bound _
    (full_expected_bright_mat 2.22 5 (Real.pi / 2) 0 0 5)
    (full_expected_bright_mat 2.22 5 (Real.pi / 2) 0 1 4)
    (full_expected_bright_mat 2.22 5 (Real.pi / 2) 0 2 3)
    (fun i j => ?_) ha0 (by linarith) hc0 (by linarith)
  by_cases h1 : i = 0 ∧ j = 5
  · rw [if_pos h1, h1.1, h1.2]
  · by_cases h2 : i = 1 ∧ j = 4
    · rw [if_neg h1, if_pos h2, h2.1, h2.2]
    · by_cases h3 : i = 2 ∧ j = 3
      · rw [if_neg h1, if_neg h2, if_pos h3, h3.1, h3.2]
      · rw [if_neg h1, if_neg h2, if_neg h3]
        exact full_expected_bright_mat_ahead_zero i j (by tauto)

/-- The initial range of `oneCell 2442` for `DROPLET_SENSOR_RADIUS = 2.0828` is positive
and below `2*DROPLET_SENSOR_RADIUS`. -/
theorem oneCell_initial_range_bounds :
    0 < Real.sqrt ((2.0828 * 0.5) ^ 2 + (0.5 + 2.0828 * (1 - SQRT3_OVER2)) ^ 2) ∧
    Real.sqrt ((2.0828 * 0.5) ^ 2 + (0.5 + 2.0828 * (1 - SQRT3_OVER2)) ^ 2) < 2 * 2.0828 := by
  obtain ⟨hs, hlo, hhi⟩ := sqrt_three_bounds
  constructor
  · apply Real.sqrt_pos.mpr
    have : (0 : ℝ) < (2.0828 * 0.5) ^ 2 := by norm_num
    positivity
  · rw [Real.sqrt_lt' (by norm_num)]
    simp only [SQRT3_OVER2]
    nlinarith [hs, hlo, hhi]

/-- The locals of `use_rnb_data` over the exact reals, with `DROPLET_RADIUS = 2.22` and
`DROPLET_SENSOR_RADIUS = 2.0828`, for the matrix `oneCell 2442`: bearing `π/2` and
heading 0, an initial range that is a positive number, the refined range
`2*DROPLET_SENSOR_RADIUS = 4.1656`, which is below `2*DROPLET_RADIUS = 4.44` and is
replaced by 5.0, and an innovation that is a number between 0 and 1.5. -/
theorem oneCell_locals :
    rnbAngles (realFloat 2.22 2.0828) oneCellState = (FVal.num (Real.pi / 2), FVal.num 0) ∧
    (∃ ρ, 0 < ρ ∧ rnbInitialRange (realFloat 2.22 2.0828) oneCellState = FVal.num ρ) ∧
    rnbRefinedRange (realFloat 2.22 2.0828) oneCellState = FVal.num (2 * 2.0828) ∧
    rnbFlooredRange (realFloat 2.22 2.0828) oneCellState = FVal.num 5 ∧
    ∃ x, rnbInnovation (realFloat 2.22 2.0828) oneCellState = FVal.num x ∧
      0 ≤ x ∧ x ≤ 1.5 := by
  have hbm : oneCellState.brightMeas = oneCell 2442 := rfl
  have hang : rnbAngles (realFloat 2.22 2.0828) oneCellState =
      (FVal.num (Real.pi / 2), FVal.num 0) := by
    simp only [rnbAngles, realFloat, hbm, oneCell_angles 2442 (by norm_num)]
  obtain ⟨hρ0, hρ2⟩ := oneCell_initial_range_bounds
  have hinit : rnbInitialRange (realFloat 2.22 2.0828) oneCellState =
      FVal.num (Real.sqrt ((2.0828 * 0.5) ^ 2 + (0.5 + 2.0828 * (1 - SQRT3_OVER2)) ^ 2)) := by
    rw [rnbInitialRange, hang]
    simp only [realFloat, hbm]
    exact oneCell_initial_guess 2.0828
  have href : rnbRefinedRange (realFloat 2.22 2.0828) oneCellState =
      FVal.num (2 * 2.0828) := by
    rw [rnbRefinedRange, hinit, hang]
    simp only [realFloat, hbm]
    exact range_estimate_oneCell_near 2.0828 _ (by norm_num) hρ2
  have hfl : rnbFlooredRange (realFloat 2.22 2.0828) oneCellState = FVal.num 5 := by
    have hlt : (2 * 2.0828 : ℝ) < ((2 : ℚ) : ℝ) * 2.22 := by norm_num
    rw [rnbFlooredRange, href]
    simp only [realFloat, FVal.mul, FVal.lt, hlt, decide_True, if_true]
    norm_num
  refine ⟨hang, ⟨_, hρ0, hinit⟩, href, hfl, ?_⟩
  rw [rnbInnovation, hfl, hang]
  simp only [realFloat, hbm]
  exact calculate_innovation_oneCell

/-- Over the exact reals, with `DROPLET_RADIUS = 2.22` and
`DROPLET_SENSOR_RADIUS = 2.0828`, the matrix `oneCell 2442` passes the three acceptance
tests of `use_rnb_data`. -/
theorem oneCell_accepted : rnbAccepted (realFloat 2.22 2.0828) oneCellState = true := by
  obtain ⟨-, ⟨ρ, hρ0, hinit⟩, href, -, x, hx, -, hx2⟩ := oneCell_locals
  have h1 : ρ ≠ ((0 : ℚ) : ℝ) := by
    rw [Rat.cast_zero]
    exact hρ0.ne'
  have h2 : ¬ ((2.5 : ℚ) : ℝ) < x := by
    rw [not_lt]
    have : ((2.5 : ℚ) : ℝ) = 2.5 := by norm_num
    rw [this]
    linarith
  rw [rnbAccepted, hinit, href, hx]
  simp only [realFloat, FVal.ne, FVal.isnan, FVal.lt, h1, h2, ne_eq, not_false_eq_true,
    decide_True, decide_False, Bool.not_false, Bool.and_self]

/-- Over the exact reals, with `DROPLET_RADIUS = 2.22` and
`DROPLET_SENSOR_RADIUS = 2.0828`, `use_rnb_data` publishes the range 50 for the matrix
`oneCell 2442`. -/
theorem oneCell_published :
    (use_rnb_data (realFloat 2.22 2.0828) oneCellState).rnb_updated = 1 ∧
    (use_rnb_data (realFloat 2.22 2.0828) oneCellState).last_good_rnb.range = 50 := by
  obtain ⟨hu, hr⟩ := use_rnb_data_of_accept _ _ oneCell_accepted
  refine ⟨hu, ?_⟩
  rw [hr, oneCell_locals.2.2.2.1]
  have e : ((10.0 : ℚ) : ℝ) * 5 = ((50 : ℤ) : ℝ) := by norm_num
  simp only [realFloat, FVal.mul, FVal.trunc, e, Int.floor_intCast]
  norm_num
  rfl

/-- Ten times `2*DROPLET_RADIUS`, converted to `uint16_t`, is 44 for
`DROPLET_RADIUS = 2.22`. -/
theorem floor_published_value :
    (realFloat 2.22 2.0828).toUInt16
      ((realFloat 2.22 2.0828).mul ((realFloat 2.22 2.0828).lit 10.0)
        ((realFloat 2.22 2.0828).mul ((realFloat 2.22 2.0828).lit 2)
          (realFloat 2.22 2.0828).DROPLET_RADIUS)) = 44 := by
  have e : ((10.0 : ℚ) : ℝ) * (((2 : ℚ) : ℝ) * 2.22) = 44.4 := by norm_num
  have hf : ⌊(44.4 : ℝ)⌋ = 44 := by
    rw [Int.floor_eq_iff]
    constructor <;> norm_num
  have h0 : (0 : ℝ) ≤ 44.4 := by norm_num
  simp only [realFloat, FVal.mul, FVal.trunc, e, hf, if_pos h0]
  rfl

/-- C15 (amended). Whenever `use_rnb_data` publishes an estimate, a refined range for
which `range < 2*DROPLET_RADIUS` holds is replaced by the constant 5.0, not by
`2*DROPLET_RADIUS`, before the conversion (times 10, cast to `uint16_t`) into
`last_good_rnb.range`, and any other refined range is converted as it is; so the range
that is converted is never below the floor `2*DROPLET_RADIUS` provided the floor is not
above 5.0 (the test `5.0 < 2*DROPLET_RADIUS` fails). -/
theorem use_rnb_data_range_floor {F : Type} (fl : FloatOps F) (st : State)
    (h : rnbAccepted fl st = true) :
    ((use_rnb_data fl st).last_good_rnb.range =
      if fl.lt (rnbRefinedRange fl st) (fl.mul (fl.lit 2) fl.DROPLET_RADIUS) = true
      then fl.toUInt16 (fl.mul (fl.lit 10.0) (fl.lit 5.0))
      else fl.toUInt16 (fl.mul (fl.lit 10.0) (rnbRefinedRange fl st))) ∧
    (use_rnb_data fl st).last_good_rnb.range =
      fl.toUInt16 (fl.mul (fl.lit 10.0) (rnbFlooredRange fl st)) ∧
    (fl.lt (fl.lit 5.0) (fl.mul (fl.lit 2) fl.DROPLET_RADIUS) = false →
      fl.lt (rnbFlooredRange fl st) (fl.mul (fl.lit 2) fl.DROPLET_RADIUS) = false) := by
  refine ⟨?_, (use_rnb_data_of_accept fl st h).2, fun h5 => ?_⟩
  · rw [(use_rnb_data_of_accept fl st h).2, rnbFlooredRange]
    split_ifs <;> rfl
  · rw [rnbFlooredRange]
    split_ifs with hlt
    · exact h5
    · simpa using hlt

/-- Witness of C15: the exact reals with `DROPLET_RADIUS = 2.22` and
`DROPLET_SENSOR_RADIUS = 2.0828`, and the matrix `oneCell 2442`: the estimate is
published, the range that is converted is 5.0, and it is not below the floor 4.44. -/
theorem use_rnb_data_range_floor_witness :
    rnbAccepted (realFloat 2.22 2.0828) oneCellState = true ∧
    (use_rnb_data (realFloat 2.22 2.0828) oneCellState).last_good_rnb.range =
      (realFloat 2.22 2.0828).toUInt16
        ((realFloat 2.22 2.0828).mul ((realFloat 2.22 2.0828).lit 10.0)
          (rnbFlooredRange (realFloat 2.22 2.0828) oneCellState)) ∧
    (realFloat 2.22 2.0828).lt (rnbFlooredRange (realFloat 2.22 2.0828) oneCellState)
      ((realFloat 2.22 2.0828).mul ((realFloat 2.22 2.0828).lit 2)
        (realFloat 2.22 2.0828).DROPLET_RADIUS) = false :=
  ⟨oneCell_accepted,
    (use_rnb_data_range_floor (realFloat 2.22 2.0828) oneCellState oneCell_accepted).2.1,
    (use_rnb_data_range_floor (realFloat 2.22 2.0828) oneCellState oneCell_accepted).2.2
      (by
        have hlt : ¬ ((5.0 : ℚ) : ℝ) < ((2 : ℚ) : ℝ) * 2.22 := by norm_num
        simp only [realFloat, FVal.mul, FVal.lt, hlt, decide_False])⟩

/-- C15 (counterexample). Over the exact reals with `DROPLET_RADIUS = 2.22` (floor 4.44)
and `DROPLET_SENSOR_RADIUS = 2.0828`, the matrix `oneCell 2442` (the reading 2442 in cell
`[1][4]`) passes the three acceptance tests; `range_estimate` returns 4.1656, which is
below the floor, and the estimate is published with range 50 (ten times 5.0), whereas ten
times the floor `2*DROPLET_RADIUS`, cast to `uint16_t`, is 44: the range is not replaced by
the floor. -/
theorem use_rnb_data_range_not_floor :
    rnbAccepted (realFloat 2.22 2.0828) oneCellState = true ∧
    rnbRefinedRange (realFloat 2.22 2.0828) oneCellState = FVal.num (2 * 2.0828) ∧
    (realFloat 2.22 2.0828).lt (rnbRefinedRange (realFloat 2.22 2.0828) oneCellState)
      ((realFloat 2.22 2.0828).mul ((realFloat 2.22 2.0828).lit 2)
        (realFloat 2.22 2.0828).DROPLET_RADIUS) = true ∧
    (use_rnb_data (realFloat 2.22 2.0828) oneCellState).rnb_updated = 1 ∧
    (use_rnb_data (realFloat 2.22 2.0828) oneCellState).last_good_rnb.range = 50 ∧
    (realFloat 2.22 2.0828).toUInt16
      ((realFloat 2.22 2.0828).mul ((realFloat 2.22 2.0828).lit 10.0)
        ((realFloat 2.22 2.0828).mul ((realFloat 2.22 2.0828).lit 2)
          (realFloat 2.22 2.0828).DROPLET_RADIUS)) = 44 := by
  refine ⟨oneCell_accepted, oneCell_locals.2.2.1, ?_, oneCell_published.1,
    oneCell_published.2, floor_published_value⟩
  have hlt : (2 * 2.0828 : ℝ) < ((2 : ℚ) : ℝ) * 2.22 := by norm_num
  rw [oneCell_locals.2.2.1]
  simp only [realFloat, FVal.mul, FVal.lt, hlt, decide_True]

/-- In the float semantics of the exact reals `x > 3.0` implies `x > 2.5`. -/
theorem realFloat_gt_three (radius sensorRadius : ℝ) (x : FVal)
    (h : (realFloat radius sensorRadius).gt x ((realFloat radius sensorRadius).lit 3.0) = true) :
    (realFloat radius sensorRadius).gt x ((realFloat radius sensorRadius).lit 2.5) = true := by
  cases x with
  | num y =>
    simp only [realFloat, FVal.lt, decide_eq_true_eq] at h ⊢
    have e3 : ((3.0 : ℚ) : ℝ) = 3 := by norm_num
    have e25 : ((2.5 : ℚ) : ℝ) = 2.5 := by norm_num
    rw [e3] at h
    rw [e25]
    linarith
  | pinf => rfl
  | ninf => exact h
  | nan => exact h

/-- Witness of C26: the exact reals with `DROPLET_RADIUS = 2.22` and
`DROPLET_SENSOR_RADIUS = 2.0828`, and the matrix `oneCell 2442`: the estimate is
published and the penalty test fails. -/
theorem use_rnb_data_no_penalty_witness :
    (∀ x, (realFloat 2.22 2.0828).gt x ((realFloat 2.22 2.0828).lit 3.0) = true →
      (realFloat 2.22 2.0828).gt x ((realFloat 2.22 2.0828).lit 2.5) = true) ∧
    rnbAccepted (realFloat 2.22 2.0828) oneCellState = true ∧
    (use_rnb_data (realFloat 2.22 2.0828) oneCellState).rnb_updated = 1 ∧
    (realFloat 2.22 2.0828).gt (rnbInnovation (realFloat 2.22 2.0828) oneCellState)
      ((realFloat 2.22 2.0828).lit 3.0) = false :=
  ⟨realFloat_gt_three 2.22 2.0828, oneCell_accepted,
    (use_rnb_data_no_penalty _ _ (realFloat_gt_three 2.22 2.0828) oneCell_accepted).1,
    (use_rnb_data_no_penalty _ _ (realFloat_gt_three 2.22 2.0828) oneCell_accepted).2.2.1⟩

end Droplet
